import Mathlib

/-!
# GltfIvWriter: a shallow embedding of `src/shared/GltfIv/GltfIvWriter.cxx`

The writer walks a parsed glTF model (scenes, nodes, meshes, primitives) and
appends Open Inventor nodes to one root separator (`m_ivModel`), sharing one
normal registry (`m_normalMap`) over the whole run.

Conventions of the embedding.

* The mutable members `m_ivModel` and `m_normalMap` form an explicit `State`
  that every operation threads through.
* A member function that returns `bool` and may throw yields an `Outcome`:
  `ret b s` (returned `b`, members are `s`) or `raised e s` (threw `e` while
  the members were `s`).
* The node walk is recursive through `children`, and the model may contain a
  cycle.  The walk takes a fuel that bounds the nesting depth of `convertNode`
  calls; `none` means the fuel ran out.
* `int` values are unbounded integers.  The registry index is an `int32_t`
  obtained from `m_normalMap.size()` and post-incremented; the increment
  overflows (undefined for a signed integer) in the very statement that
  inserts the entry with index `2^31 - 1`, so in every execution free of
  undefined behaviour the cast and the increments are exact.
* `double` values, and the `float` values read from accessors, are exact
  rationals; NaN and infinities are outside the embedding.  A `float` that
  the writer makes from a `double` or from a literal is a `Float32`: it is
  named by the number it is the rounding of, and the rounding is not
  computed.
-/

set_option autoImplicit false

namespace GltfIv

/-! ## tinygltf constants -/

/-- Value of `TINYGLTF_MODE_LINE`. -/
def TINYGLTF_MODE_LINE : Int := 1
/-- Value of `TINYGLTF_MODE_TRIANGLES`. -/
def TINYGLTF_MODE_TRIANGLES : Int := 4

/-- Value of `TINYGLTF_TYPE_VEC2`. -/
def TINYGLTF_TYPE_VEC2 : Int := 2
/-- Value of `TINYGLTF_TYPE_VEC3`. -/
def TINYGLTF_TYPE_VEC3 : Int := 3
/-- Value of `TINYGLTF_TYPE_SCALAR`, which is `64 + 1`. -/
def TINYGLTF_TYPE_SCALAR : Int := 65

/-- Value of `TINYGLTF_COMPONENT_TYPE_BYTE`. -/
def TINYGLTF_COMPONENT_TYPE_BYTE : Int := 5120
/-- Value of `TINYGLTF_COMPONENT_TYPE_UNSIGNED_BYTE`. -/
def TINYGLTF_COMPONENT_TYPE_UNSIGNED_BYTE : Int := 5121
/-- Value of `TINYGLTF_COMPONENT_TYPE_SHORT`. -/
def TINYGLTF_COMPONENT_TYPE_SHORT : Int := 5122
/-- Value of `TINYGLTF_COMPONENT_TYPE_UNSIGNED_SHORT`. -/
def TINYGLTF_COMPONENT_TYPE_UNSIGNED_SHORT : Int := 5123
/-- Value of `TINYGLTF_COMPONENT_TYPE_INT`. -/
def TINYGLTF_COMPONENT_TYPE_INT : Int := 5124
/-- Value of `TINYGLTF_COMPONENT_TYPE_UNSIGNED_INT`. -/
def TINYGLTF_COMPONENT_TYPE_UNSIGNED_INT : Int := 5125
/-- Value of `TINYGLTF_COMPONENT_TYPE_FLOAT`. -/
def TINYGLTF_COMPONENT_TYPE_FLOAT : Int := 5126

/-! ## Input model (`tinygltf::Model`) -/

/-- Three numbers: `position_t`, `normal_t`, `SbVec3f`. -/
structure Vec3 where
  x : Rat
  y : Rat
  z : Rat
  deriving DecidableEq, Repr

/-- Two numbers: `texture_coordinate_t`. -/
structure Vec2 where
  u : Rat
  v : Rat
  deriving DecidableEq, Repr

abbrev position_t := Vec3
abbrev normal_t := Vec3
abbrev texture_coordinate_t := Vec2

/-- The native element type an index accessor is read at: the template
argument of `accessorContents` in `indices`. -/
inductive ElementKind
  | int8
  | uint8
  | int16
  | uint16
  | uint32
  | float32
  deriving DecidableEq, Repr

/-- An accessor (`tinygltf::Accessor`): its component type, its element shape
(`type`) and the element stream of the byte run it views.  The byte run
itself is not embedded; the accessor carries the stream for each element
representation that the writer asks for. -/
structure Accessor where
  componentType : Int
  type : Int
  scalarData : List Nat
  vec2Data : List Vec2
  vec3Data : List Vec3
  deriving DecidableEq, Repr

/-- A material (`tinygltf::Material`), with
`pbrMetallicRoughness.baseColorFactor` and some of the fields the writer
never reads. -/
structure Material where
  name : String
  baseColorFactor : List Rat
  metallicFactor : Rat
  roughnessFactor : Rat
  emissiveFactor : List Rat
  alphaMode : String
  doubleSided : Bool
  deriving DecidableEq, Repr

/-- A primitive (`tinygltf::Primitive`): `attributes` is the map from
attribute name to accessor index. -/
structure Primitive where
  attributes : List (String × Int)
  material : Int
  indices : Int
  mode : Int
  deriving DecidableEq, Repr

/-- A mesh (`tinygltf::Mesh`). -/
structure Mesh where
  name : String
  primitives : List Primitive
  deriving DecidableEq, Repr

/-- A node (`tinygltf::Node`): `mesh` is negative when the node has none. -/
structure Node where
  name : String
  mesh : Int
  children : List Int
  deriving DecidableEq, Repr

/-- A scene (`tinygltf::Scene`). -/
structure Scene where
  name : String
  nodes : List Int
  deriving DecidableEq, Repr

/-- The model (`tinygltf::Model`, the member `m_gltfModel`). -/
structure Model where
  scenes : List Scene
  nodes : List Node
  meshes : List Mesh
  accessors : List Accessor
  materials : List Material
  deriving DecidableEq, Repr

/-! ## Output tree (children of `m_ivModel`) and writer state -/

/-- The two binding values the writer sets. -/
inductive Binding
  | overall
  | perVertexIndexed
  deriving DecidableEq, Repr

/-- A `float` that the writer makes by rounding: `Float32.nearest q` is the
binary32 value nearest to the number `q`, the result of `static_cast<float>`
on the `double` `q` and the value of a `float` literal written as `q`.  The
rounding is not computed; the value is named by `q`.  Values with the same
name are the same `float`; nothing below is concluded from two names being
different. -/
structure Float32 where
  nearest ::
  source : Rat
  deriving DecidableEq, Repr

/-- The `float` literals of whole numbers, such as `0.0f`. -/
instance (n : Nat) : OfNat Float32 n := ⟨.nearest (n : Rat)⟩

/-- A colour (`SbColor`): three `float` values. -/
structure SbColor where
  r : Float32
  g : Float32
  b : Float32
  deriving DecidableEq, Repr

/-- The fields of the `SoMaterial` node that `convertMaterial` sets. -/
structure SoMaterial where
  ambientColor : SbColor
  diffuseColor : SbColor
  specularColor : SbColor
  emissiveColor : SbColor
  shininess : Float32
  transparency : Float32
  deriving DecidableEq, Repr

/-- A child of the root separator.  An entry of `normal` is `none` when the
slot was allocated by `setNum` and never assigned. -/
inductive OutputNode
  | material (m : SoMaterial)
  | materialBinding (value : Binding)
  | coordinate3 (point : List position_t)
  | normalBinding (value : Binding)
  | normal (vector : List (Option normal_t))
  | indexedTriangles (coordIndex : List Int) (normalIndex : List Int)
  deriving DecidableEq, Repr

/-- The normal registry `m_normalMap`: a finite map from normal to index,
kept as an association list with one entry per key. -/
abbrev NormalMap := List (normal_t × Int)

/-- The members that a conversion mutates: the children of `m_ivModel` and
`m_normalMap`. -/
structure State where
  children : List OutputNode
  normalMap : NormalMap
  deriving DecidableEq, Repr

/-- The members after the constructor: an empty separator, an empty map. -/
def State.init : State := { children := [], normalMap := [] }

/-- The call `m_ivModel->addChild(node)`: the node becomes the last child. -/
def State.addChild (s : State) (node : OutputNode) : State :=
  { s with children := s.children ++ [node] }

/-- The exceptions the writer throws, all derived from `std::exception`:
`outOfRange` is the `std::out_of_range` of `at`, `typeMismatch` the
`std::domain_error` of `ensureAccessorType`, `unsupportedComponentType` the
`std::invalid_argument` of `indices`, `malformedTriangleList` the structural
error of the triangle assembly. -/
inductive Error
  | outOfRange
  | typeMismatch
  | unsupportedComponentType
  | malformedTriangleList
  deriving DecidableEq, Repr

/-- How a `bool` member function ends: it returns, or it throws. -/
inductive Outcome
  | ret (value : Bool) (s : State)
  | raised (e : Error) (s : State)
  deriving DecidableEq, Repr

/-! ## Container access -/

/-- The call `v.at(i)` of a `std::vector` with an `int` argument: the
argument converts to `size_t`, so a negative one is above every size. -/
def vectorAt {α : Type} (v : List α) (i : Int) : Except Error α :=
  if i < 0 then .error .outOfRange
  else match v[i.toNat]? with
    | some a => .ok a
    | none => .error .outOfRange

/-- The call `m.at(key)` of a `std::map`. -/
def mapAt (m : List (String × Int)) (key : String) : Except Error Int :=
  match m.lookup key with
  | some a => .ok a
  | none => .error .outOfRange

/-- The call `m_normalMap.contains(normal)`. -/
def NormalMap.contains (m : NormalMap) (normal : normal_t) : Bool :=
  (m.lookup normal).isSome

/-- The assignment `m_normalMap[normal] = index`. -/
def NormalMap.set (m : NormalMap) (normal : normal_t) (index : Int) : NormalMap :=
  if m.contains normal then
    m.map (fun e => if e.1 = normal then (e.1, index) else e)
  else m ++ [(normal, index)]

/-! ## Attribute decoding -/

/-- Modelled from the spec: `accessorContents<T>` for a 3-vector element type
is not part of the source files; it yields the accessor's elements in order. -/
def accessorContentsVec3 (accessor : Accessor) : List Vec3 :=
  accessor.vec3Data

/-- Modelled from the spec: `accessorContents<T>` for a 2-vector element type
is not part of the source files; it yields the accessor's elements in order. -/
def accessorContentsVec2 (accessor : Accessor) : List Vec2 :=
  accessor.vec2Data

/-- The result type `indices_t`: the native element type the stream was read
at, and the indices. -/
structure indices_t where
  kind : ElementKind
  values : List Nat
  deriving DecidableEq, Repr

/-- Modelled from the spec: `accessorContents<T>` for a scalar element type
`T` is not part of the source files; it reads the accessor's elements at the
native type `T`, in order. -/
def accessorContentsScalar (kind : ElementKind) (accessor : Accessor) : indices_t :=
  { kind := kind, values := accessor.scalarData }

/-- Source `GltfIvWriter::ensureAccessorType`: throws `std::domain_error`
when the accessor's type is not the expected one. -/
def ensureAccessorType (accessor : Accessor) (accessorType : Int) : Except Error Unit :=
  if accessor.type ≠ accessorType then .error .typeMismatch else .ok ()

/-- Source `GltfIvWriter::indices`. -/
def indices (m : Model) (primitive : Primitive) : Except Error indices_t :=
  match vectorAt m.accessors primitive.indices with
  | .error e => .error e
  | .ok accessor =>
    match ensureAccessorType accessor TINYGLTF_TYPE_SCALAR with
    | .error e => .error e
    | .ok _ =>
      if accessor.componentType = TINYGLTF_COMPONENT_TYPE_BYTE then
        .ok (accessorContentsScalar .int8 accessor)
      else if accessor.componentType = TINYGLTF_COMPONENT_TYPE_UNSIGNED_BYTE then
        .ok (accessorContentsScalar .uint8 accessor)
      else if accessor.componentType = TINYGLTF_COMPONENT_TYPE_SHORT then
        .ok (accessorContentsScalar .int16 accessor)
      else if accessor.componentType = TINYGLTF_COMPONENT_TYPE_UNSIGNED_SHORT then
        .ok (accessorContentsScalar .uint16 accessor)
      else if accessor.componentType = TINYGLTF_COMPONENT_TYPE_UNSIGNED_INT then
        .ok (accessorContentsScalar .uint32 accessor)
      else if accessor.componentType = TINYGLTF_COMPONENT_TYPE_FLOAT then
        .ok (accessorContentsScalar .float32 accessor)
      else .error .unsupportedComponentType

/-- The accessor an attribute name resolves to:
`m_gltfModel.accessors.at(primitive.attributes.at(name))`. -/
def attributeAccessor (m : Model) (primitive : Primitive) (name : String) :
    Except Error Accessor :=
  match mapAt primitive.attributes name with
  | .error e => .error e
  | .ok index => vectorAt m.accessors index

/-- Source `GltfIvWriter::positions`. -/
def positions (m : Model) (primitive : Primitive) : Except Error (List position_t) :=
  match attributeAccessor m primitive "POSITION" with
  | .error e => .error e
  | .ok accessor =>
    match ensureAccessorType accessor TINYGLTF_TYPE_VEC3 with
    | .error e => .error e
    | .ok _ => .ok (accessorContentsVec3 accessor)

/-- Source `GltfIvWriter::normals`. -/
def normals (m : Model) (primitive : Primitive) : Except Error (List normal_t) :=
  match attributeAccessor m primitive "NORMAL" with
  | .error e => .error e
  | .ok accessor =>
    match ensureAccessorType accessor TINYGLTF_TYPE_VEC3 with
    | .error e => .error e
    | .ok _ => .ok (accessorContentsVec3 accessor)

/-- Source `GltfIvWriter::textureCoordinates`. -/
def textureCoordinates (m : Model) (primitive : Primitive) :
    Except Error (List texture_coordinate_t) :=
  match attributeAccessor m primitive "TEXCOORD_0" with
  | .error e => .error e
  | .ok accessor =>
    match ensureAccessorType accessor TINYGLTF_TYPE_VEC2 with
    | .error e => .error e
    | .ok _ => .ok (accessorContentsVec2 accessor)

/-! ## Deduplication and geometry assembly -/

/-- Modelled from the spec: the template `unique<T>` is not part of the
source files.  One pass over the stream in order; a value is appended to the
table the first time it is seen. -/
def unique {α : Type} [DecidableEq α] (values : List α) : List α :=
  values.foldl (fun table v => if v ∈ table then table else table ++ [v]) []

/-- The type `index_map_t`: triangle index to index into the unique table. -/
abbrev index_map_t := List (Nat × Nat)

/-- Modelled from the spec: the entries that `positionIndexMap` (not part of
the source files) records for a list of triangle indices: each index `i` is
paired with the place of `positions[i]` in the unique table; `none` when some
index is beyond the raw positions. -/
def positionIndexEntries (uniquePositions : List position_t) (positions : List position_t) :
    List Nat → Option index_map_t
  | [] => some []
  | i :: rest =>
    match positions[i]?, positionIndexEntries uniquePositions positions rest with
    | some p, some entries => some ((i, uniquePositions.indexOf p) :: entries)
    | _, _ => none

/-- Modelled from the spec: `positionIndexMap` is not part of the source
files.  For each triangle index `i` of the stream it looks `positions[i]` up
in the unique table and records that unique index for `i`.  The spec leaves a
triangle index beyond the raw positions open; here the read is the checked
`at` and throws. -/
def positionIndexMap (uniquePositions : List position_t) (positions : List position_t)
    (indices : indices_t) : Except Error index_map_t :=
  match positionIndexEntries uniquePositions positions indices.values with
  | some entries => .ok entries
  | none => .error .outOfRange

/-- Source `GltfIvWriter::convertPositions`: a coordinate node holding the
given positions in order. -/
def convertPositions (positions : List position_t) : OutputNode :=
  .coordinate3 positions

/-- The loop of `convertNormals` over the unique normals: the registry, the
next index, and the vectors written so far. -/
def registerNormals (uniqueNormals : List normal_t) (normalMap : NormalMap)
    (nextNormalIndex : Int) (written : List normal_t) :
    NormalMap × Int × List normal_t :=
  uniqueNormals.foldl
    (fun acc normal =>
      if !acc.1.contains normal then
        (acc.1.set normal acc.2.1, acc.2.1 + 1, acc.2.2 ++ [normal])
      else acc)
    (normalMap, nextNormalIndex, written)

/-- Source `GltfIvWriter::convertNormals`: the node has one slot per unique
normal of the list; the normals that were not yet registered are registered
with the next indices and written to the first slots. -/
def convertNormals (normals : List normal_t) (s : State) : OutputNode × State :=
  let uniqueNormals := unique normals
  let r := registerNormals uniqueNormals s.normalMap (s.normalMap.length : Int) []
  (.normal (r.2.2.map some ++ List.replicate (uniqueNormals.length - r.2.2.length) none),
   { s with normalMap := r.1 })

/-- Modelled from the spec: the per-corner reads of `convertTriangles` (not
part of the source files): the values `f i` for the triangle indices `i` in
order; `none` when one of them is missing. -/
def lookupAll (f : Nat → Option Int) : List Nat → Option (List Int)
  | [] => some []
  | i :: rest =>
    match f i, lookupAll f rest with
    | some a, some others => some (a :: others)
    | _, _ => none

/-- Modelled from the spec: `convertTriangles` is not part of the source
files.  The coordinate indices are the position remap applied to the triangle
indices, the normal indices are the registry indices of `normals[i]` for each
triangle index `i`; a stream whose length is not a multiple of three is the
structural error.  Reads are the checked `at`; the delimiter between the
triangles is not part of the node here. -/
def convertTriangles (indices : indices_t) (normals : List normal_t)
    (positionIndexMap : index_map_t) (s : State) : Except Error OutputNode :=
  if indices.values.length % 3 ≠ 0 then .error .malformedTriangleList
  else
    match lookupAll (fun i => (positionIndexMap.lookup i).map Int.ofNat) indices.values,
          lookupAll (fun i => normals[i]?.bind (fun n => s.normalMap.lookup n))
            indices.values with
    | some coordIndex, some normalIndex => .ok (.indexedTriangles coordIndex normalIndex)
    | _, _ => .error .outOfRange

/-! ## Materials -/

/-- The conversion `static_cast<float>` of a `double`: the binary32 value
nearest to it. -/
def toFloat (d : Rat) : Float32 := .nearest d

/-- The unchecked read `v[i]` of a `std::vector<double>`; tinygltf always
stores four numbers in `baseColorFactor`, and a read past the end, which is
undefined in the source, reads zero here. -/
def vectorGet (v : List Rat) (i : Nat) : Rat :=
  v.getD i 0

/-- Source `GltfIvWriter::diffuseColor`. -/
def diffuseColor (material : Material) : SbColor :=
  { r := toFloat (vectorGet material.baseColorFactor 0)
    g := toFloat (vectorGet material.baseColorFactor 1)
    b := toFloat (vectorGet material.baseColorFactor 2) }

/-- Source `GltfIvWriter::convertMaterial(const tinygltf::Material &)`; the
literal `0.2f` is `Float32.nearest (2 / 10)`. -/
def convertMaterial (material : Material) : SoMaterial :=
  { ambientColor :=
      { r := .nearest (2 / 10), g := .nearest (2 / 10), b := .nearest (2 / 10) }
    diffuseColor := diffuseColor material
    specularColor := { r := 0, g := 0, b := 0 }
    emissiveColor := { r := 0, g := 0, b := 0 }
    shininess := .nearest (2 / 10)
    transparency := 0 }

/-- Source `GltfIvWriter::convertMaterial(int)`: the checked access
`m_gltfModel.materials.at(materialIndex)`, then the conversion. -/
def convertMaterialIndex (m : Model) (materialIndex : Int) : Except Error SoMaterial :=
  match vectorAt m.materials materialIndex with
  | .error e => .error e
  | .ok material => .ok (convertMaterial material)

/-! ## Traversal -/

/-- Source `GltfIvWriter::convertTrianglesPrimitive`: the three decodes, then
the six children in order.  The argument of each `addChild` is evaluated
before the child is appended, so an exception leaves the children
appended so far. -/
def convertTrianglesPrimitive (m : Model) (primitive : Primitive) (s : State) : Outcome :=
  match positions m primitive with
  | .error e => .raised e s
  | .ok positions =>
  match normals m primitive with
  | .error e => .raised e s
  | .ok normals =>
  match indices m primitive with
  | .error e => .raised e s
  | .ok indices =>
  match convertMaterialIndex m primitive.material with
  | .error e => .raised e s
  | .ok material =>
    let s1 := s.addChild (.material material)
    let s2 := s1.addChild (.materialBinding .overall)
    let uniquePositions := unique positions
    let s3 := s2.addChild (convertPositions uniquePositions)
    match positionIndexMap uniquePositions positions indices with
    | .error e => .raised e s3
    | .ok positionIndexMap =>
      let s4 := s3.addChild (.normalBinding .perVertexIndexed)
      let r := convertNormals normals s4
      let s5 := r.2.addChild r.1
      match convertTriangles indices normals positionIndexMap s5 with
      | .error e => .raised e s5
      | .ok triangles => .ret true (s5.addChild triangles)

/-- Source `GltfIvWriter::convertPrimitive`: triangles are converted, every
other mode is skipped with a warning. -/
def convertPrimitive (m : Model) (primitive : Primitive) (s : State) : Outcome :=
  if primitive.mode = TINYGLTF_MODE_TRIANGLES then
    convertTrianglesPrimitive m primitive s
  else .ret true s

/-- The algorithm `std::all_of` with a predicate that mutates the members
and may throw or, through the node walk, run out of fuel: it stops at the
first element whose predicate does not return `true`. -/
def allOf {α : Type} (f : α → State → Option Outcome) :
    List α → State → Option Outcome
  | [], s => some (.ret true s)
  | x :: xs, s =>
    match f x s with
    | some (.ret true s1) => allOf f xs s1
    | other => other

/-- Source `GltfIvWriter::convertPrimitives`. -/
def convertPrimitives (m : Model) (primitives : List Primitive) (s : State) :
    Option Outcome :=
  allOf (fun primitive s1 => some (convertPrimitive m primitive s1)) primitives s

/-- Source `GltfIvWriter::convertMesh(const tinygltf::Mesh &)`. -/
def convertMesh (m : Model) (mesh : Mesh) (s : State) : Option Outcome :=
  convertPrimitives m mesh.primitives s

/-- Source `GltfIvWriter::convertMesh(int)`. -/
def convertMeshIndex (m : Model) (meshIndex : Int) (s : State) : Option Outcome :=
  if meshIndex < 0 ∨ meshIndex ≥ (m.meshes.length : Int) then some (.ret false s)
  else match m.meshes[meshIndex.toNat]? with
    | some mesh => convertMesh m mesh s
    | none => some (.ret false s)

/-- The left operand of the conjunction in `convertNode`:
`node.mesh < 0 || convertMesh(node.mesh)`. -/
def convertNodeMesh (m : Model) (node : Node) (s : State) : Option Outcome :=
  if node.mesh < 0 then some (.ret true s) else convertMeshIndex m node.mesh s

/-- The short-circuit conjunction `a && b` of two calls: `b` runs only when
`a` returned `true`, on the members `a` left. -/
def andThen (a : Option Outcome) (b : State → Option Outcome) : Option Outcome :=
  match a with
  | some (.ret true s1) => b s1
  | other => other

/-- Source `GltfIvWriter::convertNode(const tinygltf::Node &)`, with the body
of `convertNodes` and of `convertNode(int)` for the children in place.  The
fuel is the number of nested `convertNode` calls still allowed. -/
def convertNode (m : Model) : Nat → Node → State → Option Outcome
  | 0, _, _ => none
  | fuel + 1, node, s =>
    andThen (convertNodeMesh m node s)
      (allOf
        (fun nodeIndex s1 =>
          if nodeIndex < 0 ∨ nodeIndex ≥ (m.nodes.length : Int) then some (.ret false s1)
          else match m.nodes[nodeIndex.toNat]? with
            | some child => convertNode m fuel child s1
            | none => some (.ret false s1))
        node.children)

/-- Source `GltfIvWriter::convertNode(int)`. -/
def convertNodeIndex (m : Model) (fuel : Nat) (nodeIndex : Int) (s : State) :
    Option Outcome :=
  if nodeIndex < 0 ∨ nodeIndex ≥ (m.nodes.length : Int) then some (.ret false s)
  else match m.nodes[nodeIndex.toNat]? with
    | some node => convertNode m fuel node s
    | none => some (.ret false s)

/-- Source `GltfIvWriter::convertNodes`. -/
def convertNodes (m : Model) (fuel : Nat) (nodeIndices : List Int) (s : State) :
    Option Outcome :=
  allOf (convertNodeIndex m fuel) nodeIndices s

/-- Source `GltfIvWriter::convertScene`. -/
def convertScene (m : Model) (fuel : Nat) (scene : Scene) (s : State) : Option Outcome :=
  convertNodes m fuel scene.nodes s

/-- Source `GltfIvWriter::convertModel`. -/
def convertModel (m : Model) (fuel : Nat) (s : State) : Option Outcome :=
  allOf (convertScene m fuel) m.scenes s

/-- One invocation of the external `GltfIv::write(filename, m_ivModel,
writeBinary)`, with the children the root had. -/
structure WriterCall where
  filename : String
  children : List OutputNode
  writeBinary : Bool
  deriving DecidableEq, Repr

/-- What `write` leaves: the value returned, the members, and the
invocations of the external writer. -/
structure WriteResult where
  returned : Bool
  state : State
  writerCalls : List WriterCall
  deriving DecidableEq, Repr

/-- Source `GltfIvWriter::write`, on a writer whose `m_ivModel` is the
separator the constructor made (it is never reset, so the guard of the first
lines does not fire).  The external writer `GltfIv::write` is the parameter
`ivWrite`; it runs only when `convertModel` returned `true`, and every
exception is caught and turned into `false`. -/
def write (ivWrite : String → List OutputNode → Bool → Bool) (m : Model) (fuel : Nat)
    (filename : String) (writeBinary : Bool) (s : State) : Option WriteResult :=
  match convertModel m fuel s with
  | none => none
  | some (.ret true s1) =>
    some { returned := ivWrite filename s1.children writeBinary
           state := s1
           writerCalls := [{ filename := filename, children := s1.children,
                             writeBinary := writeBinary }] }
  | some (.ret false s1) => some { returned := false, state := s1, writerCalls := [] }
  | some (.raised _ s1) => some { returned := false, state := s1, writerCalls := [] }

/-! ## Runs of the normal registry and folds -/

/-- The members after a sequence of `convertNormals` calls, one per normal
list, in order. -/
def runNormals (calls : List (List normal_t)) (s : State) : State :=
  calls.foldl (fun s1 normals => (convertNormals normals s1).2) s

/-- The pass of `unique` continued from a table built so far. -/
def uniqueFrom {α : Type} [DecidableEq α] (table : List α) (values : List α) : List α :=
  values.foldl (fun table v => if v ∈ table then table else table ++ [v]) table

/-- The registry that gives the keys, in order, the indices `start`,
`start + 1`, and so on. -/
def denseMapFrom : Nat → List normal_t → NormalMap
  | _, [] => []
  | start, key :: keys => (key, (start : Int)) :: denseMapFrom (start + 1) keys

/-- The predicate returned `true` on every element of the list in order,
taking the members from `s` to `s1`. -/
inductive AllTrue {α : Type} (f : α → State → Option Outcome) :
    List α → State → State → Prop
  | nil (s : State) : AllTrue f [] s s
  | cons {x : α} {xs : List α} {s s1 s2 : State} :
      f x s = some (.ret true s1) → AllTrue f xs s1 s2 → AllTrue f (x :: xs) s s2

/-- An outcome other than `ret true`: a returned `false` or an exception. -/
def Outcome.isFailure : Outcome → Bool
  | .ret true _ => false
  | _ => true

/-- The value `result` is what a short-circuiting all-succeed fold of `f`
over `xs` from the members `s` gives:
it is `ret true s1` exactly when every element in order returned `true`,
ending in `s1`;
it is a failure `o` exactly when some element `x` of the list, reached after
all elements before it returned `true`, gave `o`; whatever follows `x` in the
list plays no part;
it is `none` exactly when such an element ran out of fuel. -/
def ShortCircuitFold {α : Type} (f : α → State → Option Outcome) (xs : List α)
    (s : State) (result : Option Outcome) : Prop :=
  (∀ s1, result = some (.ret true s1) ↔ AllTrue f xs s s1) ∧
  (∀ o, o.isFailure = true →
    (result = some o ↔
      ∃ done x rest s1, xs = done ++ x :: rest ∧ AllTrue f done s s1 ∧ f x s1 = some o)) ∧
  (result = none ↔
      ∃ done x rest s1, xs = done ++ x :: rest ∧ AllTrue f done s s1 ∧ f x s1 = none)

/-! ## The primitives a walk visits and what each appends -/

/-- The six children a converted triangle primitive appends, in order: the
material of the primitive, the material binding for the whole shape, the
coordinates (the unique positions of the primitive), the per-corner indexed
normal binding, a normal node and an indexed triangle node. -/
def IsPrimitiveGroup (m : Model) (primitive : Primitive) (group : List OutputNode) : Prop :=
  ∃ (material : Material) (ps : List position_t) (normalVectors : List (Option normal_t))
    (coordIndex normalIndex : List Int),
    vectorAt m.materials primitive.material = .ok material ∧
    positions m primitive = .ok ps ∧
    group = [.material (convertMaterial material), .materialBinding .overall,
             .coordinate3 (unique ps), .normalBinding .perVertexIndexed,
             .normal normalVectors, .indexedTriangles coordIndex normalIndex]

/-- The `TRIANGLES` primitives of a list, in list order. -/
def trianglesOf (primitives : List Primitive) : List Primitive :=
  primitives.filter (fun primitive => decide (primitive.mode = TINYGLTF_MODE_TRIANGLES))

/-- The `TRIANGLES` primitives of the mesh of a node (none when the node has
no mesh). -/
def meshTriangles (m : Model) (node : Node) : List Primitive :=
  if node.mesh < 0 then []
  else match m.meshes[node.mesh.toNat]? with
    | some mesh => trianglesOf mesh.primitives
    | none => []

/-- The `TRIANGLES` primitives a walk from a node visits, with multiplicity,
in depth-first order: the primitives of the node's mesh, then those of its
children in list order.  The fuel is that of `convertNode`. -/
def visitedTriangles (m : Model) : Nat → Node → List Primitive
  | 0, _ => []
  | fuel + 1, node =>
    meshTriangles m node ++
      node.children.flatMap
        (fun nodeIndex =>
          if nodeIndex < 0 then []
          else match m.nodes[nodeIndex.toNat]? with
            | some child => visitedTriangles m fuel child
            | none => [])

/-- The `TRIANGLES` primitives a walk from a node index visits. -/
def visitedTrianglesAt (m : Model) (fuel : Nat) (nodeIndex : Int) : List Primitive :=
  if nodeIndex < 0 then []
  else match m.nodes[nodeIndex.toNat]? with
    | some node => visitedTriangles m fuel node
    | none => []

/-- The `TRIANGLES` primitives the walk of the whole model visits: scene by
scene, root node by root node. -/
def modelTriangles (m : Model) (fuel : Nat) : List Primitive :=
  m.scenes.flatMap (fun scene => scene.nodes.flatMap (visitedTrianglesAt m fuel))

/-- The number of entries of all normal nodes of a child list together. -/
def normalEntryCount : List OutputNode → Nat
  | [] => 0
  | .normal vector :: rest => vector.length + normalEntryCount rest
  | _ :: rest => normalEntryCount rest

/-! ## Example models -/

/-- A model whose only node names mesh `0` while the mesh table is empty. -/
def danglingMeshModel : Model :=
  { scenes := [{ name := "scene", nodes := [0] }]
    nodes := [{ name := "node", mesh := 0, children := [] }]
    meshes := []
    accessors := []
    materials := [] }

/-- Positions `(0,0,0), (1,0,0), (1,1,0)` as a float 3-vector accessor. -/
def trianglePositions : Accessor :=
  { componentType := TINYGLTF_COMPONENT_TYPE_FLOAT, type := TINYGLTF_TYPE_VEC3
    scalarData := [], vec2Data := []
    vec3Data := [⟨0, 0, 0⟩, ⟨1, 0, 0⟩, ⟨1, 1, 0⟩] }

/-- Three times the normal `(0,0,1)` as a float 3-vector accessor. -/
def triangleNormals : Accessor :=
  { componentType := TINYGLTF_COMPONENT_TYPE_FLOAT, type := TINYGLTF_TYPE_VEC3
    scalarData := [], vec2Data := []
    vec3Data := [⟨0, 0, 1⟩, ⟨0, 0, 1⟩, ⟨0, 0, 1⟩] }

/-- Indices `0, 1, 2` with the given component type, of scalar shape. -/
def triangleIndices (componentType : Int) : Accessor :=
  { componentType := componentType, type := TINYGLTF_TYPE_SCALAR
    scalarData := [0, 1, 2], vec2Data := [], vec3Data := [] }

/-- A material with base colour `(1,0,0,1)`. -/
def redMaterial : Material :=
  { name := "red", baseColorFactor := [1, 0, 0, 1], metallicFactor := 1,
    roughnessFactor := 1, emissiveFactor := [0, 0, 0], alphaMode := "OPAQUE",
    doubleSided := false }

/-- A primitive of the given mode and material over accessors `0` (positions),
`1` (normals) and `2` (indices). -/
def trianglePrimitive (mode material : Int) : Primitive :=
  { attributes := [("NORMAL", 1), ("POSITION", 0)], material := material,
    indices := 2, mode := mode }

/-- One scene, one node, one mesh holding the given primitive, the three
accessors above with the given index component type, and the red material. -/
def singleMeshModel (primitive : Primitive) (indexComponentType : Int) : Model :=
  { scenes := [{ name := "scene", nodes := [0] }]
    nodes := [{ name := "node", mesh := 0, children := [] }]
    meshes := [{ name := "mesh", primitives := [primitive] }]
    accessors := [trianglePositions, triangleNormals, triangleIndices indexComponentType]
    materials := [redMaterial] }

/-- The single-triangle model: a `TRIANGLES` primitive with the red material
and unsigned 16-bit indices. -/
def triangleModel : Model :=
  singleMeshModel (trianglePrimitive TINYGLTF_MODE_TRIANGLES 0)
    TINYGLTF_COMPONENT_TYPE_UNSIGNED_SHORT

/-- The members after converting the single-triangle model from the initial
members. -/
def triangleOutput : State :=
  { children :=
      [.material (convertMaterial redMaterial), .materialBinding .overall,
       .coordinate3 [⟨0, 0, 0⟩, ⟨1, 0, 0⟩, ⟨1, 1, 0⟩], .normalBinding .perVertexIndexed,
       .normal [some ⟨0, 0, 1⟩], .indexedTriangles [0, 1, 2] [0, 0, 0]]
    normalMap := [(⟨0, 0, 1⟩, 0)] }

/-- An accessor of 3-vector shape and component type `INT`. -/
def vectorIntAccessor : Accessor :=
  { componentType := TINYGLTF_COMPONENT_TYPE_INT, type := TINYGLTF_TYPE_VEC3
    scalarData := [0, 1, 2], vec2Data := [], vec3Data := [] }

/-- A model whose only accessor is the one above. -/
def vectorIndexModel : Model :=
  { scenes := [], nodes := [], meshes := [], materials := []
    accessors := [vectorIntAccessor] }

/-- A primitive that names accessor `0` as its index accessor. -/
def vectorIndexPrimitive : Primitive :=
  { attributes := [], material := 0, indices := 0, mode := TINYGLTF_MODE_TRIANGLES }

/-- A primitive of mode `LINE` that names no accessor and no material. -/
def linesPrimitive : Primitive :=
  { attributes := [], material := -1, indices := -1, mode := TINYGLTF_MODE_LINE }

/-- An external writer that always reports success. -/
def acceptingWriter : String → List OutputNode → Bool → Bool :=
  fun _ _ _ => true

/-- A primitive whose `POSITION` attribute is missing. -/
def noPositionPrimitive : Primitive :=
  { attributes := [("NORMAL", 1)], material := 0, indices := 2,
    mode := TINYGLTF_MODE_TRIANGLES }

/-- A state that already holds one child and one registered normal. -/
def busyState : State :=
  { children := [.materialBinding .overall], normalMap := [(⟨0, 1, 0⟩, 0)] }

/-- The members after the first five children of a triangle primitive were
appended: the material, the material binding, the coordinates, the normal
binding and the normals, with the registry `convertNormals` left. -/
def afterFiveChildren (material : SoMaterial) (positions : List position_t)
    (normals : List normal_t) (s : State) : State :=
  { children := s.children ++
      [.material material, .materialBinding .overall, .coordinate3 (unique positions),
       .normalBinding .perVertexIndexed, (convertNormals normals s).1]
    normalMap := (convertNormals normals s).2.normalMap }

/-- An index accessor with the two indices `0, 1`. -/
def twoIndices : Accessor :=
  { componentType := TINYGLTF_COMPONENT_TYPE_UNSIGNED_SHORT, type := TINYGLTF_TYPE_SCALAR
    scalarData := [0, 1], vec2Data := [], vec3Data := [] }

/-- The single-triangle model with the two-index accessor in place of the
index accessor, for a primitive with the given material index. -/
def twoIndexModel (material : Int) : Model :=
  { scenes := [{ name := "scene", nodes := [0] }]
    nodes := [{ name := "node", mesh := 0, children := [] }]
    meshes := [{ name := "mesh",
                 primitives := [trianglePrimitive TINYGLTF_MODE_TRIANGLES material] }]
    accessors := [trianglePositions, triangleNormals, twoIndices]
    materials := [redMaterial] }

/-- A triangle primitive without the `NORMAL` attribute. -/
def noNormalPrimitive : Primitive :=
  { attributes := [("POSITION", 0)], material := 0, indices := 2,
    mode := TINYGLTF_MODE_TRIANGLES }

/-- The single-triangle model with the triangle primitive twice in its mesh. -/
def twoPrimitiveModel : Model :=
  { scenes := [{ name := "scene", nodes := [0] }]
    nodes := [{ name := "node", mesh := 0, children := [] }]
    meshes := [{ name := "mesh",
                 primitives := [trianglePrimitive TINYGLTF_MODE_TRIANGLES 0,
                                trianglePrimitive TINYGLTF_MODE_TRIANGLES 0] }]
    accessors := [trianglePositions, triangleNormals,
                  triangleIndices TINYGLTF_COMPONENT_TYPE_UNSIGNED_SHORT]
    materials := [redMaterial] }

/-- The members after converting the model with the two primitives. -/
def twoPrimitiveOutput : State :=
  { children :=
      [.material (convertMaterial redMaterial), .materialBinding .overall,
       .coordinate3 [⟨0, 0, 0⟩, ⟨1, 0, 0⟩, ⟨1, 1, 0⟩], .normalBinding .perVertexIndexed,
       .normal [some ⟨0, 0, 1⟩], .indexedTriangles [0, 1, 2] [0, 0, 0],
       .material (convertMaterial redMaterial), .materialBinding .overall,
       .coordinate3 [⟨0, 0, 0⟩, ⟨1, 0, 0⟩, ⟨1, 1, 0⟩], .normalBinding .perVertexIndexed,
       .normal [none], .indexedTriangles [0, 1, 2] [0, 0, 0]]
    normalMap := [(⟨0, 0, 1⟩, 0)] }

/-- The child relation of the node table: node `c` is a child of node `i`
(both in range). -/
def childRel (m : Model) (c i : Nat) : Prop :=
  ∃ (node : Node) (childIndex : Int), m.nodes[i]? = some node ∧
    childIndex ∈ node.children ∧ 0 ≤ childIndex ∧ childIndex.toNat = c ∧
    c < m.nodes.length

/-- The node table has an endless chain of child references: each node of the
chain is a child of the one before it. -/
def HasEndlessChildChain (m : Model) : Prop :=
  ∃ chain : Nat → Nat, ∀ k, childRel m (chain (k + 1)) (chain k)

/-- A model whose only node, without a mesh, lists itself as its child. -/
def selfLoopModel : Model :=
  { scenes := [{ name := "scene", nodes := [0] }]
    nodes := [{ name := "node", mesh := -1, children := [0] }]
    meshes := []
    accessors := []
    materials := [] }

/-- The overall conversion reports failure on account of a primitive: every
mesh that holds it as a `TRIANGLES` primitive throws; when such a mesh is the
first one the walk meets, `write` returns `false` and does not invoke the
writer; whenever the walk of the model visits the primitive (it is among the
`TRIANGLES` primitives of the walk, wherever that is: a later root node, a
child node, a later scene), a `write` that ends returns `false` and does not
invoke the writer; and when in addition the node table has no endless chain of
child references, `write` does end so, for every fuel from some fuel on. -/
def WalkReportsFailure (m : Model) (primitive : Primitive) : Prop :=
  (primitive.mode = TINYGLTF_MODE_TRIANGLES →
    ∀ (mesh : Mesh) (s : State), primitive ∈ mesh.primitives →
      ∃ e s1, convertMesh m mesh s = some (.raised e s1)) ∧
  (primitive.mode = TINYGLTF_MODE_TRIANGLES →
    ∀ (ivWrite : String → List OutputNode → Bool → Bool) (fuel : Nat) (filename : String)
      (writeBinary : Bool) (s : State) (scene : Scene) (scenes : List Scene) (i : Int)
      (rest : List Int) (node : Node) (mesh : Mesh),
      m.scenes = scene :: scenes → scene.nodes = i :: rest →
      vectorAt m.nodes i = .ok node → vectorAt m.meshes node.mesh = .ok mesh →
      primitive ∈ mesh.primitives →
      ∃ s1, write ivWrite m (fuel + 1) filename writeBinary s =
        some { returned := false, state := s1, writerCalls := [] }) ∧
  (∀ (ivWrite : String → List OutputNode → Bool → Bool) (fuel : Nat) (filename : String)
    (writeBinary : Bool) (s : State), primitive ∈ modelTriangles m fuel →
    ∀ r, write ivWrite m fuel filename writeBinary s = some r →
      r.returned = false ∧ r.writerCalls = []) ∧
  (∀ fuel0, primitive ∈ modelTriangles m fuel0 → ¬ HasEndlessChildChain m →
    ∃ F, ∀ fuel, F ≤ fuel →
      ∀ (ivWrite : String → List OutputNode → Bool → Bool) (filename : String)
        (writeBinary : Bool) (s : State),
        ∃ s1, write ivWrite m fuel filename writeBinary s =
          some { returned := false, state := s1, writerCalls := [] })

/-- The single-triangle model with a second root node that carries the mesh;
the first root node has no mesh. -/
def secondRootModel (primitive : Primitive) (indexComponentType : Int) : Model :=
  { scenes := [{ name := "scene", nodes := [0, 1] }]
    nodes := [{ name := "empty", mesh := -1, children := [] },
              { name := "node", mesh := 0, children := [] }]
    meshes := [{ name := "mesh", primitives := [primitive] }]
    accessors := [trianglePositions, triangleNormals, triangleIndices indexComponentType]
    materials := [redMaterial] }

end GltfIv

/-! # Properties -/

namespace GltfIv

/-! ## Shared lemmas -/

theorem convertNode_succ (m : Model) (fuel : Nat) (node : Node) (s : State) :
    convertNode m (fuel + 1) node s =
      andThen (convertNodeMesh m node s) (convertNodes m fuel node.children) := by
  rfl

theorem vectorAt_ok_iff {α : Type} (v : List α) (i : Int) (a : α) :
    vectorAt v i = .ok a ↔ 0 ≤ i ∧ v[i.toNat]? = some a := by
  unfold vectorAt
  split
  · constructor
    · intro h; cases h
    · rintro ⟨h0, _⟩; omega
  · rename_i h
    cases hg : v[i.toNat]? with
    | none => simp
    | some b => simp; omega

theorem vectorAt_neg {α : Type} (v : List α) (i : Int) (h : i < 0) :
    vectorAt v i = .error .outOfRange := by
  simp [vectorAt, h]

theorem getElem?_toNat_isSome {α : Type} (v : List α) (i : Int) (h0 : 0 ≤ i)
    (h1 : i < (v.length : Int)) : ∃ a, v[i.toNat]? = some a := by
  have : i.toNat < v.length := by omega
  exact ⟨v[i.toNat], List.getElem?_eq_getElem this⟩

/-! ## C1: `convertNode(int)` -/

/-- C1 (as amended): an index below zero or at least the node count makes
`convertNode(index)` return `false` with the members untouched and no
exception; for an index in range the access `nodes[index]` is in bounds and
the result is exactly that of converting the resolved node (which may itself
report failure). -/
theorem convertNodeIndex_index_check (m : Model) (fuel : Nat) (nodeIndex : Int) (s : State) :
    ((nodeIndex < 0 ∨ nodeIndex ≥ (m.nodes.length : Int)) →
        convertNodeIndex m fuel nodeIndex s = some (.ret false s)) ∧
    ((0 ≤ nodeIndex ∧ nodeIndex < (m.nodes.length : Int)) →
        ∃ node, m.nodes[nodeIndex.toNat]? = some node ∧
          convertNodeIndex m fuel nodeIndex s = convertNode m fuel node s) := by
  constructor
  · intro h
    simp [convertNodeIndex, h]
  · rintro ⟨h0, h1⟩
    obtain ⟨node, hn⟩ := getElem?_toNat_isSome m.nodes nodeIndex h0 h1
    refine ⟨node, hn, ?_⟩
    have : ¬ (nodeIndex < 0 ∨ nodeIndex ≥ (m.nodes.length : Int)) := by omega
    simp [convertNodeIndex, this, hn]

/-- C1 (counterexample): node `0` of `danglingMeshModel` is in range, yet
`convertNode(0)` returns `false`, raises nothing and appends nothing, because
the node's mesh index is out of range; so failure is not equivalent to the
node index being out of range. -/
theorem convertNodeIndex_fails_in_range :
    ¬ (convertNodeIndex danglingMeshModel 1 0 State.init = some (.ret false State.init) ↔
        ((0 : Int) < 0 ∨ (0 : Int) ≥ (danglingMeshModel.nodes.length : Int))) := by
  decide

/-- C1 (witness): in the single-triangle model the indices `-1` and `1` are
out of range and fail with the members untouched, and index `0` resolves to
the node and converts it. -/
theorem convertNodeIndex_index_check_witness :
    convertNodeIndex triangleModel 1 (-1) State.init = some (.ret false State.init) ∧
    convertNodeIndex triangleModel 1 1 State.init = some (.ret false State.init) ∧
    ∃ node, triangleModel.nodes[Int.toNat 0]? = some node ∧
      convertNodeIndex triangleModel 1 0 State.init =
        convertNode triangleModel 1 node State.init :=
  ⟨(convertNodeIndex_index_check triangleModel 1 (-1) State.init).1 (Or.inl (by decide)),
   (convertNodeIndex_index_check triangleModel 1 1 State.init).1 (Or.inr (by decide)),
   (convertNodeIndex_index_check triangleModel 1 0 State.init).2 ⟨by decide, by decide⟩⟩

/-! ## C2: primitives of another topology -/

/-- C2: a primitive whose mode is not `TRIANGLES` makes `convertPrimitive`
return `true` and leave the children of the root and the normal registry as
they were; the outcome is the same for every model and for every primitive
of that mode, so neither the accessors nor the material are read. -/
theorem convertPrimitive_skips_non_triangles (m : Model) (primitive : Primitive) (s : State)
    (hmode : primitive.mode ≠ TINYGLTF_MODE_TRIANGLES) :
    convertPrimitive m primitive s = .ret true s ∧
    ∀ (m1 : Model) (primitive1 : Primitive), primitive1.mode = primitive.mode →
      convertPrimitive m1 primitive1 s = convertPrimitive m primitive s := by
  have key : ∀ (m1 : Model) (p1 : Primitive), p1.mode = primitive.mode →
      convertPrimitive m1 p1 s = .ret true s := by
    intro m1 p1 h1
    have : p1.mode ≠ TINYGLTF_MODE_TRIANGLES := by rw [h1]; exact hmode
    simp [convertPrimitive, this]
  refine ⟨key m primitive rfl, ?_⟩
  intro m1 p1 h1
  rw [key m1 p1 h1, key m primitive rfl]

/-- C2 (witness): a `LINES` primitive that names no accessor and no material,
in a model with empty tables. -/
theorem convertPrimitive_skips_non_triangles_witness :
    convertPrimitive danglingMeshModel linesPrimitive State.init = .ret true State.init :=
  (convertPrimitive_skips_non_triangles danglingMeshModel linesPrimitive State.init
    (by decide)).1

/-! ## Lemmas on the traversal -/

theorem convertTrianglesPrimitive_ret_true_or_raised (m : Model) (primitive : Primitive)
    (s : State) :
    (∃ s1, convertTrianglesPrimitive m primitive s = .ret true s1) ∨
    (∃ e s1, convertTrianglesPrimitive m primitive s = .raised e s1) := by
  unfold convertTrianglesPrimitive
  cases positions m primitive with
  | error e => exact Or.inr ⟨_, _, rfl⟩
  | ok ps =>
  cases normals m primitive with
  | error e => exact Or.inr ⟨_, _, rfl⟩
  | ok ns =>
  cases indices m primitive with
  | error e => exact Or.inr ⟨_, _, rfl⟩
  | ok ixs =>
  cases convertMaterialIndex m primitive.material with
  | error e => exact Or.inr ⟨_, _, rfl⟩
  | ok mat =>
  dsimp only
  cases positionIndexMap (unique ps) ps ixs with
  | error e => exact Or.inr ⟨_, _, rfl⟩
  | ok pim =>
  dsimp only
  split
  · exact Or.inr ⟨_, _, rfl⟩
  · exact Or.inl ⟨_, rfl⟩

theorem convertPrimitive_ret_true_or_raised (m : Model) (primitive : Primitive) (s : State) :
    (∃ s1, convertPrimitive m primitive s = .ret true s1) ∨
    (∃ e s1, convertPrimitive m primitive s = .raised e s1) := by
  unfold convertPrimitive
  split
  · exact convertTrianglesPrimitive_ret_true_or_raised m primitive s
  · exact Or.inl ⟨_, rfl⟩

/-- A decode error of the indices leaves the members untouched. -/
theorem convertTrianglesPrimitive_of_indices_error (m : Model) (primitive : Primitive)
    (s : State) (e : Error) (h : indices m primitive = .error e) :
    ∃ e1, convertTrianglesPrimitive m primitive s = .raised e1 s := by
  unfold convertTrianglesPrimitive
  rw [h]
  cases positions m primitive with
  | error e => exact ⟨_, rfl⟩
  | ok ps =>
  cases normals m primitive with
  | error e => exact ⟨_, rfl⟩
  | ok ns => exact ⟨_, rfl⟩

theorem allOf_raised_of_mem {α : Type} (f : α → State → Outcome) (x : α)
    (hx : ∀ s, ∃ e s1, f x s = .raised e s1)
    (hf : ∀ y s, (∃ s1, f y s = .ret true s1) ∨ (∃ e s1, f y s = .raised e s1)) :
    ∀ (xs : List α) (s : State), x ∈ xs →
      ∃ e s1, allOf (fun y s2 => some (f y s2)) xs s = some (.raised e s1) := by
  intro xs
  induction xs with
  | nil => intro s h; cases h
  | cons y ys ih =>
    intro s hmem
    rcases hf y s with ⟨s1, h1⟩ | ⟨e, s1, h1⟩
    · rcases List.mem_cons.mp hmem with rfl | hin
      · obtain ⟨e, s2, h2⟩ := hx s
        rw [h1] at h2
        cases h2
      · obtain ⟨e, s2, h2⟩ := ih s1 hin
        exact ⟨e, s2, by simp [allOf, h1, h2]⟩
    · exact ⟨e, s1, by simp [allOf, h1]⟩

theorem write_of_convertModel_raised (ivWrite : String → List OutputNode → Bool → Bool)
    (m : Model) (fuel : Nat) (filename : String) (writeBinary : Bool) (s s1 : State)
    (e : Error) (h : convertModel m fuel s = some (.raised e s1)) :
    write ivWrite m fuel filename writeBinary s =
      some { returned := false, state := s1, writerCalls := [] } := by
  simp [write, h]

/-- When the first root node of the first scene carries a mesh whose
conversion throws, the model conversion throws. -/
theorem convertModel_raised_of_first_mesh (m : Model) (fuel : Nat) (s s1 : State) (e : Error)
    (scene : Scene) (scenes : List Scene) (i : Int) (rest : List Int) (node : Node)
    (mesh : Mesh)
    (hscenes : m.scenes = scene :: scenes) (hnodes : scene.nodes = i :: rest)
    (hnode : vectorAt m.nodes i = .ok node) (hmesh : vectorAt m.meshes node.mesh = .ok mesh)
    (hraise : convertMesh m mesh s = some (.raised e s1)) :
    convertModel m (fuel + 1) s = some (.raised e s1) := by
  obtain ⟨hi0, hi⟩ := (vectorAt_ok_iff _ _ _).mp hnode
  obtain ⟨hm0, hm⟩ := (vectorAt_ok_iff _ _ _).mp hmesh
  have hilt : i.toNat < m.nodes.length := (List.getElem?_eq_some_iff.mp hi).1
  have hmlt : node.mesh.toNat < m.meshes.length := (List.getElem?_eq_some_iff.mp hm).1
  have hi1 : i < (m.nodes.length : Int) := by omega
  have hm2 : ¬ node.mesh < 0 := by omega
  have hm3 : node.mesh < (m.meshes.length : Int) := by omega
  have hnm : convertNodeMesh m node s = some (.raised e s1) := by
    simp [convertNodeMesh, hm2, convertMeshIndex, hm0, hm3, hm, hraise]
  have hn : convertNodeIndex m (fuel + 1) i s = some (.raised e s1) := by
    simp [convertNodeIndex, hi0, hi1, hi, convertNode_succ, hnm, andThen]
  simp [convertModel, hscenes, allOf, convertScene, convertNodes, hnodes, hn]

/-! ## C4: accessor shape validation -/

theorem ensureAccessorType_eq (accessor : Accessor) (accessorType : Int) :
    (accessor.type ≠ accessorType ∧
        ensureAccessorType accessor accessorType = .error .typeMismatch) ∨
    (accessor.type = accessorType ∧ ensureAccessorType accessor accessorType = .ok ()) := by
  unfold ensureAccessorType
  by_cases h : accessor.type = accessorType
  · exact Or.inr ⟨h, by simp [h]⟩
  · exact Or.inl ⟨h, by simp [h]⟩

/-- C4: `ensureAccessorType` throws the type-mismatch error exactly when the
accessor's shape differs from the expected one.  Once the accessor of a
primitive is resolved, `positions` and `normals` throw that error exactly
when its shape is not `VEC3`, `textureCoordinates` exactly when it is not
`VEC2`, and `indices` exactly when it is not `SCALAR`: the shape alone
decides, whatever the component type and the elements are, so the check
precedes the component-type dispatch and every element read. -/
theorem ensureAccessorType_typeMismatch_iff :
    (∀ (accessor : Accessor) (accessorType : Int),
      ensureAccessorType accessor accessorType = .error .typeMismatch ↔
        accessor.type ≠ accessorType) ∧
    (∀ (m : Model) (primitive : Primitive) (accessor : Accessor),
      attributeAccessor m primitive "POSITION" = .ok accessor →
      (positions m primitive = .error .typeMismatch ↔ accessor.type ≠ TINYGLTF_TYPE_VEC3)) ∧
    (∀ (m : Model) (primitive : Primitive) (accessor : Accessor),
      attributeAccessor m primitive "NORMAL" = .ok accessor →
      (normals m primitive = .error .typeMismatch ↔ accessor.type ≠ TINYGLTF_TYPE_VEC3)) ∧
    (∀ (m : Model) (primitive : Primitive) (accessor : Accessor),
      attributeAccessor m primitive "TEXCOORD_0" = .ok accessor →
      (textureCoordinates m primitive = .error .typeMismatch ↔
        accessor.type ≠ TINYGLTF_TYPE_VEC2)) ∧
    (∀ (m : Model) (primitive : Primitive) (accessor : Accessor),
      vectorAt m.accessors primitive.indices = .ok accessor →
      (indices m primitive = .error .typeMismatch ↔ accessor.type ≠ TINYGLTF_TYPE_SCALAR)) := by
  refine ⟨?_, ?_, ?_, ?_, ?_⟩
  · intro accessor accessorType
    rcases ensureAccessorType_eq accessor accessorType with ⟨h, he⟩ | ⟨h, he⟩
    · simp [he, h]
    · simp [he, h]
  · intro m primitive accessor hacc
    rcases ensureAccessorType_eq accessor TINYGLTF_TYPE_VEC3 with ⟨h, he⟩ | ⟨h, he⟩
    · simp [positions, hacc, he, h]
    · simp [positions, hacc, he, h]
  · intro m primitive accessor hacc
    rcases ensureAccessorType_eq accessor TINYGLTF_TYPE_VEC3 with ⟨h, he⟩ | ⟨h, he⟩
    · simp [normals, hacc, he, h]
    · simp [normals, hacc, he, h]
  · intro m primitive accessor hacc
    rcases ensureAccessorType_eq accessor TINYGLTF_TYPE_VEC2 with ⟨h, he⟩ | ⟨h, he⟩
    · simp [textureCoordinates, hacc, he, h]
    · simp [textureCoordinates, hacc, he, h]
  · intro m primitive accessor hacc
    rcases ensureAccessorType_eq accessor TINYGLTF_TYPE_SCALAR with ⟨h, he⟩ | ⟨h, he⟩
    · simp [indices, hacc, he, h]
    · simp only [indices, hacc, he, h]
      constructor
      · intro hi
        repeat' split at hi
        all_goals cases hi
      · intro hne
        exact absurd rfl hne

/-- C4 (witness): an index accessor of 3-vector shape fails with the
type-mismatch error although its component type `INT` is unsupported. -/
theorem ensureAccessorType_typeMismatch_iff_witness :
    indices vectorIndexModel vectorIndexPrimitive = .error .typeMismatch :=
  (ensureAccessorType_typeMismatch_iff.2.2.2.2 vectorIndexModel vectorIndexPrimitive
    vectorIntAccessor rfl).mpr (by decide)

/-! ## C5: the top-level entry -/

/-- C5: `write` invokes the external writer exactly when `convertModel`
returned `true`: then the writer is invoked once, on the children the
conversion left, and its result is returned.  When `convertModel` returns
`false`, or an exception reaches `write`, the result is `false` and the writer
is not invoked.  `write` ends whenever `convertModel` does. -/
theorem write_invokes_writer_iff (ivWrite : String → List OutputNode → Bool → Bool)
    (m : Model) (fuel : Nat) (filename : String) (writeBinary : Bool) (s : State) :
    (∀ s1, convertModel m fuel s = some (.ret true s1) →
      write ivWrite m fuel filename writeBinary s =
        some { returned := ivWrite filename s1.children writeBinary, state := s1,
               writerCalls := [{ filename := filename, children := s1.children,
                                 writeBinary := writeBinary }] }) ∧
    (∀ s1, convertModel m fuel s = some (.ret false s1) →
      write ivWrite m fuel filename writeBinary s =
        some { returned := false, state := s1, writerCalls := [] }) ∧
    (∀ e s1, convertModel m fuel s = some (.raised e s1) →
      write ivWrite m fuel filename writeBinary s =
        some { returned := false, state := s1, writerCalls := [] }) ∧
    ((write ivWrite m fuel filename writeBinary s).isSome = (convertModel m fuel s).isSome) ∧
    (∀ r, write ivWrite m fuel filename writeBinary s = some r →
      (r.writerCalls ≠ [] ↔ ∃ s1, convertModel m fuel s = some (.ret true s1))) := by
  refine ⟨?_, ?_, ?_, ?_, ?_⟩
  · intro s1 h
    simp [write, h]
  · intro s1 h
    simp [write, h]
  · intro e s1 h
    simp [write, h]
  · unfold write
    split <;> simp_all
  · intro r hr
    unfold write at hr
    split at hr
    · cases hr
    · rename_i s1 h
      cases hr
      simp [h]
    · rename_i s1 h
      cases hr
      simp [h]
    · rename_i e s1 h
      cases hr
      simp [h]

/-- C5 (witness): on the single-triangle model `write` invokes the writer
once, on the six children, and returns its result; on the model whose node
names a missing mesh the writer is not invoked. -/
theorem write_invokes_writer_iff_witness :
    write acceptingWriter triangleModel 1 "out.iv" false State.init =
      some { returned := true, state := triangleOutput,
             writerCalls := [{ filename := "out.iv", children := triangleOutput.children,
                               writeBinary := false }] } ∧
    write acceptingWriter danglingMeshModel 1 "out.iv" false State.init =
      some { returned := false, state := State.init, writerCalls := [] } :=
  ⟨(write_invokes_writer_iff acceptingWriter triangleModel 1 "out.iv" false State.init).1
      triangleOutput rfl,
   (write_invokes_writer_iff acceptingWriter danglingMeshModel 1 "out.iv" false
      State.init).2.1 State.init rfl⟩

/-! ## C7: materials -/

/-- C7: a material whose base-colour factor is `(r, g, b, a)` converts to a
material node with ambient `(0.2, 0.2, 0.2)`, diffuse `(r, g, b)` with each
component cast to `float`, specular and emissive `(0, 0, 0)`, shininess `0.2`
and transparency `0` (the `float` literals `0.2f` and `0.0f`); every material
with the same `r`, `g`, `b` converts to the same node, whatever its alpha and
its other fields are. -/
theorem convertMaterial_fields (material : Material) (r g b a : Rat)
    (hbase : material.baseColorFactor = [r, g, b, a]) :
    convertMaterial material =
      { ambientColor := ⟨.nearest (2 / 10), .nearest (2 / 10), .nearest (2 / 10)⟩
        diffuseColor := ⟨toFloat r, toFloat g, toFloat b⟩
        specularColor := ⟨0, 0, 0⟩
        emissiveColor := ⟨0, 0, 0⟩
        shininess := .nearest (2 / 10)
        transparency := 0 } ∧
    ∀ (material1 : Material) (a1 : Rat), material1.baseColorFactor = [r, g, b, a1] →
      convertMaterial material1 = convertMaterial material := by
  refine ⟨?_, ?_⟩
  · simp [convertMaterial, diffuseColor, vectorGet, hbase]
  · intro material1 a1 h1
    simp [convertMaterial, diffuseColor, vectorGet, hbase, h1]

/-- C7 (witness): the red material `(1, 0, 0, 1)`: the diffuse colour is the
cast of `1`, `0`, `0`, the ambient colour is three times `0.2f`. -/
theorem convertMaterial_fields_witness :
    (convertMaterial redMaterial).diffuseColor = ⟨toFloat 1, toFloat 0, toFloat 0⟩ ∧
    (convertMaterial redMaterial).ambientColor =
      ⟨.nearest (2 / 10), .nearest (2 / 10), .nearest (2 / 10)⟩ :=
  ⟨congrArg SoMaterial.diffuseColor (convertMaterial_fields redMaterial 1 0 0 1 rfl).1,
   congrArg SoMaterial.ambientColor (convertMaterial_fields redMaterial 1 0 0 1 rfl).1⟩

/-! ## Lemmas on `allOf` -/

theorem allTrue_nil_iff {α : Type} (f : α → State → Option Outcome) (s s1 : State) :
    AllTrue f [] s s1 ↔ s1 = s := by
  constructor
  · intro h; cases h; rfl
  · rintro rfl; exact AllTrue.nil _

theorem allTrue_cons_iff {α : Type} (f : α → State → Option Outcome) (x : α) (xs : List α)
    (s s2 : State) :
    AllTrue f (x :: xs) s s2 ↔ ∃ s1, f x s = some (.ret true s1) ∧ AllTrue f xs s1 s2 := by
  constructor
  · intro h
    cases h with
    | cons h1 h2 => exact ⟨_, h1, h2⟩
  · rintro ⟨s1, h1, h2⟩
    exact AllTrue.cons h1 h2

theorem allOf_cons_true {α : Type} (f : α → State → Option Outcome) (x : α) (xs : List α)
    (s s1 : State) (h : f x s = some (.ret true s1)) :
    allOf f (x :: xs) s = allOf f xs s1 := by
  simp [allOf, h]

theorem allOf_cons_stop {α : Type} (f : α → State → Option Outcome) (x : α) (xs : List α)
    (s : State) (h : ∀ s1, f x s ≠ some (.ret true s1)) :
    allOf f (x :: xs) s = f x s := by
  unfold allOf
  split
  · rename_i s1 h1
    exact absurd h1 (h s1)
  · rfl

theorem allOf_ret_true_iff {α : Type} (f : α → State → Option Outcome) (xs : List α) :
    ∀ (s s1 : State), allOf f xs s = some (.ret true s1) ↔ AllTrue f xs s s1 := by
  induction xs with
  | nil =>
    intro s s1
    rw [allTrue_nil_iff]
    simp only [allOf, Option.some.injEq, Outcome.ret.injEq, true_and]
    exact eq_comm
  | cons x xs ih =>
    intro s s2
    rw [allTrue_cons_iff]
    by_cases h : ∃ s1, f x s = some (.ret true s1)
    · obtain ⟨s1, h1⟩ := h
      rw [allOf_cons_true f x xs s s1 h1, ih]
      constructor
      · intro h2; exact ⟨s1, h1, h2⟩
      · rintro ⟨s3, h3, h4⟩
        rw [h1] at h3
        cases h3
        exact h4
    · have hne : ∀ s1, f x s ≠ some (.ret true s1) := fun s1 h1 => h ⟨s1, h1⟩
      rw [allOf_cons_stop f x xs s hne]
      constructor
      · intro h2; exact absurd h2 (hne s2)
      · rintro ⟨s3, h3, _⟩; exact absurd h3 (hne s3)

theorem allOf_stop_iff {α : Type} (f : α → State → Option Outcome) (r : Option Outcome)
    (hr : ∀ s1, r ≠ some (.ret true s1)) (xs : List α) :
    ∀ (s : State), allOf f xs s = r ↔
      ∃ done x rest s1, xs = done ++ x :: rest ∧ AllTrue f done s s1 ∧ f x s1 = r := by
  induction xs with
  | nil =>
    intro s
    constructor
    · intro h
      exact absurd h.symm (by simpa [allOf] using hr s)
    · rintro ⟨done, x, rest, s1, h, _⟩
      simp at h
  | cons y ys ih =>
    intro s
    by_cases h : ∃ s1, f y s = some (.ret true s1)
    · obtain ⟨s1, h1⟩ := h
      rw [allOf_cons_true f y ys s s1 h1, ih]
      constructor
      · rintro ⟨done, x, rest, s2, hxs, hall, hx⟩
        exact ⟨y :: done, x, rest, s2, by simp [hxs], AllTrue.cons h1 hall, hx⟩
      · rintro ⟨done, x, rest, s2, hxs, hall, hx⟩
        cases done with
        | nil =>
          simp only [List.nil_append, List.cons.injEq] at hxs
          obtain rfl := (allTrue_nil_iff f s s2).mp hall
          rw [← hxs.1, h1] at hx
          exact absurd hx.symm (hr s1)
        | cons d ds =>
          simp only [List.cons_append, List.cons.injEq] at hxs
          obtain ⟨s3, h3, h4⟩ := (allTrue_cons_iff f d ds s s2).mp hall
          rw [← hxs.1, h1] at h3
          cases h3
          exact ⟨ds, x, rest, s2, hxs.2, h4, hx⟩
    · have hne : ∀ s1, f y s ≠ some (.ret true s1) := fun s1 h1 => h ⟨s1, h1⟩
      rw [allOf_cons_stop f y ys s hne]
      constructor
      · intro h2
        exact ⟨[], y, ys, s, rfl, AllTrue.nil s, h2⟩
      · rintro ⟨done, x, rest, s2, hxs, hall, hx⟩
        cases done with
        | nil =>
          simp only [List.nil_append, List.cons.injEq] at hxs
          obtain rfl := (allTrue_nil_iff f s s2).mp hall
          rw [← hxs.1] at hx
          exact hx
        | cons d ds =>
          simp only [List.cons_append, List.cons.injEq] at hxs
          obtain ⟨s3, h3, _⟩ := (allTrue_cons_iff f d ds s s2).mp hall
          rw [← hxs.1] at h3
          exact absurd h3 (hne s3)

theorem isFailure_ne_ret_true (o : Outcome) (h : o.isFailure = true) (s1 : State) :
    some o ≠ some (.ret true s1) := by
  intro h1
  cases h1
  simp [Outcome.isFailure] at h

theorem allOf_shortCircuitFold {α : Type} (f : α → State → Option Outcome) (xs : List α)
    (s : State) : ShortCircuitFold f xs s (allOf f xs s) := by
  refine ⟨fun s1 => allOf_ret_true_iff f xs s s1, ?_, ?_⟩
  · intro o ho
    exact allOf_stop_iff f (some o) (isFailure_ne_ret_true o ho) xs s
  · exact allOf_stop_iff f none (fun s1 h => by cases h) xs s

/-- A fold that failed on the list `done ++ [x]` gives the same outcome, with
the same members, on every list that continues it. -/
theorem allOf_append_of_failure {α : Type} (f : α → State → Option Outcome)
    (done : List α) (x : α) (rest : List α) (s : State) (o : Outcome)
    (ho : o.isFailure = true) (h : allOf f (done ++ [x]) s = some o) :
    allOf f (done ++ x :: rest) s = some o := by
  have hr := isFailure_ne_ret_true o ho
  obtain ⟨d, y, r, s1, hxs, hall, hy⟩ := (allOf_stop_iff f (some o) hr (done ++ [x]) s).mp h
  refine (allOf_stop_iff f (some o) hr (done ++ x :: rest) s).mpr ?_
  rcases List.append_eq_append_iff.mp hxs with ⟨a, ha, hb⟩ | ⟨c, hc, hd⟩
  · -- `d = done ++ a` and `[x] = a ++ y :: r`, so `a = []`
    cases a with
    | nil =>
      simp only [List.nil_append, List.cons.injEq] at hb
      simp only [List.append_nil] at ha
      subst ha
      exact ⟨d, y, rest, s1, by rw [hb.1], hall, hy⟩
    | cons a0 as => simp at hb
  · -- `done = d ++ c` and `y :: r = c ++ [x]`
    cases c with
    | nil =>
      simp only [List.nil_append, List.cons.injEq] at hd
      simp only [List.append_nil] at hc
      subst hc
      exact ⟨done, y, rest, s1, by rw [hd.1], hall, hy⟩
    | cons c0 cs =>
      simp only [List.cons_append, List.cons.injEq] at hd
      exact ⟨d, y, cs ++ x :: rest, s1, by simp [hc, hd.1], hall, hy⟩

/-! ## C9: the all-succeed folds -/

/-- C9: `convertNodes`, `convertModel` (over the scenes) and
`convertPrimitives` are short-circuiting all-succeed folds: each returns
`true` exactly when every element, converted in order from the members its
predecessor left, returned `true`; each fails exactly with the outcome of the
first element that did not return `true`, its members being those that
element left after the elements before it had succeeded (what earlier
siblings appended stays), and no later element plays a part: a fold that
failed on a list gives that same outcome on every continuation of the list. -/
theorem convertNodes_short_circuit (m : Model) (fuel : Nat) :
    (∀ (nodeIndices : List Int) (s : State),
      ShortCircuitFold (convertNodeIndex m fuel) nodeIndices s
        (convertNodes m fuel nodeIndices s)) ∧
    (∀ (s : State),
      ShortCircuitFold (convertScene m fuel) m.scenes s (convertModel m fuel s)) ∧
    (∀ (primitives : List Primitive) (s : State),
      ShortCircuitFold (fun primitive s1 => some (convertPrimitive m primitive s1))
        primitives s (convertPrimitives m primitives s)) ∧
    (∀ (done : List Int) (nodeIndex : Int) (rest : List Int) (s : State) (o : Outcome),
      o.isFailure = true → convertNodes m fuel (done ++ [nodeIndex]) s = some o →
      convertNodes m fuel (done ++ nodeIndex :: rest) s = some o) ∧
    (∀ (done : List Primitive) (primitive : Primitive) (rest : List Primitive) (s : State)
      (o : Outcome),
      o.isFailure = true → convertPrimitives m (done ++ [primitive]) s = some o →
      convertPrimitives m (done ++ primitive :: rest) s = some o) := by
  refine ⟨?_, ?_, ?_, ?_, ?_⟩
  · intro nodeIndices s
    exact allOf_shortCircuitFold _ _ _
  · intro s
    exact allOf_shortCircuitFold _ _ _
  · intro primitives s
    exact allOf_shortCircuitFold _ _ _
  · intro done nodeIndex rest s o ho h
    exact allOf_append_of_failure _ done nodeIndex rest s o ho h
  · intro done primitive rest s o ho h
    exact allOf_append_of_failure _ done primitive rest s o ho h

/-- C9 (witness): in the single-triangle model the index list `0, 5, 0` fails
at the out-of-range index `5`; the six children of node `0` stay and the last
index is not converted. -/
theorem convertNodes_short_circuit_witness :
    convertNodes triangleModel 1 ([0] ++ 5 :: [0]) State.init =
      some (.ret false triangleOutput) :=
  (convertNodes_short_circuit triangleModel 1).2.2.2.1 [0] 5 [0] State.init
    (.ret false triangleOutput) rfl rfl

/-! ## C10: `convertNode(const tinygltf::Node &)` -/

theorem convertMeshIndex_of_ge (m : Model) (meshIndex : Int) (s : State)
    (h : meshIndex ≥ (m.meshes.length : Int)) :
    convertMeshIndex m meshIndex s = some (.ret false s) := by
  simp [convertMeshIndex, h]

theorem convertMeshIndex_of_getElem (m : Model) (meshIndex : Int) (s : State) (mesh : Mesh)
    (h0 : 0 ≤ meshIndex) (h : m.meshes[meshIndex.toNat]? = some mesh) :
    convertMeshIndex m meshIndex s = convertMesh m mesh s := by
  have hlt : meshIndex.toNat < m.meshes.length := (List.getElem?_eq_some_iff.mp h).1
  have h1 : meshIndex < (m.meshes.length : Int) := by omega
  simp [convertMeshIndex, h0, h1, h]

theorem andThen_ret_true_iff (a : Option Outcome) (b : State → Option Outcome) (s2 : State) :
    andThen a b = some (.ret true s2) ↔
      ∃ s1, a = some (.ret true s1) ∧ b s1 = some (.ret true s2) := by
  unfold andThen
  split
  · rename_i s1
    constructor
    · intro h; exact ⟨s1, rfl, h⟩
    · rintro ⟨s3, h3, h4⟩
      cases h3
      exact h4
  · rename_i hne
    constructor
    · intro h
      exact absurd h (hne s2)
    · rintro ⟨s3, h3, _⟩
      exact absurd h3 (hne s3)

theorem andThen_of_failure (o : Outcome) (b : State → Option Outcome)
    (ho : o.isFailure = true) : andThen (some o) b = some o := by
  unfold andThen
  split
  · rename_i s1 h
    exact absurd h (isFailure_ne_ret_true o ho s1)
  · rfl

/-- C10: `convertNode(node)` returns `true` exactly when the node has no mesh
(a negative mesh index) or its mesh index is within `[0, meshCount)` and the
conversion of that mesh returns `true`, and then converting the children,
from the members the mesh step left, returns `true`.  A mesh index at or
above the mesh count makes it return `false` with nothing raised and the
members untouched, and a mesh whose conversion fails makes it end with that
very outcome; in both cases the outcome is the same whatever the children
are, so they are not converted. -/
theorem convertNode_iff (m : Model) (fuel : Nat) (node : Node) (s : State) :
    (∀ s2, convertNode m (fuel + 1) node s = some (.ret true s2) ↔
      ∃ s1,
        ((node.mesh < 0 ∧ s1 = s) ∨
         (0 ≤ node.mesh ∧ node.mesh < (m.meshes.length : Int) ∧
           ∃ mesh, m.meshes[node.mesh.toNat]? = some mesh ∧
             convertMesh m mesh s = some (.ret true s1))) ∧
        convertNodes m fuel node.children s1 = some (.ret true s2)) ∧
    (node.mesh ≥ (m.meshes.length : Int) →
      ∀ (children : List Int),
        convertNode m (fuel + 1) { node with children := children } s =
          some (.ret false s)) ∧
    (∀ (mesh : Mesh) (o : Outcome), 0 ≤ node.mesh →
      m.meshes[node.mesh.toNat]? = some mesh → convertMesh m mesh s = some o →
      o.isFailure = true →
      ∀ (children : List Int),
        convertNode m (fuel + 1) { node with children := children } s = some o) := by
  refine ⟨?_, ?_, ?_⟩
  · intro s2
    rw [convertNode_succ, andThen_ret_true_iff]
    constructor
    · rintro ⟨s1, hmesh, hchildren⟩
      refine ⟨s1, ?_, hchildren⟩
      unfold convertNodeMesh at hmesh
      split at hmesh
      · rename_i hneg
        cases hmesh
        exact Or.inl ⟨hneg, rfl⟩
      · rename_i hneg
        have h0 : 0 ≤ node.mesh := by omega
        by_cases hlt : node.mesh < (m.meshes.length : Int)
        · obtain ⟨mesh, hm⟩ := getElem?_toNat_isSome m.meshes node.mesh h0 hlt
          rw [convertMeshIndex_of_getElem m node.mesh s mesh h0 hm] at hmesh
          exact Or.inr ⟨h0, hlt, mesh, hm, hmesh⟩
        · rw [convertMeshIndex_of_ge m node.mesh s (by omega)] at hmesh
          cases hmesh
    · rintro ⟨s1, hmesh, hchildren⟩
      refine ⟨s1, ?_, hchildren⟩
      rcases hmesh with ⟨hneg, rfl⟩ | ⟨h0, _, mesh, hm, hc⟩
      · simp [convertNodeMesh, hneg]
      · have hneg : ¬ node.mesh < 0 := by omega
        simp only [convertNodeMesh, hneg, if_false]
        rw [convertMeshIndex_of_getElem m node.mesh s mesh h0 hm]
        exact hc
  · intro hge children
    have hneg : ¬ node.mesh < 0 := by omega
    rw [convertNode_succ]
    simp only [convertNodeMesh, hneg, if_false]
    rw [convertMeshIndex_of_ge m node.mesh s hge]
    rfl
  · intro mesh o h0 hm hc ho children
    have hneg : ¬ node.mesh < 0 := by omega
    rw [convertNode_succ]
    simp only [convertNodeMesh, hneg, if_false]
    rw [convertMeshIndex_of_getElem m node.mesh s mesh h0 hm, hc]
    exact andThen_of_failure o _ ho

/-- C10 (witness): a node that names mesh `0` of an empty mesh table returns
`false` with the members untouched, whatever its children are. -/
theorem convertNode_iff_witness :
    convertNode danglingMeshModel 1 { name := "node", mesh := 0, children := [0, 0] }
      State.init = some (.ret false State.init) :=
  (convertNode_iff danglingMeshModel 0 { name := "node", mesh := 0, children := [] }
    State.init).2.1 (by decide) [0, 0]

/-! ## Lemmas on `unique` -/

theorem unique_eq_uniqueFrom {α : Type} [DecidableEq α] (values : List α) :
    unique values = uniqueFrom [] values := rfl

@[simp] theorem uniqueFrom_nil {α : Type} [DecidableEq α] (table : List α) :
    uniqueFrom table [] = table := rfl

theorem uniqueFrom_cons {α : Type} [DecidableEq α] (table : List α) (v : α) (vs : List α) :
    uniqueFrom table (v :: vs) =
      uniqueFrom (if v ∈ table then table else table ++ [v]) vs := rfl

theorem uniqueFrom_cons_of_mem {α : Type} [DecidableEq α] (table : List α) (v : α)
    (vs : List α) (h : v ∈ table) : uniqueFrom table (v :: vs) = uniqueFrom table vs := by
  rw [uniqueFrom_cons, if_pos h]

theorem uniqueFrom_cons_of_not_mem {α : Type} [DecidableEq α] (table : List α) (v : α)
    (vs : List α) (h : v ∉ table) :
    uniqueFrom table (v :: vs) = uniqueFrom (table ++ [v]) vs := by
  rw [uniqueFrom_cons, if_neg h]

theorem uniqueFrom_append {α : Type} [DecidableEq α] (table xs ys : List α) :
    uniqueFrom table (xs ++ ys) = uniqueFrom (uniqueFrom table xs) ys := by
  simp [uniqueFrom, List.foldl_append]

/-- The table built so far stays at the front. -/
theorem uniqueFrom_extends {α : Type} [DecidableEq α] (values : List α) :
    ∀ table : List α, ∃ extra, uniqueFrom table values = table ++ extra := by
  induction values with
  | nil => intro table; exact ⟨[], by simp⟩
  | cons v vs ih =>
    intro table
    by_cases h : v ∈ table
    · rw [uniqueFrom_cons_of_mem _ _ _ h]
      exact ih table
    · rw [uniqueFrom_cons_of_not_mem _ _ _ h]
      obtain ⟨extra, he⟩ := ih (table ++ [v])
      exact ⟨v :: extra, by rw [he]; simp⟩

theorem uniqueFrom_nodup {α : Type} [DecidableEq α] (values : List α) :
    ∀ table : List α, table.Nodup → (uniqueFrom table values).Nodup := by
  induction values with
  | nil => intro table h; exact h
  | cons v vs ih =>
    intro table hnd
    by_cases h : v ∈ table
    · rw [uniqueFrom_cons_of_mem _ _ _ h]
      exact ih table hnd
    · rw [uniqueFrom_cons_of_not_mem _ _ _ h]
      apply ih
      rw [List.nodup_append]
      refine ⟨hnd, List.nodup_singleton v, ?_⟩
      intro a ha hb
      rw [List.mem_singleton] at hb
      exact h (hb ▸ ha)

theorem mem_uniqueFrom {α : Type} [DecidableEq α] (values : List α) :
    ∀ (table : List α) (a : α), a ∈ uniqueFrom table values ↔ a ∈ table ∨ a ∈ values := by
  induction values with
  | nil => intro table a; simp
  | cons v vs ih =>
    intro table a
    by_cases h : v ∈ table
    · rw [uniqueFrom_cons_of_mem _ _ _ h, ih]
      constructor
      · rintro (h1 | h1)
        · exact Or.inl h1
        · exact Or.inr (List.mem_cons_of_mem _ h1)
      · rintro (h1 | h1)
        · exact Or.inl h1
        · rcases List.mem_cons.mp h1 with rfl | h2
          · exact Or.inl h
          · exact Or.inr h2
    · rw [uniqueFrom_cons_of_not_mem _ _ _ h, ih]
      simp only [List.mem_append, List.mem_singleton, List.mem_cons]
      tauto

/-- A list without repetition, none of whose values is in the table, is
appended as it is. -/
theorem uniqueFrom_of_nodup {α : Type} [DecidableEq α] (values : List α) :
    ∀ table : List α, (table ++ values).Nodup → uniqueFrom table values = table ++ values := by
  induction values with
  | nil => intro table _; simp
  | cons v vs ih =>
    intro table hnd
    have hv : v ∉ table := by
      intro hmem
      rw [List.nodup_append] at hnd
      exact hnd.2.2 hmem (List.mem_cons_self v vs)
    rw [uniqueFrom_cons_of_not_mem _ _ _ hv, ih]
    · simp
    · simpa using hnd

theorem filter_uniqueFrom {α : Type} [DecidableEq α] (p : α → Bool) (values : List α) :
    ∀ table : List α,
      (uniqueFrom table values).filter p = uniqueFrom (table.filter p) (values.filter p) := by
  induction values with
  | nil => intro table; simp
  | cons v vs ih =>
    intro table
    by_cases h : v ∈ table
    · rw [uniqueFrom_cons_of_mem _ _ _ h, ih]
      by_cases hp : p v = true
      · rw [List.filter_cons_of_pos hp,
          uniqueFrom_cons_of_mem _ _ _ (List.mem_filter.mpr ⟨h, hp⟩)]
      · rw [List.filter_cons_of_neg hp]
    · rw [uniqueFrom_cons_of_not_mem _ _ _ h, ih]
      by_cases hp : p v = true
      · have hv : v ∉ table.filter p := fun hm => h (List.mem_filter.mp hm).1
        rw [List.filter_cons_of_pos hp, uniqueFrom_cons_of_not_mem _ _ _ hv]
        simp [List.filter_append, hp]
      · rw [List.filter_cons_of_neg hp]
        simp [List.filter_append, hp]

/-- Continuing from a table is appending the pass over the values that are not
in the table. -/
theorem uniqueFrom_eq_append {α : Type} [DecidableEq α] (table values : List α)
    (hnd : table.Nodup) :
    uniqueFrom table values =
      table ++ uniqueFrom [] (values.filter (fun a => decide (a ∉ table))) := by
  obtain ⟨extra, he⟩ := uniqueFrom_extends values table
  have hfull := uniqueFrom_nodup values table hnd
  have h1 := filter_uniqueFrom (fun a => decide (a ∉ table)) values table
  have h2 : table.filter (fun a => decide (a ∉ table)) = [] := by
    rw [List.filter_eq_nil_iff]
    intro a ha
    simpa using ha
  rw [h2] at h1
  rw [← h1, he, List.filter_append]
  have h3 : table.filter (fun a => decide (a ∉ table)) = [] := h2
  rw [h3, List.nil_append]
  congr 1
  symm
  rw [List.filter_eq_self]
  intro a ha
  rw [he, List.nodup_append] at hfull
  have : a ∉ table := fun hm => hfull.2.2 hm ha
  simpa using this

/-- Deduplicating a list first does not change what a pass adds to a table. -/
theorem uniqueFrom_unique {α : Type} [DecidableEq α] (table values : List α)
    (hnd : table.Nodup) :
    uniqueFrom table (unique values) = uniqueFrom table values := by
  rw [uniqueFrom_eq_append table (unique values) hnd, uniqueFrom_eq_append table values hnd]
  congr 1
  rw [unique_eq_uniqueFrom, filter_uniqueFrom]
  simp only [List.filter_nil]
  apply uniqueFrom_of_nodup
  simpa using uniqueFrom_nodup _ [] List.nodup_nil

/-! ## Lemmas on the normal registry -/

theorem denseMapFrom_append (keys more : List normal_t) :
    ∀ start : Nat, denseMapFrom start (keys ++ more) =
      denseMapFrom start keys ++ denseMapFrom (start + keys.length) more := by
  induction keys with
  | nil => intro start; simp [denseMapFrom]
  | cons k ks ih =>
    intro start
    have hlen : start + 1 + ks.length = start + (ks.length + 1) := by omega
    show denseMapFrom start (k :: (ks ++ more)) = _
    simp only [denseMapFrom, List.cons_append, List.length_cons]
    rw [ih (start + 1), hlen]

theorem denseMapFrom_length (keys : List normal_t) :
    ∀ start : Nat, (denseMapFrom start keys).length = keys.length := by
  induction keys with
  | nil => intro start; rfl
  | cons k ks ih => intro start; simp [denseMapFrom, ih]

theorem denseMapFrom_map_fst (keys : List normal_t) :
    ∀ start : Nat, (denseMapFrom start keys).map Prod.fst = keys := by
  induction keys with
  | nil => intro start; rfl
  | cons k ks ih => intro start; simp [denseMapFrom, ih]

theorem lookup_denseMapFrom_eq_none (keys : List normal_t) (normal : normal_t) :
    ∀ start : Nat, normal ∉ keys → (denseMapFrom start keys).lookup normal = none := by
  induction keys with
  | nil => intro start _; rfl
  | cons k ks ih =>
    intro start hn
    have hne : normal ≠ k := fun h => hn (h ▸ List.mem_cons_self k ks)
    have hn1 : normal ∉ ks := fun h => hn (List.mem_cons_of_mem _ h)
    have hbeq : (normal == k) = false := by simpa using hne
    simp [denseMapFrom, List.lookup_cons, hbeq, ih (start + 1) hn1]

/-- The index of a key is its position in a repetition-free key list, counted
from `start`. -/
theorem lookup_denseMapFrom_iff (keys : List normal_t) (normal : normal_t) :
    ∀ (start : Nat) (index : Int), keys.Nodup →
      ((denseMapFrom start keys).lookup normal = some index ↔
        ∃ k : Nat, keys[k]? = some normal ∧ index = ((start + k : Nat) : Int)) := by
  induction keys with
  | nil =>
    intro start index _
    simp [denseMapFrom]
  | cons key ks ih =>
    intro start index hnd
    rw [List.nodup_cons] at hnd
    by_cases h : normal = key
    · subst h
      simp only [denseMapFrom, List.lookup_cons, beq_self_eq_true, Option.some.injEq]
      constructor
      · intro h1
        exact ⟨0, by simp, by simp [← h1]⟩
      · rintro ⟨k, hk, hi⟩
        cases k with
        | zero => simp [hi]
        | succ k =>
          simp only [List.getElem?_cons_succ] at hk
          exact absurd (List.getElem?_mem hk) hnd.1
    · have hbeq : (normal == key) = false := by simpa using h
      simp only [denseMapFrom, List.lookup_cons, hbeq]
      rw [ih (start + 1) index hnd.2]
      constructor
      · rintro ⟨k, hk, hi⟩
        exact ⟨k + 1, by simpa using hk, by rw [hi]; congr 1; omega⟩
      · rintro ⟨k, hk, hi⟩
        cases k with
        | zero =>
          simp only [List.getElem?_cons_zero, Option.some.injEq] at hk
          exact absurd hk.symm h
        | succ k =>
          simp only [List.getElem?_cons_succ] at hk
          exact ⟨k, hk, by rw [hi]; congr 1; omega⟩

theorem contains_denseMapFrom (keys : List normal_t) (normal : normal_t) (start : Nat) :
    NormalMap.contains (denseMapFrom start keys) normal = decide (normal ∈ keys) := by
  unfold NormalMap.contains
  induction keys generalizing start with
  | nil => simp [denseMapFrom]
  | cons key ks ih =>
    by_cases h : normal = key
    · subst h
      simp [denseMapFrom, List.lookup_cons]
    · have hbeq : (normal == key) = false := by simpa using h
      simp only [denseMapFrom, List.lookup_cons, hbeq, ih (start + 1)]
      simp [h]

theorem set_denseMapFrom_of_not_mem (keys : List normal_t) (normal : normal_t)
    (h : normal ∉ keys) :
    NormalMap.set (denseMapFrom 0 keys) normal (keys.length : Int) =
      denseMapFrom 0 (keys ++ [normal]) := by
  unfold NormalMap.set
  rw [contains_denseMapFrom, denseMapFrom_append]
  simp [h, denseMapFrom]

/-- The loop of `convertNormals` on a dense registry: the registry stays
dense, its keys are the pass of `unique` continued from the old keys, the
next index is the new size, and the vectors written are the keys added. -/
theorem registerNormals_denseMapFrom (uniqueNormals : List normal_t) :
    ∀ (keys written : List normal_t),
      registerNormals uniqueNormals (denseMapFrom 0 keys) (keys.length : Int) written =
        (denseMapFrom 0 (uniqueFrom keys uniqueNormals),
         ((uniqueFrom keys uniqueNormals).length : Int),
         written ++ (uniqueFrom keys uniqueNormals).drop keys.length) := by
  induction uniqueNormals with
  | nil =>
    intro keys written
    simp [registerNormals]
  | cons n ns ih =>
    intro keys written
    have hstep : registerNormals (n :: ns) (denseMapFrom 0 keys) (keys.length : Int) written =
        registerNormals ns
          (if n ∈ keys then denseMapFrom 0 keys else denseMapFrom 0 (keys ++ [n]))
          (if n ∈ keys then (keys.length : Int) else ((keys ++ [n]).length : Int))
          (if n ∈ keys then written else written ++ [n]) := by
      by_cases h : n ∈ keys
      · simp [registerNormals, contains_denseMapFrom, h]
      · simp only [registerNormals, List.foldl_cons, contains_denseMapFrom, h, decide_False,
          Bool.not_false, if_true, if_false, set_denseMapFrom_of_not_mem keys n h]
        simp
    rw [hstep]
    by_cases h : n ∈ keys
    · simp only [h, if_true]
      rw [ih keys written, uniqueFrom_cons_of_mem _ _ _ h]
    · simp only [h, if_false]
      rw [ih (keys ++ [n]) (written ++ [n]), uniqueFrom_cons_of_not_mem _ _ _ h]
      obtain ⟨extra, he⟩ := uniqueFrom_extends ns (keys ++ [n])
      rw [he]
      simp [List.drop_append]

/-- One `convertNormals` call on a dense registry. -/
theorem convertNormals_denseMapFrom (normals : List normal_t) (s : State)
    (keys : List normal_t) (hnd : keys.Nodup) (hs : s.normalMap = denseMapFrom 0 keys) :
    (convertNormals normals s).2.normalMap = denseMapFrom 0 (uniqueFrom keys normals) ∧
    (convertNormals normals s).2.children = s.children := by
  constructor
  · show (registerNormals (unique normals) s.normalMap (s.normalMap.length : Int) []).1 = _
    rw [hs, denseMapFrom_length, registerNormals_denseMapFrom,
      uniqueFrom_unique keys normals hnd]
  · rfl

/-- A run of `convertNormals` calls on a dense registry. -/
theorem runNormals_denseMapFrom (calls : List (List normal_t)) :
    ∀ (s : State) (keys : List normal_t), keys.Nodup → s.normalMap = denseMapFrom 0 keys →
      (runNormals calls s).normalMap = denseMapFrom 0 (uniqueFrom keys calls.flatten) := by
  induction calls with
  | nil => intro s keys _ hs; simpa [runNormals] using hs
  | cons c cs ih =>
    intro s keys hnd hs
    have h1 := (convertNormals_denseMapFrom c s keys hnd hs).1
    have h2 := ih (convertNormals c s).2 (uniqueFrom keys c) (uniqueFrom_nodup c keys hnd) h1
    have h3 : runNormals (c :: cs) s = runNormals cs (convertNormals c s).2 := rfl
    rw [h3, h2, List.flatten_cons, uniqueFrom_append]

theorem runNormals_append (calls more : List (List normal_t)) (s : State) :
    runNormals (calls ++ more) s = runNormals more (runNormals calls s) := by
  simp [runNormals, List.foldl_append]

theorem runNormals_init (calls : List (List normal_t)) :
    (runNormals calls State.init).normalMap = denseMapFrom 0 (unique calls.flatten) :=
  runNormals_denseMapFrom calls State.init [] List.nodup_nil rfl

theorem unique_nodup {α : Type} [DecidableEq α] (values : List α) : (unique values).Nodup :=
  uniqueFrom_nodup values [] List.nodup_nil

theorem mem_unique {α : Type} [DecidableEq α] (values : List α) (a : α) :
    a ∈ unique values ↔ a ∈ values := by
  rw [unique_eq_uniqueFrom, mem_uniqueFrom]
  simp

/-- After a run from the empty registry, the index of a normal is its
position among the distinct normals of the run in first-seen order. -/
theorem lookup_runNormals_iff (calls : List (List normal_t)) (normal : normal_t)
    (index : Int) :
    (runNormals calls State.init).normalMap.lookup normal = some index ↔
      ∃ k : Nat, (unique calls.flatten)[k]? = some normal ∧ index = (k : Int) := by
  rw [runNormals_init, lookup_denseMapFrom_iff _ _ 0 index (unique_nodup _)]
  simp

/-! ## C6: the normal registry -/

/-- C6: after any sequence of `convertNormals` calls from the empty registry,
the registry holds one entry per distinct normal seen; the index of a normal
is its position among the distinct normals of the run in first-seen order, so
the indices are exactly `0 .. size - 1`, each taken by exactly one normal;
every normal of every call resolves to an index; and an index once assigned
is the index of that normal after any further calls, so value-equal normals
resolve to the same index wherever they occur in the run. -/
theorem normalRegistry_invariant (calls more : List (List normal_t)) :
    (runNormals calls State.init).normalMap.length = (unique calls.flatten).length ∧
    ((runNormals calls State.init).normalMap.map Prod.fst).Nodup ∧
    (∀ (normal : normal_t) (index : Int),
      (runNormals calls State.init).normalMap.lookup normal = some index ↔
        ∃ k : Nat, (unique calls.flatten)[k]? = some normal ∧ index = (k : Int)) ∧
    (∀ (normal : normal_t) (index : Int),
      (runNormals calls State.init).normalMap.lookup normal = some index →
        0 ≤ index ∧ index < ((runNormals calls State.init).normalMap.length : Int)) ∧
    (∀ k : Nat, k < (runNormals calls State.init).normalMap.length →
      ∃ normal, (runNormals calls State.init).normalMap.lookup normal = some (k : Int)) ∧
    (∀ (normal1 normal2 : normal_t) (index : Int),
      (runNormals calls State.init).normalMap.lookup normal1 = some index →
      (runNormals calls State.init).normalMap.lookup normal2 = some index →
      normal1 = normal2) ∧
    (∀ (normal : normal_t) (index : Int),
      (runNormals calls State.init).normalMap.lookup normal = some index →
      (runNormals more (runNormals calls State.init)).normalMap.lookup normal =
        some index) ∧
    (∀ normals ∈ calls, ∀ normal ∈ normals,
      ∃ index, (runNormals calls State.init).normalMap.lookup normal = some index) := by
  have hlen : (runNormals calls State.init).normalMap.length = (unique calls.flatten).length := by
    rw [runNormals_init, denseMapFrom_length]
  refine ⟨hlen, ?_, lookup_runNormals_iff calls, ?_, ?_, ?_, ?_, ?_⟩
  · rw [runNormals_init, denseMapFrom_map_fst]
    exact unique_nodup _
  · intro normal index h
    obtain ⟨k, hk, hi⟩ := (lookup_runNormals_iff calls normal index).mp h
    have hlt : k < (unique calls.flatten).length := (List.getElem?_eq_some_iff.mp hk).1
    rw [hlen, hi]
    omega
  · intro k hk
    rw [hlen] at hk
    exact ⟨(unique calls.flatten)[k],
      (lookup_runNormals_iff calls _ _).mpr ⟨k, List.getElem?_eq_getElem hk, rfl⟩⟩
  · intro normal1 normal2 index h1 h2
    obtain ⟨k1, hk1, hi1⟩ := (lookup_runNormals_iff calls normal1 index).mp h1
    obtain ⟨k2, hk2, hi2⟩ := (lookup_runNormals_iff calls normal2 index).mp h2
    have hk : k1 = k2 := by omega
    rw [hk, hk2] at hk1
    exact (Option.some.inj hk1).symm
  · intro normal index h
    obtain ⟨k, hk, hi⟩ := (lookup_runNormals_iff calls normal index).mp h
    rw [← runNormals_append]
    refine (lookup_runNormals_iff (calls ++ more) normal index).mpr ⟨k, ?_, hi⟩
    have hlt : k < (unique calls.flatten).length := (List.getElem?_eq_some_iff.mp hk).1
    obtain ⟨extra, he⟩ := uniqueFrom_extends more.flatten (unique calls.flatten)
    rw [List.flatten_append, unique_eq_uniqueFrom, uniqueFrom_append, ← unique_eq_uniqueFrom,
      he, List.getElem?_append_left hlt]
    exact hk
  · intro normals hcall normal hmem
    have hin : normal ∈ unique calls.flatten := by
      rw [mem_unique]
      exact List.mem_flatten.mpr ⟨normals, hcall, hmem⟩
    obtain ⟨k, hk⟩ := List.getElem?_of_mem hin
    exact ⟨(k : Int), (lookup_runNormals_iff calls _ _).mpr ⟨k, hk, rfl⟩⟩

/-- C6 (witness): the normal `(0,0,1)` registered by a first call keeps its
index `0` after a second call that registers `(1,0,0)` and meets `(0,0,1)`
again. -/
theorem normalRegistry_invariant_witness :
    (runNormals [[⟨1, 0, 0⟩, ⟨0, 0, 1⟩]]
        (runNormals [[⟨0, 0, 1⟩, ⟨0, 0, 1⟩, ⟨0, 0, 1⟩]] State.init)).normalMap.lookup
      ⟨0, 0, 1⟩ = some 0 :=
  (normalRegistry_invariant [[⟨0, 0, 1⟩, ⟨0, 0, 1⟩, ⟨0, 0, 1⟩]]
    [[⟨1, 0, 0⟩, ⟨0, 0, 1⟩]]).2.2.2.2.2.2.1 ⟨0, 0, 1⟩ 0 (by decide)

/-! ## C16: the component-type dispatch of `indices` -/

/-- C16: for an index accessor of scalar shape, `indices` throws the
unsupported-component-type error exactly when the component type is none of
`BYTE`, `UNSIGNED_BYTE`, `SHORT`, `UNSIGNED_SHORT`, `UNSIGNED_INT`, `FLOAT`;
for each of these six the stream is read at the matching native element type
(`int8_t`, `uint8_t`, `int16_t`, `uint16_t`, `uint32_t`, `float`) and nothing
is thrown. -/
theorem indices_dispatch (m : Model) (primitive : Primitive) (accessor : Accessor)
    (hacc : vectorAt m.accessors primitive.indices = .ok accessor)
    (hshape : accessor.type = TINYGLTF_TYPE_SCALAR) :
    (indices m primitive = .error .unsupportedComponentType ↔
      ¬ (accessor.componentType = TINYGLTF_COMPONENT_TYPE_BYTE ∨
         accessor.componentType = TINYGLTF_COMPONENT_TYPE_UNSIGNED_BYTE ∨
         accessor.componentType = TINYGLTF_COMPONENT_TYPE_SHORT ∨
         accessor.componentType = TINYGLTF_COMPONENT_TYPE_UNSIGNED_SHORT ∨
         accessor.componentType = TINYGLTF_COMPONENT_TYPE_UNSIGNED_INT ∨
         accessor.componentType = TINYGLTF_COMPONENT_TYPE_FLOAT)) ∧
    (accessor.componentType = TINYGLTF_COMPONENT_TYPE_BYTE →
      indices m primitive = .ok (accessorContentsScalar .int8 accessor)) ∧
    (accessor.componentType = TINYGLTF_COMPONENT_TYPE_UNSIGNED_BYTE →
      indices m primitive = .ok (accessorContentsScalar .uint8 accessor)) ∧
    (accessor.componentType = TINYGLTF_COMPONENT_TYPE_SHORT →
      indices m primitive = .ok (accessorContentsScalar .int16 accessor)) ∧
    (accessor.componentType = TINYGLTF_COMPONENT_TYPE_UNSIGNED_SHORT →
      indices m primitive = .ok (accessorContentsScalar .uint16 accessor)) ∧
    (accessor.componentType = TINYGLTF_COMPONENT_TYPE_UNSIGNED_INT →
      indices m primitive = .ok (accessorContentsScalar .uint32 accessor)) ∧
    (accessor.componentType = TINYGLTF_COMPONENT_TYPE_FLOAT →
      indices m primitive = .ok (accessorContentsScalar .float32 accessor)) := by
  have hens : ensureAccessorType accessor TINYGLTF_TYPE_SCALAR = .ok () := by
    simp [ensureAccessorType, hshape]
  have hdef : indices m primitive =
      if accessor.componentType = TINYGLTF_COMPONENT_TYPE_BYTE then
        .ok (accessorContentsScalar .int8 accessor)
      else if accessor.componentType = TINYGLTF_COMPONENT_TYPE_UNSIGNED_BYTE then
        .ok (accessorContentsScalar .uint8 accessor)
      else if accessor.componentType = TINYGLTF_COMPONENT_TYPE_SHORT then
        .ok (accessorContentsScalar .int16 accessor)
      else if accessor.componentType = TINYGLTF_COMPONENT_TYPE_UNSIGNED_SHORT then
        .ok (accessorContentsScalar .uint16 accessor)
      else if accessor.componentType = TINYGLTF_COMPONENT_TYPE_UNSIGNED_INT then
        .ok (accessorContentsScalar .uint32 accessor)
      else if accessor.componentType = TINYGLTF_COMPONENT_TYPE_FLOAT then
        .ok (accessorContentsScalar .float32 accessor)
      else .error .unsupportedComponentType := by
    simp only [indices, hacc, hens]
  refine ⟨?_, ?_, ?_, ?_, ?_, ?_, ?_⟩
  · rw [hdef]
    constructor
    · intro h
      repeat' split at h
      all_goals first
        | (cases h; done)
        | tauto
    · intro h
      simp only [not_or] at h
      simp [h.1, h.2.1, h.2.2.1, h.2.2.2.1, h.2.2.2.2.1, h.2.2.2.2.2]
  · intro h
    rw [hdef, if_pos h]
  · intro h
    rw [hdef]
    simp [h, TINYGLTF_COMPONENT_TYPE_BYTE, TINYGLTF_COMPONENT_TYPE_UNSIGNED_BYTE]
  · intro h
    rw [hdef]
    simp [h, TINYGLTF_COMPONENT_TYPE_BYTE, TINYGLTF_COMPONENT_TYPE_UNSIGNED_BYTE,
      TINYGLTF_COMPONENT_TYPE_SHORT]
  · intro h
    rw [hdef]
    simp [h, TINYGLTF_COMPONENT_TYPE_BYTE, TINYGLTF_COMPONENT_TYPE_UNSIGNED_BYTE,
      TINYGLTF_COMPONENT_TYPE_SHORT, TINYGLTF_COMPONENT_TYPE_UNSIGNED_SHORT]
  · intro h
    rw [hdef]
    simp [h, TINYGLTF_COMPONENT_TYPE_BYTE, TINYGLTF_COMPONENT_TYPE_UNSIGNED_BYTE,
      TINYGLTF_COMPONENT_TYPE_SHORT, TINYGLTF_COMPONENT_TYPE_UNSIGNED_SHORT,
      TINYGLTF_COMPONENT_TYPE_UNSIGNED_INT]
  · intro h
    rw [hdef]
    simp [h, TINYGLTF_COMPONENT_TYPE_BYTE, TINYGLTF_COMPONENT_TYPE_UNSIGNED_BYTE,
      TINYGLTF_COMPONENT_TYPE_SHORT, TINYGLTF_COMPONENT_TYPE_UNSIGNED_SHORT,
      TINYGLTF_COMPONENT_TYPE_UNSIGNED_INT, TINYGLTF_COMPONENT_TYPE_FLOAT]

/-- C16 (witness): the index accessor of the single-triangle model, read as
unsigned 16-bit. -/
theorem indices_dispatch_witness :
    indices triangleModel (trianglePrimitive TINYGLTF_MODE_TRIANGLES 0) =
      .ok { kind := .uint16, values := [0, 1, 2] } :=
  (indices_dispatch triangleModel (trianglePrimitive TINYGLTF_MODE_TRIANGLES 0)
    (triangleIndices TINYGLTF_COMPONENT_TYPE_UNSIGNED_SHORT) rfl rfl).2.2.2.2.1 rfl

/-! ## C18: decode failures leave the members untouched -/

/-- C18: when decoding the positions, the normals or the indices of a
triangle primitive throws, or the material index is out of range, the
conversion of the primitive throws that error while the children of the root
and the normal registry are what they were before the conversion started.
A missing `POSITION` or `NORMAL` attribute and an accessor or material index
out of range are such failures (the out-of-range error of `at`). -/
theorem convertTrianglesPrimitive_decode_failure (m : Model) (primitive : Primitive)
    (s : State) :
    (∀ e, positions m primitive = .error e →
      convertTrianglesPrimitive m primitive s = .raised e s) ∧
    (∀ ps e, positions m primitive = .ok ps → normals m primitive = .error e →
      convertTrianglesPrimitive m primitive s = .raised e s) ∧
    (∀ ps ns e, positions m primitive = .ok ps → normals m primitive = .ok ns →
      indices m primitive = .error e →
      convertTrianglesPrimitive m primitive s = .raised e s) ∧
    (∀ ps ns ixs e, positions m primitive = .ok ps → normals m primitive = .ok ns →
      indices m primitive = .ok ixs →
      convertMaterialIndex m primitive.material = .error e →
      convertTrianglesPrimitive m primitive s = .raised e s) ∧
    (((∃ e, positions m primitive = .error e) ∨ (∃ e, normals m primitive = .error e) ∨
      (∃ e, indices m primitive = .error e) ∨
      (∃ e, convertMaterialIndex m primitive.material = .error e)) →
      ∃ e, convertTrianglesPrimitive m primitive s = .raised e s) ∧
    (primitive.attributes.lookup "POSITION" = none →
      positions m primitive = .error .outOfRange) ∧
    (primitive.attributes.lookup "NORMAL" = none →
      normals m primitive = .error .outOfRange) ∧
    ((primitive.indices < 0 ∨ primitive.indices ≥ (m.accessors.length : Int)) →
      indices m primitive = .error .outOfRange) ∧
    ((primitive.material < 0 ∨ primitive.material ≥ (m.materials.length : Int)) →
      convertMaterialIndex m primitive.material = .error .outOfRange) := by
  have h1 : ∀ e, positions m primitive = .error e →
      convertTrianglesPrimitive m primitive s = .raised e s := by
    intro e h
    simp [convertTrianglesPrimitive, h]
  have h2 : ∀ ps e, positions m primitive = .ok ps → normals m primitive = .error e →
      convertTrianglesPrimitive m primitive s = .raised e s := by
    intro ps e hp h
    simp [convertTrianglesPrimitive, hp, h]
  have h3 : ∀ ps ns e, positions m primitive = .ok ps → normals m primitive = .ok ns →
      indices m primitive = .error e →
      convertTrianglesPrimitive m primitive s = .raised e s := by
    intro ps ns e hp hn h
    simp [convertTrianglesPrimitive, hp, hn, h]
  have h4 : ∀ ps ns ixs e, positions m primitive = .ok ps → normals m primitive = .ok ns →
      indices m primitive = .ok ixs →
      convertMaterialIndex m primitive.material = .error e →
      convertTrianglesPrimitive m primitive s = .raised e s := by
    intro ps ns ixs e hp hn hi h
    simp [convertTrianglesPrimitive, hp, hn, hi, h]
  have hvec : ∀ {α : Type} (v : List α) (i : Int),
      (i < 0 ∨ i ≥ (v.length : Int)) → vectorAt v i = .error .outOfRange := by
    intro α v i hi
    unfold vectorAt
    split
    · rfl
    · rename_i hneg
      have hge : v.length ≤ i.toNat := by omega
      rw [List.getElem?_eq_none hge]
  refine ⟨h1, h2, h3, h4, ?_, ?_, ?_, ?_, ?_⟩
  · intro h
    cases hp : positions m primitive with
    | error e => exact ⟨e, h1 e hp⟩
    | ok ps =>
    cases hn : normals m primitive with
    | error e => exact ⟨e, h2 ps e hp hn⟩
    | ok ns =>
    cases hi : indices m primitive with
    | error e => exact ⟨e, h3 ps ns e hp hn hi⟩
    | ok ixs =>
    cases hm : convertMaterialIndex m primitive.material with
    | error e => exact ⟨e, h4 ps ns ixs e hp hn hi hm⟩
    | ok mat =>
      rcases h with ⟨e, he⟩ | ⟨e, he⟩ | ⟨e, he⟩ | ⟨e, he⟩
      · rw [hp] at he; cases he
      · rw [hn] at he; cases he
      · rw [hi] at he; cases he
      · rw [hm] at he; cases he
  · intro h
    simp [positions, attributeAccessor, mapAt, h]
  · intro h
    simp [normals, attributeAccessor, mapAt, h]
  · intro h
    simp [indices, hvec m.accessors primitive.indices h]
  · intro h
    simp [convertMaterialIndex, hvec m.materials primitive.material h]

/-- C18 (witness): in the single-triangle model a primitive without the
`POSITION` attribute throws and leaves a state that already holds a child and
a registered normal as it was. -/
theorem convertTrianglesPrimitive_decode_failure_witness :
    convertTrianglesPrimitive triangleModel noPositionPrimitive busyState =
      .raised .outOfRange busyState :=
  (convertTrianglesPrimitive_decode_failure triangleModel noPositionPrimitive busyState).1
    .outOfRange rfl

/-! ## C11: the unique position table -/

theorem unique_cons {α : Type} [DecidableEq α] (x : α) (xs : List α) :
    unique (x :: xs) = x :: unique (xs.filter (fun a => decide (a ≠ x))) := by
  rw [unique_eq_uniqueFrom, uniqueFrom_cons_of_not_mem [] x xs (List.not_mem_nil x),
    List.nil_append, uniqueFrom_eq_append [x] xs (List.nodup_singleton x),
    unique_eq_uniqueFrom]
  simp

theorem uniqueFrom_sublist {α : Type} [DecidableEq α] (values : List α) :
    ∀ table : List α, (uniqueFrom table values).Sublist (table ++ values) := by
  induction values with
  | nil => intro table; simp
  | cons v vs ih =>
    intro table
    by_cases h : v ∈ table
    · rw [uniqueFrom_cons_of_mem _ _ _ h]
      exact (ih table).trans
        (List.Sublist.append_left (List.sublist_cons_self v vs) table)
    · rw [uniqueFrom_cons_of_not_mem _ _ _ h]
      have := ih (table ++ [v])
      simpa using this

/-- Filtering keeps the order of first occurrences of the values it keeps. -/
theorem indexOf_filter_lt_iff {α : Type} [DecidableEq α] (p : α → Bool) (a b : α)
    (ha : p a = true) (hb : p b = true) :
    ∀ xs : List α, a ∈ xs → b ∈ xs →
      ((xs.filter p).indexOf a < (xs.filter p).indexOf b ↔ xs.indexOf a < xs.indexOf b) := by
  intro xs
  induction xs with
  | nil => intro h; cases h
  | cons x xs ih =>
    intro hma hmb
    by_cases hpx : p x = true
    · rw [List.filter_cons_of_pos hpx]
      by_cases hxa : x = a
      · subst hxa
        by_cases hxb : x = b
        · subst hxb; simp
        · simp [List.indexOf_cons_ne _ hxb]
      · by_cases hxb : x = b
        · subst hxb
          simp [List.indexOf_cons_ne _ hxa]
        · have hma1 : a ∈ xs := (List.mem_cons.mp hma).resolve_left (fun h => hxa h.symm)
          have hmb1 : b ∈ xs := (List.mem_cons.mp hmb).resolve_left (fun h => hxb h.symm)
          simp only [List.indexOf_cons_ne _ hxa, List.indexOf_cons_ne _ hxb,
            Nat.succ_lt_succ_iff]
          exact ih hma1 hmb1
    · rw [List.filter_cons_of_neg hpx]
      have hxa : x ≠ a := fun h => hpx (h ▸ ha)
      have hxb : x ≠ b := fun h => hpx (h ▸ hb)
      have hma1 : a ∈ xs := (List.mem_cons.mp hma).resolve_left (fun h => hxa h.symm)
      have hmb1 : b ∈ xs := (List.mem_cons.mp hmb).resolve_left (fun h => hxb h.symm)
      simp only [List.indexOf_cons_ne _ hxa, List.indexOf_cons_ne _ hxb,
        Nat.succ_lt_succ_iff]
      exact ih hma1 hmb1

/-- The table lists the values in the order of their first occurrences. -/
theorem indexOf_unique_lt_iff {α : Type} [DecidableEq α] (n : Nat) :
    ∀ (xs : List α), xs.length ≤ n → ∀ (a b : α), a ∈ xs → b ∈ xs →
      ((unique xs).indexOf a < (unique xs).indexOf b ↔ xs.indexOf a < xs.indexOf b) := by
  induction n with
  | zero =>
    intro xs hlen a b ha
    have : xs = [] := List.length_eq_zero.mp (Nat.le_zero.mp hlen)
    subst this
    cases ha
  | succ n ih =>
    intro xs hlen a b hma hmb
    cases xs with
    | nil => cases hma
    | cons x xs =>
      rw [unique_cons]
      by_cases hxa : x = a
      · subst hxa
        by_cases hxb : x = b
        · subst hxb; simp
        · simp [List.indexOf_cons_ne _ hxb]
      · by_cases hxb : x = b
        · subst hxb
          simp [List.indexOf_cons_ne _ hxa]
        · have hma1 : a ∈ xs := (List.mem_cons.mp hma).resolve_left (fun h => hxa h.symm)
          have hmb1 : b ∈ xs := (List.mem_cons.mp hmb).resolve_left (fun h => hxb h.symm)
          have hpa : (fun c => decide (c ≠ x)) a = true := by simpa using fun h => hxa h.symm
          have hpb : (fun c => decide (c ≠ x)) b = true := by simpa using fun h => hxb h.symm
          have hfa : a ∈ xs.filter (fun c => decide (c ≠ x)) :=
            List.mem_filter.mpr ⟨hma1, hpa⟩
          have hfb : b ∈ xs.filter (fun c => decide (c ≠ x)) :=
            List.mem_filter.mpr ⟨hmb1, hpb⟩
          have hflen : (xs.filter (fun c => decide (c ≠ x))).length ≤ n := by
            have h1 := List.length_filter_le (fun c => decide (c ≠ x)) xs
            simp only [List.length_cons] at hlen
            omega
          simp only [List.indexOf_cons_ne _ hxa, List.indexOf_cons_ne _ hxb,
            Nat.succ_lt_succ_iff]
          rw [ih _ hflen a b hfa hfb]
          exact indexOf_filter_lt_iff _ a b hpa hpb xs hma1 hmb1

/-- C11: the unique position table of a raw position stream (the table the
coordinate node carries) holds no value twice, holds exactly the values of
the raw stream, keeps them in the order of the raw stream, and lists them in
the order of their first occurrences there. -/
theorem unique_positions_table (positions : List position_t) :
    (unique positions).Nodup ∧
    (∀ p : position_t, p ∈ unique positions ↔ p ∈ positions) ∧
    (unique positions).Sublist positions ∧
    (∀ p q : position_t, p ∈ positions → q ∈ positions →
      ((unique positions).indexOf p < (unique positions).indexOf q ↔
        positions.indexOf p < positions.indexOf q)) ∧
    convertPositions (unique positions) = .coordinate3 (unique positions) := by
  refine ⟨unique_nodup positions, mem_unique positions, ?_, ?_, rfl⟩
  · have := uniqueFrom_sublist positions []
    simpa [unique_eq_uniqueFrom] using this
  · intro p q hp hq
    exact indexOf_unique_lt_iff positions.length positions (Nat.le_refl _) p q hp hq

/-- C11 (witness): a stream that repeats its first position. -/
theorem unique_positions_table_witness :
    unique ([⟨1, 0, 0⟩, ⟨0, 0, 0⟩, ⟨1, 0, 0⟩, ⟨0, 1, 0⟩] : List position_t) =
      [⟨1, 0, 0⟩, ⟨0, 0, 0⟩, ⟨0, 1, 0⟩] ∧
    (unique ([⟨1, 0, 0⟩, ⟨0, 0, 0⟩, ⟨1, 0, 0⟩, ⟨0, 1, 0⟩] : List position_t)).Nodup :=
  ⟨by decide, (unique_positions_table [⟨1, 0, 0⟩, ⟨0, 0, 0⟩, ⟨1, 0, 0⟩, ⟨0, 1, 0⟩]).1⟩

/-! ## C12: the position remap -/

/-- The entries recorded for in-range triangle indices: every index of the
list is mapped to the place of its position in the table. -/
theorem positionIndexEntries_lookup (uniquePositions positions : List position_t) :
    ∀ (triangleIndices : List Nat), (∀ i ∈ triangleIndices, i < positions.length) →
      ∃ entries, positionIndexEntries uniquePositions positions triangleIndices =
          some entries ∧
        ∀ i ∈ triangleIndices, ∀ p, positions[i]? = some p →
          entries.lookup i = some (uniquePositions.indexOf p) := by
  intro triangleIndices
  induction triangleIndices with
  | nil =>
    intro _
    exact ⟨[], rfl, fun i hi => by cases hi⟩
  | cons i0 rest ih =>
    intro hrange
    have h0 : i0 < positions.length := hrange i0 (List.mem_cons_self _ _)
    obtain ⟨entries, he, hl⟩ := ih (fun i hi => hrange i (List.mem_cons_of_mem _ hi))
    refine ⟨(i0, uniquePositions.indexOf positions[i0]) :: entries, ?_, ?_⟩
    · simp [positionIndexEntries, List.getElem?_eq_getElem h0, he]
    · intro i hi p hp
      by_cases hii : i = i0
      · subst hii
        rw [List.getElem?_eq_getElem h0] at hp
        cases hp
        simp [List.lookup_cons]
      · have hbeq : (i == i0) = false := by simpa using hii
        have hin : i ∈ rest := (List.mem_cons.mp hi).resolve_left hii
        simp only [List.lookup_cons, hbeq]
        exact hl i hin p hp

/-- C12: when every triangle index is smaller than the number of raw
positions, the position index map exists, and for every triangle index `i`
its entry is a valid index into the unique position table that addresses
exactly the raw position `positions[i]`. -/
theorem positionIndexMap_remap (positions : List position_t) (indices : indices_t)
    (hrange : ∀ i ∈ indices.values, i < positions.length) :
    ∃ remap, positionIndexMap (unique positions) positions indices = .ok remap ∧
      ∀ i ∈ indices.values, ∃ k, remap.lookup i = some k ∧
        k < (unique positions).length ∧ (unique positions)[k]? = positions[i]? := by
  obtain ⟨entries, he, hl⟩ :=
    positionIndexEntries_lookup (unique positions) positions indices.values hrange
  refine ⟨entries, by simp [positionIndexMap, he], ?_⟩
  intro i hi
  have hlt : i < positions.length := hrange i hi
  have hget : positions[i]? = some positions[i] := List.getElem?_eq_getElem hlt
  have hmem : positions[i] ∈ unique positions :=
    (mem_unique positions _).mpr (List.getElem_mem hlt)
  have hk : (unique positions).indexOf positions[i] < (unique positions).length :=
    List.indexOf_lt_length.mpr hmem
  refine ⟨(unique positions).indexOf positions[i], hl i hi _ hget, hk, ?_⟩
  rw [hget, List.getElem?_eq_getElem hk, List.getElem_indexOf hk]

/-- C12 (witness): raw positions with a repeated value and the triangle
`0, 1, 2`; the third corner is remapped to the first table entry. -/
theorem positionIndexMap_remap_witness :
    positionIndexMap (unique [⟨1, 0, 0⟩, ⟨0, 0, 0⟩, ⟨1, 0, 0⟩])
        [⟨1, 0, 0⟩, ⟨0, 0, 0⟩, ⟨1, 0, 0⟩] { kind := .uint16, values := [0, 1, 2] } =
      .ok [(0, 0), (1, 1), (2, 0)] ∧
    ∃ remap, positionIndexMap (unique [⟨1, 0, 0⟩, ⟨0, 0, 0⟩, ⟨1, 0, 0⟩])
        [⟨1, 0, 0⟩, ⟨0, 0, 0⟩, ⟨1, 0, 0⟩] { kind := .uint16, values := [0, 1, 2] } =
          .ok remap ∧
      ∀ i ∈ [0, 1, 2], ∃ k, remap.lookup i = some k ∧
        k < (unique ([⟨1, 0, 0⟩, ⟨0, 0, 0⟩, ⟨1, 0, 0⟩] : List position_t)).length ∧
        (unique ([⟨1, 0, 0⟩, ⟨0, 0, 0⟩, ⟨1, 0, 0⟩] : List position_t))[k]? =
          ([⟨1, 0, 0⟩, ⟨0, 0, 0⟩, ⟨1, 0, 0⟩] : List position_t)[i]? :=
  ⟨rfl, positionIndexMap_remap [⟨1, 0, 0⟩, ⟨0, 0, 0⟩, ⟨1, 0, 0⟩]
    { kind := .uint16, values := [0, 1, 2] } (by decide)⟩

/-! ## C19: the node of `convertNormals` -/

theorem lookup_append_singleton_of_ne (normalMap : NormalMap) (normal key : normal_t)
    (index : Int) (h : normal ≠ key) :
    (normalMap ++ [(key, index)]).lookup normal = normalMap.lookup normal := by
  have hbeq : (normal == key) = false := by simpa using h
  rw [List.lookup_append]
  cases normalMap.lookup normal <;> simp [List.lookup_cons, hbeq]

theorem contains_set_of_ne (normalMap : NormalMap) (normal key : normal_t) (index : Int)
    (hkey : normalMap.contains key = false) (h : normal ≠ key) :
    (normalMap.set key index).contains normal = normalMap.contains normal := by
  unfold NormalMap.set
  rw [hkey]
  simp only [Bool.false_eq_true, if_false]
  unfold NormalMap.contains
  rw [lookup_append_singleton_of_ne normalMap normal key index h]

theorem set_of_not_contains (normalMap : NormalMap) (key : normal_t) (index : Int)
    (hkey : normalMap.contains key = false) :
    normalMap.set key index = normalMap ++ [(key, index)] := by
  unfold NormalMap.set
  rw [hkey]
  simp

/-- The loop of `convertNormals` over a repetition-free list, on any
registry: the normals the registry does not contain are appended with the
indices from the old size on, and they are the vectors written. -/
theorem registerNormals_of_nodup (uniqueNormals : List normal_t) :
    ∀ (normalMap : NormalMap) (written : List normal_t), uniqueNormals.Nodup →
      registerNormals uniqueNormals normalMap (normalMap.length : Int) written =
        (normalMap ++ denseMapFrom normalMap.length
            (uniqueNormals.filter (fun n => !normalMap.contains n)),
         ((normalMap.length +
            (uniqueNormals.filter (fun n => !normalMap.contains n)).length : Nat) : Int),
         written ++ uniqueNormals.filter (fun n => !normalMap.contains n)) := by
  induction uniqueNormals with
  | nil =>
    intro normalMap written _
    simp [registerNormals, denseMapFrom]
  | cons n ns ih =>
    intro normalMap written hnd
    rw [List.nodup_cons] at hnd
    by_cases hc : normalMap.contains n = true
    · have hstep : registerNormals (n :: ns) normalMap (normalMap.length : Int) written =
          registerNormals ns normalMap (normalMap.length : Int) written := by
        simp [registerNormals, hc]
      rw [hstep, ih normalMap written hnd.2]
      simp [hc]
    · have hc1 : normalMap.contains n = false := by simpa using hc
      have hstep : registerNormals (n :: ns) normalMap (normalMap.length : Int) written =
          registerNormals ns (normalMap ++ [(n, (normalMap.length : Int))])
            (((normalMap ++ [(n, (normalMap.length : Int))]).length : Nat) : Int)
            (written ++ [n]) := by
        simp [registerNormals, hc1, set_of_not_contains normalMap n _ hc1]
      have hfilter : ns.filter (fun x => !(normalMap ++ [(n, (normalMap.length : Int))]).contains x) =
          ns.filter (fun x => !normalMap.contains x) := by
        apply List.filter_congr
        intro x hx
        have hne : x ≠ n := fun h => hnd.1 (h ▸ hx)
        have := contains_set_of_ne normalMap x n (normalMap.length : Int) hc1 hne
        rw [set_of_not_contains normalMap n _ hc1] at this
        rw [this]
      rw [hstep, ih _ _ hnd.2, hfilter]
      have hkeep : (n :: ns).filter (fun x => !normalMap.contains x) =
          n :: ns.filter (fun x => !normalMap.contains x) := by
        simp [List.filter_cons, hc1]
      rw [hkeep]
      simp only [denseMapFrom, List.length_append, List.length_cons, List.length_nil,
        List.append_assoc, List.singleton_append, Prod.mk.injEq, true_and]
      constructor
      · push_cast
        omega
      · trivial

/-- C19: for every normal list and every registry, the node of
`convertNormals` has one entry per distinct normal of the list; its first `k`
entries are assigned, `k` being the number of distinct normals of the list
that the registry did not contain, and they are those normals in
first-occurrence order; the others are left unassigned.  The `j`-th of the new
normals gets the registry index `oldSize + j`, and the registry is otherwise
unchanged.  When the registry was empty, entry `i` of the node is the normal
with registry index `i`, and every entry is assigned. -/
theorem convertNormals_node (normals : List normal_t) (s : State) :
    (convertNormals normals s).1 =
      .normal (((unique normals).filter (fun n => !s.normalMap.contains n)).map some ++
        List.replicate ((unique normals).length -
          ((unique normals).filter (fun n => !s.normalMap.contains n)).length) none) ∧
    (((unique normals).filter (fun n => !s.normalMap.contains n)).map some ++
        List.replicate ((unique normals).length -
          ((unique normals).filter (fun n => !s.normalMap.contains n)).length)
          (none : Option normal_t)).length = (unique normals).length ∧
    (∀ (j : Nat) (normal : normal_t),
      ((unique normals).filter (fun n => !s.normalMap.contains n))[j]? = some normal →
      (convertNormals normals s).2.normalMap.lookup normal =
        some ((s.normalMap.length + j : Nat) : Int)) ∧
    (∀ normal, s.normalMap.contains normal = true →
      (convertNormals normals s).2.normalMap.lookup normal = s.normalMap.lookup normal) ∧
    (s.normalMap = [] →
      (convertNormals normals s).1 = .normal ((unique normals).map some) ∧
      ∀ (i : Nat) (normal : normal_t), (unique normals)[i]? = some normal →
        (convertNormals normals s).2.normalMap.lookup normal = some (i : Int)) := by
  have hreg := registerNormals_of_nodup (unique normals) s.normalMap [] (unique_nodup normals)
  have hnode : (convertNormals normals s).1 =
      .normal (((unique normals).filter (fun n => !s.normalMap.contains n)).map some ++
        List.replicate ((unique normals).length -
          ((unique normals).filter (fun n => !s.normalMap.contains n)).length) none) := by
    show OutputNode.normal _ = _
    rw [hreg]
    simp
  have hmap : (convertNormals normals s).2.normalMap =
      s.normalMap ++ denseMapFrom s.normalMap.length
        ((unique normals).filter (fun n => !s.normalMap.contains n)) := by
    show (registerNormals (unique normals) s.normalMap (s.normalMap.length : Int) []).1 = _
    rw [hreg]
  have hfreshNodup : ((unique normals).filter (fun n => !s.normalMap.contains n)).Nodup :=
    (unique_nodup normals).filter _
  have hnew : ∀ (j : Nat) (normal : normal_t),
      ((unique normals).filter (fun n => !s.normalMap.contains n))[j]? = some normal →
      (convertNormals normals s).2.normalMap.lookup normal =
        some ((s.normalMap.length + j : Nat) : Int) := by
    intro j normal hj
    have hmem := List.getElem?_mem hj
    have hnot : s.normalMap.contains normal = false := by
      simpa using (List.mem_filter.mp hmem).2
    have hnone : s.normalMap.lookup normal = none := by
      unfold NormalMap.contains at hnot
      cases hl : s.normalMap.lookup normal with
      | none => rfl
      | some v => rw [hl] at hnot; simp at hnot
    rw [hmap, List.lookup_append, hnone]
    simp only [Option.none_or]
    exact (lookup_denseMapFrom_iff _ normal s.normalMap.length _ hfreshNodup).mpr ⟨j, hj, rfl⟩
  refine ⟨hnode, ?_, hnew, ?_, ?_⟩
  · have hle := List.length_filter_le (fun n => !s.normalMap.contains n) (unique normals)
    simp only [List.length_append, List.length_map, List.length_replicate]
    omega
  · intro normal hc
    unfold NormalMap.contains at hc
    rw [hmap, List.lookup_append]
    cases hl : s.normalMap.lookup normal with
    | none => rw [hl] at hc; simp at hc
    | some v => simp
  · intro hempty
    have hall : (unique normals).filter (fun n => !s.normalMap.contains n) = unique normals := by
      rw [List.filter_eq_self]
      intro a _
      simp [hempty, NormalMap.contains]
    constructor
    · rw [hnode, hall]
      simp
    · intro i normal hi
      have := hnew i normal (by rw [hall]; exact hi)
      rw [this, hempty]
      simp

/-- C19 (witness): a registry that already holds `(0,0,1)`; the list brings
`(0,0,1)` again and the new `(1,0,0)`: the node has two entries, the first is
`(1,0,0)` and the second is unassigned, and `(1,0,0)` gets index `1`. -/
theorem convertNormals_node_witness :
    (convertNormals [⟨0, 0, 1⟩, ⟨1, 0, 0⟩, ⟨0, 0, 1⟩] triangleOutput).1 =
      .normal [some ⟨1, 0, 0⟩, none] ∧
    (convertNormals [⟨0, 0, 1⟩, ⟨1, 0, 0⟩, ⟨0, 0, 1⟩] triangleOutput).2.normalMap.lookup
      ⟨1, 0, 0⟩ = some 1 :=
  ⟨(convertNormals_node [⟨0, 0, 1⟩, ⟨1, 0, 0⟩, ⟨0, 0, 1⟩] triangleOutput).1.trans
      (by decide),
   (convertNormals_node [⟨0, 0, 1⟩, ⟨1, 0, 0⟩, ⟨0, 0, 1⟩] triangleOutput).2.2.1 0
      ⟨1, 0, 0⟩ (by decide)⟩

/-! ## Lemmas on the conversion of a decoded triangle primitive -/

/-- Once the three decodes, the material and the position index map have
succeeded, five children are appended and the triangle assembly decides. -/
theorem convertTrianglesPrimitive_of_decoded (m : Model) (primitive : Primitive) (s : State)
    (ps : List position_t) (ns : List normal_t) (ixs : indices_t) (material : SoMaterial)
    (pim : index_map_t)
    (hp : positions m primitive = .ok ps) (hn : normals m primitive = .ok ns)
    (hi : indices m primitive = .ok ixs)
    (hm : convertMaterialIndex m primitive.material = .ok material)
    (hpim : positionIndexMap (unique ps) ps ixs = .ok pim) :
    convertTrianglesPrimitive m primitive s =
      match convertTriangles ixs ns pim (afterFiveChildren material ps ns s) with
      | .error e => .raised e (afterFiveChildren material ps ns s)
      | .ok triangles => .ret true ((afterFiveChildren material ps ns s).addChild triangles) := by
  simp only [convertTrianglesPrimitive, hp, hn, hi, hm, hpim]
  have hs : ((((((s.addChild (.material material)).addChild
      (.materialBinding .overall)).addChild (convertPositions (unique ps))).addChild
      (.normalBinding .perVertexIndexed)) |> convertNormals ns).2.addChild
      ((((s.addChild (.material material)).addChild
      (.materialBinding .overall)).addChild (convertPositions (unique ps))).addChild
      (.normalBinding .perVertexIndexed) |> convertNormals ns).1) =
      afterFiveChildren material ps ns s := by
    simp [afterFiveChildren, State.addChild, convertNormals, convertPositions]
  simp only [hs]

theorem convertTriangles_of_malformed (ixs : indices_t) (ns : List normal_t)
    (pim : index_map_t) (s : State) (hlen : ixs.values.length % 3 ≠ 0) :
    convertTriangles ixs ns pim s = .error .malformedTriangleList := by
  simp [convertTriangles, hlen]

/-- A primitive whose index stream is not a whole number of triangles never
converts: whatever else happens, the conversion throws. -/
theorem convertTrianglesPrimitive_raised_of_malformed (m : Model) (primitive : Primitive)
    (ixs : indices_t) (hi : indices m primitive = .ok ixs)
    (hlen : ixs.values.length % 3 ≠ 0) (s : State) :
    ∃ e s1, convertTrianglesPrimitive m primitive s = .raised e s1 := by
  cases hp : positions m primitive with
  | error e => exact ⟨e, s, by simp [convertTrianglesPrimitive, hp]⟩
  | ok ps =>
  cases hn : normals m primitive with
  | error e => exact ⟨e, s, by simp [convertTrianglesPrimitive, hp, hn]⟩
  | ok ns =>
  cases hm : convertMaterialIndex m primitive.material with
  | error e => exact ⟨e, s, by simp [convertTrianglesPrimitive, hp, hn, hi, hm]⟩
  | ok material =>
  cases hpim : positionIndexMap (unique ps) ps ixs with
  | error e =>
    exact ⟨e, ((s.addChild (.material material)).addChild (.materialBinding .overall)).addChild
      (convertPositions (unique ps)), by
        simp only [convertTrianglesPrimitive, hp, hn, hi, hm, hpim]⟩
  | ok pim =>
    refine ⟨.malformedTriangleList, afterFiveChildren material ps ns s, ?_⟩
    rw [convertTrianglesPrimitive_of_decoded m primitive s ps ns ixs material pim hp hn hi
      hm hpim, convertTriangles_of_malformed ixs ns pim _ hlen]

theorem positionIndexMap_ok_of_range (uniquePositions positions : List position_t)
    (ixs : indices_t) (hrange : ∀ i ∈ ixs.values, i < positions.length) :
    ∃ pim, positionIndexMap uniquePositions positions ixs = .ok pim ∧
      ∀ i ∈ ixs.values, ∀ p, positions[i]? = some p →
        pim.lookup i = some (uniquePositions.indexOf p) := by
  obtain ⟨entries, he, hl⟩ :=
    positionIndexEntries_lookup uniquePositions positions ixs.values hrange
  exact ⟨entries, by simp [positionIndexMap, he], hl⟩

theorem convertMaterialIndex_of_vectorAt (m : Model) (materialIndex : Int)
    (material : Material) (h : vectorAt m.materials materialIndex = .ok material) :
    convertMaterialIndex m materialIndex = .ok (convertMaterial material) := by
  simp [convertMaterialIndex, h]

/-! ## C15: a triangle primitive with distinct positions, empty registry -/

theorem lookupAll_eq_some_map (f : Nat → Option Int) (g : Nat → Int) :
    ∀ (triangleIndices : List Nat), (∀ i ∈ triangleIndices, f i = some (g i)) →
      lookupAll f triangleIndices = some (triangleIndices.map g) := by
  intro triangleIndices
  induction triangleIndices with
  | nil => intro _; rfl
  | cons i rest ih =>
    intro h
    simp [lookupAll, h i (List.mem_cons_self _ _),
      ih (fun j hj => h j (List.mem_cons_of_mem _ hj))]

/-- A `convertNormals` call on the empty registry: every unique normal is
written and registered with its place in the unique list. -/
theorem convertNormals_of_empty (normals : List normal_t) (s : State)
    (hs : s.normalMap = []) :
    (convertNormals normals s).1 = .normal ((unique normals).map some) ∧
    (convertNormals normals s).2.normalMap = denseMapFrom 0 (unique normals) := by
  have hreg := registerNormals_of_nodup (unique normals) s.normalMap [] (unique_nodup normals)
  have hall : (unique normals).filter (fun n => !s.normalMap.contains n) = unique normals := by
    rw [List.filter_eq_self]
    intro a _
    simp [hs, NormalMap.contains]
  rw [hall] at hreg
  constructor
  · show OutputNode.normal _ = _
    rw [hreg]
    simp
  · show (registerNormals (unique normals) s.normalMap (s.normalMap.length : Int) []).1 = _
    rw [hreg, hs]
    simp

theorem lookup_denseMapFrom_of_mem (keys : List normal_t) (hnd : keys.Nodup)
    (normal : normal_t) (h : normal ∈ keys) :
    (denseMapFrom 0 keys).lookup normal = some ((keys.indexOf normal : Nat) : Int) := by
  refine (lookup_denseMapFrom_iff keys normal 0 _ hnd).mpr ⟨keys.indexOf normal, ?_, by simp⟩
  have hlt : keys.indexOf normal < keys.length := List.indexOf_lt_length.mpr h
  rw [List.getElem?_eq_getElem hlt, List.getElem_indexOf hlt]

/-- C15 (as amended): for a triangle primitive whose positions, normals and
indices decode, whose material resolves, whose triangle indices are a
multiple of three in number and all address a raw position and a raw normal,
with pairwise distinct positions and converted on an empty registry, the
conversion succeeds and appends: one material node (diffuse is the base
colour), one material binding for the whole shape, one coordinate node with
the input positions in input order, one per-corner indexed normal binding,
one normal node with exactly the distinct normals in first-occurrence order,
and one indexed triangle node whose coordinate indices are the triangle
indices themselves and whose normal indices are the registry indices of the
corners' normals (their places among the distinct normals). -/
theorem convertTrianglesPrimitive_distinct_positions (m : Model) (primitive : Primitive)
    (s : State) (ps : List position_t) (ns : List normal_t) (ixs : indices_t)
    (material : Material)
    (hp : positions m primitive = .ok ps) (hn : normals m primitive = .ok ns)
    (hi : indices m primitive = .ok ixs)
    (hm : vectorAt m.materials primitive.material = .ok material)
    (hdistinct : ps.Nodup) (hempty : s.normalMap = [])
    (hlen : ixs.values.length % 3 = 0)
    (hrange : ∀ i ∈ ixs.values, i < ps.length ∧ i < ns.length) :
    convertTrianglesPrimitive m primitive s =
      .ret true
        { children := s.children ++
            [.material (convertMaterial material), .materialBinding .overall,
             .coordinate3 ps, .normalBinding .perVertexIndexed,
             .normal ((unique ns).map some),
             .indexedTriangles (ixs.values.map Int.ofNat)
               (ixs.values.map
                 (fun i => (((unique ns).indexOf (ns.getD i ⟨0, 0, 0⟩) : Nat) : Int)))]
          normalMap := denseMapFrom 0 (unique ns) } ∧
    (convertMaterial material).diffuseColor =
      ⟨toFloat (vectorGet material.baseColorFactor 0),
       toFloat (vectorGet material.baseColorFactor 1),
       toFloat (vectorGet material.baseColorFactor 2)⟩ ∧
    (∀ i ∈ ixs.values,
      (denseMapFrom 0 (unique ns)).lookup (ns.getD i ⟨0, 0, 0⟩) =
        some (((unique ns).indexOf (ns.getD i ⟨0, 0, 0⟩) : Nat) : Int)) := by
  have hu : unique ps = ps := by
    rw [unique_eq_uniqueFrom]
    simpa using uniqueFrom_of_nodup ps [] (by simpa using hdistinct)
  obtain ⟨pim, hpim, hl⟩ :=
    positionIndexMap_ok_of_range (unique ps) ps ixs (fun i hi => (hrange i hi).1)
  obtain ⟨hnode, hmap⟩ := convertNormals_of_empty ns s hempty
  have hfive : afterFiveChildren (convertMaterial material) ps ns s =
      { children := s.children ++
          [.material (convertMaterial material), .materialBinding .overall,
           .coordinate3 ps, .normalBinding .perVertexIndexed,
           .normal ((unique ns).map some)]
        normalMap := denseMapFrom 0 (unique ns) } := by
    simp [afterFiveChildren, hnode, hmap, hu]
  have hlookup : ∀ i ∈ ixs.values,
      (denseMapFrom 0 (unique ns)).lookup (ns.getD i ⟨0, 0, 0⟩) =
        some (((unique ns).indexOf (ns.getD i ⟨0, 0, 0⟩) : Nat) : Int) := by
    intro i hi
    have hlt : i < ns.length := (hrange i hi).2
    apply lookup_denseMapFrom_of_mem _ (unique_nodup ns)
    rw [mem_unique, List.getD_eq_getElem ns _ hlt]
    exact List.getElem_mem hlt
  have hcoord : lookupAll (fun i => (pim.lookup i).map Int.ofNat) ixs.values =
      some (ixs.values.map Int.ofNat) := by
    apply lookupAll_eq_some_map
    intro i hi
    have hlt : i < ps.length := (hrange i hi).1
    rw [hl i hi ps[i] (List.getElem?_eq_getElem hlt), hu, List.indexOf_getElem hdistinct]
    rfl
  have hnorm : lookupAll
      (fun i => ns[i]?.bind (fun n => (denseMapFrom 0 (unique ns)).lookup n)) ixs.values =
      some (ixs.values.map
        (fun i => (((unique ns).indexOf (ns.getD i ⟨0, 0, 0⟩) : Nat) : Int))) := by
    apply lookupAll_eq_some_map
    intro i hi
    have hlt : i < ns.length := (hrange i hi).2
    have := hlookup i hi
    rw [List.getD_eq_getElem ns _ hlt] at this
    rw [List.getElem?_eq_getElem hlt, List.getD_eq_getElem ns _ hlt]
    exact this
  refine ⟨?_, rfl, hlookup⟩
  rw [convertTrianglesPrimitive_of_decoded m primitive s ps ns ixs (convertMaterial material)
    pim hp hn hi (convertMaterialIndex_of_vectorAt m _ material hm) hpim, hfive]
  have hlen1 : ¬ ixs.values.length % 3 ≠ 0 := by omega
  simp only [convertTriangles, hlen1, if_false, hcoord, hnorm, State.addChild]
  simp

/-- C15 (witness): the single-triangle scenario: positions `(0,0,0)`,
`(1,0,0)`, `(1,1,0)`, indices `0, 1, 2`, three times the normal `(0,0,1)` and
base colour `(1,0,0,1)` give the six children with diffuse `(1,0,0)`, three
coordinates, one normal, coordinate indices `0, 1, 2` and normal indices
`0, 0, 0`; the whole model converts to exactly these children. -/
theorem convertTrianglesPrimitive_distinct_positions_witness :
    convertTrianglesPrimitive triangleModel (trianglePrimitive TINYGLTF_MODE_TRIANGLES 0)
        State.init =
      .ret true
        { children :=
            [.material (convertMaterial redMaterial), .materialBinding .overall,
             .coordinate3 [⟨0, 0, 0⟩, ⟨1, 0, 0⟩, ⟨1, 1, 0⟩], .normalBinding .perVertexIndexed,
             .normal [some ⟨0, 0, 1⟩], .indexedTriangles [0, 1, 2] [0, 0, 0]]
          normalMap := [(⟨0, 0, 1⟩, 0)] } ∧
    (convertMaterial redMaterial).diffuseColor = ⟨1, 0, 0⟩ ∧
    convertModel triangleModel 1 State.init = some (.ret true triangleOutput) :=
  ⟨(convertTrianglesPrimitive_distinct_positions triangleModel
      (trianglePrimitive TINYGLTF_MODE_TRIANGLES 0) State.init
      [⟨0, 0, 0⟩, ⟨1, 0, 0⟩, ⟨1, 1, 0⟩] [⟨0, 0, 1⟩, ⟨0, 0, 1⟩, ⟨0, 0, 1⟩]
      { kind := .uint16, values := [0, 1, 2] } redMaterial rfl rfl rfl rfl (by decide) rfl
      (by decide) (by decide)).1.trans rfl,
   by decide,
   rfl⟩

/-- C15 (counterexample): a triangle primitive of the single-triangle model
with the three distinct positions but without the `NORMAL` attribute,
converted on the empty registry: the conversion does not succeed, it throws
the out-of-range error of `at` and appends nothing. -/
theorem convertTrianglesPrimitive_distinct_positions_fails :
    positions triangleModel noNormalPrimitive = .ok [⟨0, 0, 0⟩, ⟨1, 0, 0⟩, ⟨1, 1, 0⟩] ∧
    ([⟨0, 0, 0⟩, ⟨1, 0, 0⟩, ⟨1, 1, 0⟩] : List position_t).Nodup ∧
    State.init.normalMap = [] ∧
    convertTrianglesPrimitive triangleModel noNormalPrimitive State.init =
      .raised .outOfRange State.init ∧
    (¬ ∃ s1, convertTrianglesPrimitive triangleModel noNormalPrimitive State.init =
      .ret true s1) := by
  have h : convertTrianglesPrimitive triangleModel noNormalPrimitive State.init =
      .raised .outOfRange State.init := by decide
  refine ⟨rfl, by decide, rfl, h, ?_⟩
  rintro ⟨s1, h1⟩
  rw [h] at h1
  cases h1

/-! ## C13: two primitives that share one normal -/

/-- C13 (the code on the failing input): the model whose mesh holds the
single-triangle primitive twice converts; both primitives resolve the normal
`(0,0,1)` to registry index `0` (normal indices `0, 0, 0` twice) and the
registry has one entry, but the second normal node still has one entry, left
unassigned, so the normal nodes of the model hold two entries together, not
one. -/
theorem convertModel_twoPrimitives :
    convertModel twoPrimitiveModel 1 State.init = some (.ret true twoPrimitiveOutput) ∧
    normalEntryCount twoPrimitiveOutput.children = 2 ∧
    twoPrimitiveOutput.normalMap.length = 1 ∧
    twoPrimitiveOutput.normalMap.lookup ⟨0, 0, 1⟩ = some 0 ∧
    twoPrimitiveOutput.children[10]? = some (.normal [none]) := by
  refine ⟨rfl, by decide, by decide, by decide, by decide⟩

/-! ## Lemmas on what a walk appends -/

theorem visitedTriangles_succ (m : Model) (fuel : Nat) (node : Node) :
    visitedTriangles m (fuel + 1) node =
      meshTriangles m node ++ node.children.flatMap (visitedTrianglesAt m fuel) := by
  rfl

theorem trianglesOf_eq_flatMap (primitives : List Primitive) :
    trianglesOf primitives =
      primitives.flatMap
        (fun primitive =>
          if primitive.mode = TINYGLTF_MODE_TRIANGLES then [primitive] else []) := by
  induction primitives with
  | nil => rfl
  | cons p ps ih =>
    unfold trianglesOf at ih ⊢
    by_cases h : p.mode = TINYGLTF_MODE_TRIANGLES
    · simp [List.filter_cons, h, ih]
    · simp [List.filter_cons, h, ih]

theorem convertTriangles_ok (ixs : indices_t) (ns : List normal_t) (pim : index_map_t)
    (s : State) (node : OutputNode) (h : convertTriangles ixs ns pim s = .ok node) :
    ∃ coordIndex normalIndex, node = .indexedTriangles coordIndex normalIndex := by
  unfold convertTriangles at h
  split at h
  · cases h
  · split at h
    · cases h
      exact ⟨_, _, rfl⟩
    · cases h

theorem convertMaterialIndex_ok (m : Model) (materialIndex : Int) (mat : SoMaterial)
    (h : convertMaterialIndex m materialIndex = .ok mat) :
    ∃ material, vectorAt m.materials materialIndex = .ok material ∧
      mat = convertMaterial material := by
  unfold convertMaterialIndex at h
  split at h
  · cases h
  · rename_i material hm
    cases h
    exact ⟨material, hm, rfl⟩

/-- A triangle primitive that converts appends its six children. -/
theorem convertTrianglesPrimitive_appends (m : Model) (primitive : Primitive) (s s1 : State)
    (h : convertTrianglesPrimitive m primitive s = .ret true s1) :
    ∃ group, IsPrimitiveGroup m primitive group ∧ s1.children = s.children ++ group := by
  cases hp : positions m primitive with
  | error e => simp [convertTrianglesPrimitive, hp] at h
  | ok ps =>
  cases hn : normals m primitive with
  | error e => simp [convertTrianglesPrimitive, hp, hn] at h
  | ok ns =>
  cases hi : indices m primitive with
  | error e => simp [convertTrianglesPrimitive, hp, hn, hi] at h
  | ok ixs =>
  cases hm : convertMaterialIndex m primitive.material with
  | error e => simp [convertTrianglesPrimitive, hp, hn, hi, hm] at h
  | ok mat =>
  cases hpim : positionIndexMap (unique ps) ps ixs with
  | error e => simp [convertTrianglesPrimitive, hp, hn, hi, hm, hpim] at h
  | ok pim =>
    rw [convertTrianglesPrimitive_of_decoded m primitive s ps ns ixs mat pim hp hn hi hm
      hpim] at h
    cases ht : convertTriangles ixs ns pim (afterFiveChildren mat ps ns s) with
    | error e => rw [ht] at h; cases h
    | ok tri =>
      rw [ht] at h
      simp only [Outcome.ret.injEq, true_and] at h
      obtain ⟨coordIndex, normalIndex, rfl⟩ := convertTriangles_ok _ _ _ _ _ ht
      obtain ⟨material, hmat, rfl⟩ := convertMaterialIndex_ok m _ mat hm
      have hnormal : ∃ vector, (convertNormals ns s).1 = .normal vector := ⟨_, rfl⟩
      obtain ⟨vector, hv⟩ := hnormal
      refine ⟨_, ⟨material, ps, vector, coordIndex, normalIndex, hmat, hp, rfl⟩, ?_⟩
      subst h
      simp [State.addChild, afterFiveChildren, hv]

/-- A fold whose elements each append the groups of the primitives they
visit appends the groups of all visited primitives, in order. -/
theorem allOf_appends {α : Type} (R : Primitive → List OutputNode → Prop)
    (f : α → State → Option Outcome) (visited : α → List Primitive)
    (H : ∀ x s s1, f x s = some (.ret true s1) →
      ∃ groups, List.Forall₂ R (visited x) groups ∧
        s1.children = s.children ++ groups.flatten) :
    ∀ (xs : List α) (s s1 : State), allOf f xs s = some (.ret true s1) →
      ∃ groups, List.Forall₂ R (xs.flatMap visited) groups ∧
        s1.children = s.children ++ groups.flatten := by
  intro xs
  induction xs with
  | nil =>
    intro s s1 h
    simp only [allOf, Option.some.injEq, Outcome.ret.injEq, true_and] at h
    subst h
    exact ⟨[], by simp, by simp⟩
  | cons x xs ih =>
    intro s s1 h
    obtain ⟨s2, h2, hrest⟩ := (allTrue_cons_iff f x xs s s1).mp
      ((allOf_ret_true_iff f (x :: xs) s s1).mp h)
    obtain ⟨g1, hg1, hc1⟩ := H x s s2 h2
    obtain ⟨g2, hg2, hc2⟩ := ih s2 s1 ((allOf_ret_true_iff f xs s2 s1).mpr hrest)
    refine ⟨g1 ++ g2, ?_, ?_⟩
    · rw [List.flatMap_cons]
      exact List.rel_append hg1 hg2
    · rw [hc2, hc1, List.flatten_append, List.append_assoc]

theorem convertPrimitive_appends (m : Model) (primitive : Primitive) (s s1 : State)
    (h : some (convertPrimitive m primitive s) = some (.ret true s1)) :
    ∃ groups, List.Forall₂ (IsPrimitiveGroup m)
        (if primitive.mode = TINYGLTF_MODE_TRIANGLES then [primitive] else []) groups ∧
      s1.children = s.children ++ groups.flatten := by
  simp only [Option.some.injEq] at h
  unfold convertPrimitive at h
  by_cases hmode : primitive.mode = TINYGLTF_MODE_TRIANGLES
  · rw [if_pos hmode] at h
    obtain ⟨group, hg, hc⟩ := convertTrianglesPrimitive_appends m primitive s s1 h
    refine ⟨[group], ?_, by simpa using hc⟩
    rw [if_pos hmode]
    exact List.Forall₂.cons hg List.Forall₂.nil
  · rw [if_neg hmode] at h
    cases h
    refine ⟨[], ?_, by simp⟩
    rw [if_neg hmode]
    exact List.Forall₂.nil

theorem convertNodeMesh_appends (m : Model) (node : Node) (s s1 : State)
    (h : convertNodeMesh m node s = some (.ret true s1)) :
    ∃ groups, List.Forall₂ (IsPrimitiveGroup m) (meshTriangles m node) groups ∧
      s1.children = s.children ++ groups.flatten := by
  unfold convertNodeMesh at h
  unfold meshTriangles
  by_cases hneg : node.mesh < 0
  · rw [if_pos hneg] at h
    cases h
    rw [if_pos hneg]
    exact ⟨[], List.Forall₂.nil, by simp⟩
  · rw [if_neg hneg] at h
    rw [if_neg hneg]
    have h0 : 0 ≤ node.mesh := by omega
    by_cases hlt : node.mesh < (m.meshes.length : Int)
    · obtain ⟨mesh, hm⟩ := getElem?_toNat_isSome m.meshes node.mesh h0 hlt
      rw [convertMeshIndex_of_getElem m node.mesh s mesh h0 hm] at h
      rw [hm]
      show ∃ groups, List.Forall₂ (IsPrimitiveGroup m) (trianglesOf mesh.primitives) groups ∧
        s1.children = s.children ++ groups.flatten
      rw [trianglesOf_eq_flatMap]
      exact allOf_appends (IsPrimitiveGroup m) _ _ (convertPrimitive_appends m)
        mesh.primitives s s1 h
    · rw [convertMeshIndex_of_ge m node.mesh s (by omega)] at h
      cases h

theorem convertNodeIndex_appends (m : Model) (fuel : Nat)
    (IH : ∀ node s s1, convertNode m fuel node s = some (.ret true s1) →
      ∃ groups, List.Forall₂ (IsPrimitiveGroup m) (visitedTriangles m fuel node) groups ∧
        s1.children = s.children ++ groups.flatten)
    (nodeIndex : Int) (s s1 : State)
    (h : convertNodeIndex m fuel nodeIndex s = some (.ret true s1)) :
    ∃ groups, List.Forall₂ (IsPrimitiveGroup m) (visitedTrianglesAt m fuel nodeIndex) groups ∧
      s1.children = s.children ++ groups.flatten := by
  unfold convertNodeIndex at h
  unfold visitedTrianglesAt
  split at h
  · cases h
  · rename_i hrange
    have hneg : ¬ nodeIndex < 0 := fun hn => hrange (Or.inl hn)
    rw [if_neg hneg]
    split at h
    · rename_i node hnode
      exact IH node s s1 h
    · cases h

/-- A node that converts appends the groups of the primitives its walk
visits: those of its mesh first, then those of its children in list order. -/
theorem convertNode_appends (m : Model) (fuel : Nat) :
    ∀ (node : Node) (s s1 : State), convertNode m fuel node s = some (.ret true s1) →
      ∃ groups, List.Forall₂ (IsPrimitiveGroup m) (visitedTriangles m fuel node) groups ∧
        s1.children = s.children ++ groups.flatten := by
  induction fuel with
  | zero =>
    intro node s s1 h
    cases h
  | succ fuel ih =>
    intro node s s1 h
    rw [convertNode_succ, andThen_ret_true_iff] at h
    obtain ⟨s2, hmesh, hchildren⟩ := h
    obtain ⟨g1, hg1, hc1⟩ := convertNodeMesh_appends m node s s2 hmesh
    obtain ⟨g2, hg2, hc2⟩ := allOf_appends (IsPrimitiveGroup m) (convertNodeIndex m fuel)
      (visitedTrianglesAt m fuel) (convertNodeIndex_appends m fuel ih) node.children s2 s1
      hchildren
    refine ⟨g1 ++ g2, ?_, ?_⟩
    · rw [visitedTriangles_succ]
      exact List.rel_append hg1 hg2
    · rw [hc2, hc1, List.flatten_append, List.append_assoc]

theorem length_flatten_of_groups (m : Model) (primitives : List Primitive)
    (groups : List (List OutputNode))
    (h : List.Forall₂ (IsPrimitiveGroup m) primitives groups) :
    groups.flatten.length = 6 * primitives.length := by
  induction h with
  | nil => rfl
  | cons hg _ ih =>
    obtain ⟨material, ps, vector, coordIndex, normalIndex, _, _, rfl⟩ := hg
    simp only [List.flatten_cons, List.length_append, List.length_cons, List.length_nil, ih]
    omega

/-! ## C17: six children per converted triangle primitive -/

/-- C17: a `TRIANGLES` primitive that converts appends exactly six children
to the end of the root, in the order material, material binding (one material
for the whole shape), coordinates, normal binding (per-corner indexed),
normals, indexed triangles, and leaves the children before them in place.  A
node that converts appends such a group for every `TRIANGLES` primitive its
walk visits, those of its mesh before those of its children, siblings in list
order; and after a successful run of the model the root holds its former
children followed by one group per visited `TRIANGLES` primitive (counted with
multiplicity) in depth-first visiting order, six children for each. -/
theorem convertModel_appends_groups (m : Model) (fuel : Nat) (s s1 : State)
    (h : convertModel m fuel s = some (.ret true s1)) :
    (∃ groups, List.Forall₂ (IsPrimitiveGroup m) (modelTriangles m fuel) groups ∧
      s1.children = s.children ++ groups.flatten) ∧
    s1.children.length = s.children.length + 6 * (modelTriangles m fuel).length ∧
    (∀ (primitive : Primitive) (s2 s3 : State),
      convertTrianglesPrimitive m primitive s2 = .ret true s3 →
      ∃ group, IsPrimitiveGroup m primitive group ∧ group.length = 6 ∧
        s3.children = s2.children ++ group) ∧
    (∀ (node : Node) (s2 s3 : State),
      convertNode m (fuel + 1) node s2 = some (.ret true s3) →
      ∃ groups, List.Forall₂ (IsPrimitiveGroup m)
          (meshTriangles m node ++ node.children.flatMap (visitedTrianglesAt m fuel))
          groups ∧
        s3.children = s2.children ++ groups.flatten) := by
  have hmodel : ∃ groups, List.Forall₂ (IsPrimitiveGroup m) (modelTriangles m fuel) groups ∧
      s1.children = s.children ++ groups.flatten := by
    unfold convertModel at h
    unfold modelTriangles
    refine allOf_appends (IsPrimitiveGroup m) (convertScene m fuel)
      (fun scene => scene.nodes.flatMap (visitedTrianglesAt m fuel)) ?_ m.scenes s s1 h
    intro scene s2 s3 hscene
    exact allOf_appends (IsPrimitiveGroup m) (convertNodeIndex m fuel)
      (visitedTrianglesAt m fuel)
      (convertNodeIndex_appends m fuel (convertNode_appends m fuel)) scene.nodes s2 s3 hscene
  refine ⟨hmodel, ?_, ?_, ?_⟩
  · obtain ⟨groups, hg, hc⟩ := hmodel
    rw [hc, List.length_append, length_flatten_of_groups m _ groups hg]
  · intro primitive s2 s3 hconv
    obtain ⟨group, hg, hc⟩ := convertTrianglesPrimitive_appends m primitive s2 s3 hconv
    refine ⟨group, hg, ?_, hc⟩
    obtain ⟨material, ps, vector, coordIndex, normalIndex, _, _, rfl⟩ := hg
    rfl
  · intro node s2 s3 hnode
    have := convertNode_appends m (fuel + 1) node s2 s3 hnode
    rw [visitedTriangles_succ] at this
    exact this

/-- C17 (witness): the model whose mesh holds the triangle primitive twice
converts from the initial members to twelve children, two groups of six. -/
theorem convertModel_appends_groups_witness :
    modelTriangles twoPrimitiveModel 1 =
      [trianglePrimitive TINYGLTF_MODE_TRIANGLES 0,
       trianglePrimitive TINYGLTF_MODE_TRIANGLES 0] ∧
    twoPrimitiveOutput.children.length =
      State.init.children.length + 6 * (modelTriangles twoPrimitiveModel 1).length :=
  ⟨by decide,
   (convertModel_appends_groups twoPrimitiveModel 1 State.init twoPrimitiveOutput rfl).2.1⟩

/-! ## Lemmas on fuel -/

theorem allOf_mono {α : Type} (f g : α → State → Option Outcome)
    (H : ∀ x s o, f x s = some o → g x s = some o) :
    ∀ (xs : List α) (s : State) (o : Outcome), allOf f xs s = some o →
      allOf g xs s = some o := by
  intro xs
  induction xs with
  | nil => intro s o h; exact h
  | cons x xs ih =>
    intro s o h
    cases hf : f x s with
    | none =>
      rw [allOf_cons_stop f x xs s (by rw [hf]; intro s1 h1; cases h1), hf] at h
      cases h
    | some o1 =>
      have hg := H x s o1 hf
      by_cases hsucc : ∃ s1, o1 = .ret true s1
      · obtain ⟨s1, rfl⟩ := hsucc
        rw [allOf_cons_true f x xs s s1 hf] at h
        rw [allOf_cons_true g x xs s s1 hg]
        exact ih s1 o h
      · have hne : ∀ s1, some o1 ≠ some (.ret true s1) := by
          intro s1 h1
          cases h1
          exact hsucc ⟨s1, rfl⟩
        rw [allOf_cons_stop f x xs s (by rw [hf]; exact hne), hf] at h
        rw [allOf_cons_stop g x xs s (by rw [hg]; exact hne), hg]
        exact h

theorem allOf_isSome {α : Type} (f : α → State → Option Outcome) :
    ∀ (xs : List α), (∀ x ∈ xs, ∀ s, ∃ o, f x s = some o) →
      ∀ s, ∃ o, allOf f xs s = some o := by
  intro xs
  induction xs with
  | nil => intro _ s; exact ⟨_, rfl⟩
  | cons x xs ih =>
    intro H s
    obtain ⟨o1, h1⟩ := H x (List.mem_cons_self _ _) s
    by_cases hsucc : ∃ s1, o1 = .ret true s1
    · obtain ⟨s1, rfl⟩ := hsucc
      rw [allOf_cons_true f x xs s s1 h1]
      exact ih (fun y hy => H y (List.mem_cons_of_mem _ hy)) s1
    · have hne : ∀ s1, some o1 ≠ some (.ret true s1) := by
        intro s1 h
        cases h
        exact hsucc ⟨s1, rfl⟩
      rw [allOf_cons_stop f x xs s (by rw [h1]; exact hne), h1]
      exact ⟨o1, rfl⟩

theorem andThen_mono (a : Option Outcome) (b c : State → Option Outcome)
    (H : ∀ s o, b s = some o → c s = some o) (o : Outcome) (h : andThen a b = some o) :
    andThen a c = some o := by
  cases a with
  | none => exact h
  | some oa =>
    cases oa with
    | raised e s1 => exact h
    | ret value s1 =>
      cases value with
      | false => exact h
      | true => exact H s1 o h

theorem convertNodeIndex_mono (m : Model) (fuel fuel1 : Nat)
    (H : ∀ node s o, convertNode m fuel node s = some o →
      convertNode m fuel1 node s = some o)
    (nodeIndex : Int) (s : State) (o : Outcome)
    (h : convertNodeIndex m fuel nodeIndex s = some o) :
    convertNodeIndex m fuel1 nodeIndex s = some o := by
  unfold convertNodeIndex at h ⊢
  split
  · rename_i hr
    rw [if_pos hr] at h
    exact h
  · rename_i hr
    rw [if_neg hr] at h
    split at h
    · rename_i node hnode
      exact H node s o h
    · exact h

/-- More fuel does not change an outcome. -/
theorem convertNode_mono_succ (m : Model) (fuel : Nat) :
    ∀ (node : Node) (s : State) (o : Outcome), convertNode m fuel node s = some o →
      convertNode m (fuel + 1) node s = some o := by
  induction fuel with
  | zero => intro node s o h; cases h
  | succ fuel ih =>
    intro node s o h
    rw [convertNode_succ] at h ⊢
    refine andThen_mono _ _ _ ?_ o h
    intro s1 o1 h1
    exact allOf_mono _ _ (convertNodeIndex_mono m fuel (fuel + 1) ih) node.children s1 o1 h1

theorem convertNode_mono (m : Model) (fuel fuel1 : Nat) (hle : fuel ≤ fuel1) (node : Node)
    (s : State) (o : Outcome) (h : convertNode m fuel node s = some o) :
    convertNode m fuel1 node s = some o := by
  induction hle with
  | refl => exact h
  | step _ ih => exact convertNode_mono_succ m _ node s o ih

theorem convertModel_mono (m : Model) (fuel fuel1 : Nat) (hle : fuel ≤ fuel1) (s : State)
    (o : Outcome) (h : convertModel m fuel s = some o) : convertModel m fuel1 s = some o := by
  unfold convertModel at h ⊢
  refine allOf_mono _ _ ?_ m.scenes s o h
  intro scene s1 o1 h1
  unfold convertScene convertNodes at h1 ⊢
  refine allOf_mono _ _ ?_ scene.nodes s1 o1 h1
  exact convertNodeIndex_mono m fuel fuel1 (convertNode_mono m fuel fuel1 hle)

theorem convertNodeMesh_isSome (m : Model) (node : Node) (s : State) :
    ∃ o, convertNodeMesh m node s = some o := by
  unfold convertNodeMesh
  split
  · exact ⟨_, rfl⟩
  · unfold convertMeshIndex
    split
    · exact ⟨_, rfl⟩
    · split
      · exact allOf_isSome _ _ (fun p _ s1 => ⟨_, rfl⟩) s
      · exact ⟨_, rfl⟩

theorem andThen_isSome (a : Option Outcome) (b : State → Option Outcome)
    (ha : ∃ o, a = some o) (hb : ∀ s, ∃ o, b s = some o) : ∃ o, andThen a b = some o := by
  obtain ⟨o, rfl⟩ := ha
  unfold andThen
  split
  · exact hb _
  · exact ⟨o, rfl⟩

/-- A node all of whose chains of children are finite ends with some fuel. -/
theorem convertNode_isSome_of_acc (m : Model) (i : Nat) (hacc : Acc (childRel m) i) :
    ∀ node, m.nodes[i]? = some node → ∃ F, ∀ s, ∃ o, convertNode m F node s = some o := by
  induction hacc with
  | intro i _ ih =>
    intro node hnode
    -- every child in range ends with some fuel; children out of range end at once
    have hchild : ∀ childIndex ∈ node.children, ∃ F, ∀ fuel, F ≤ fuel → ∀ s,
        ∃ o, convertNodeIndex m fuel childIndex s = some o := by
      intro childIndex hmem
      by_cases hr : childIndex < 0 ∨ childIndex ≥ (m.nodes.length : Int)
      · exact ⟨0, fun fuel _ s => ⟨.ret false s, by simp [convertNodeIndex, hr]⟩⟩
      · have h0 : 0 ≤ childIndex := by omega
        have hlt : childIndex < (m.nodes.length : Int) := by omega
        obtain ⟨child, hc⟩ := getElem?_toNat_isSome m.nodes childIndex h0 hlt
        have hrel : childRel m childIndex.toNat i :=
          ⟨node, childIndex, hnode, hmem, h0, rfl, by omega⟩
        obtain ⟨F, hF⟩ := ih childIndex.toNat hrel child hc
        refine ⟨F, fun fuel hle s => ?_⟩
        obtain ⟨o, ho⟩ := hF s
        refine ⟨o, ?_⟩
        simp only [convertNodeIndex, hr, if_false, hc]
        exact convertNode_mono m F fuel hle child s o ho
    have hall : ∀ (children : List Int), (∀ c ∈ children, c ∈ node.children) →
        ∃ F, ∀ childIndex ∈ children, ∀ s,
          ∃ o, convertNodeIndex m F childIndex s = some o := by
      intro children
      induction children with
      | nil => intro _; exact ⟨0, fun c hc => by cases hc⟩
      | cons c cs ihc =>
        intro hsub
        obtain ⟨F1, h1⟩ := hchild c (hsub c (List.mem_cons_self _ _))
        obtain ⟨F2, h2⟩ := ihc (fun d hd => hsub d (List.mem_cons_of_mem _ hd))
        refine ⟨max F1 F2, ?_⟩
        intro childIndex hmem s
        rcases List.mem_cons.mp hmem with rfl | hin
        · exact h1 _ (Nat.le_max_left _ _) s
        · obtain ⟨o, ho⟩ := h2 childIndex hin s
          refine ⟨o, convertNodeIndex_mono m F2 (max F1 F2) ?_ childIndex s o ho⟩
          intro node1 s1 o1 hn
          exact convertNode_mono m F2 _ (Nat.le_max_right _ _) node1 s1 o1 hn
    obtain ⟨F, hF⟩ := hall node.children (fun c hc => hc)
    refine ⟨F + 1, fun s => ?_⟩
    rw [convertNode_succ]
    exact andThen_isSome _ _ (convertNodeMesh_isSome m node s)
      (allOf_isSome (convertNodeIndex m F) node.children hF)

/-- With a well-founded child relation one fuel is enough for every node. -/
theorem convertNode_isSome_of_wellFounded (m : Model) (hwf : WellFounded (childRel m)) :
    ∃ F, ∀ (i : Nat) (node : Node), m.nodes[i]? = some node →
      ∀ s, ∃ o, convertNode m F node s = some o := by
  have hbound : ∀ n : Nat, ∃ F, ∀ (i : Nat) (node : Node), i < n →
      m.nodes[i]? = some node → ∀ s, ∃ o, convertNode m F node s = some o := by
    intro n
    induction n with
    | zero => exact ⟨0, fun i node hi => absurd hi (Nat.not_lt_zero i)⟩
    | succ n ih =>
      obtain ⟨F1, h1⟩ := ih
      cases hn : m.nodes[n]? with
      | none =>
        refine ⟨F1, fun i node hi hnode s => ?_⟩
        have hne : i ≠ n := by
          rintro rfl
          rw [hn] at hnode
          cases hnode
        exact h1 i node (by omega) hnode s
      | some nodeN =>
        obtain ⟨F2, h2⟩ := convertNode_isSome_of_acc m n (hwf.apply n) nodeN hn
        refine ⟨max F1 F2, fun i node hi hnode s => ?_⟩
        by_cases hin : i = n
        · subst hin
          rw [hn] at hnode
          cases hnode
          obtain ⟨o, ho⟩ := h2 s
          exact ⟨o, convertNode_mono m F2 _ (Nat.le_max_right _ _) _ s o ho⟩
        · obtain ⟨o, ho⟩ := h1 i node (by omega) hnode s
          exact ⟨o, convertNode_mono m F1 _ (Nat.le_max_left _ _) node s o ho⟩
  obtain ⟨F, hF⟩ := hbound m.nodes.length
  refine ⟨F, fun i node hnode s => hF i node ?_ hnode s⟩
  exact (List.getElem?_eq_some_iff.mp hnode).1

theorem convertNodeIndex_isSome (m : Model) (F : Nat)
    (H : ∀ (i : Nat) (node : Node), m.nodes[i]? = some node →
      ∀ s, ∃ o, convertNode m F node s = some o)
    (nodeIndex : Int) (s : State) : ∃ o, convertNodeIndex m F nodeIndex s = some o := by
  unfold convertNodeIndex
  split
  · exact ⟨_, rfl⟩
  · split
    · rename_i node hnode
      exact H _ node hnode s
    · exact ⟨_, rfl⟩

theorem convertNode_selfLoop (fuel : Nat) :
    ∀ s, convertNode selfLoopModel fuel { name := "node", mesh := -1, children := [0] } s =
      none := by
  induction fuel with
  | zero => intro s; rfl
  | succ fuel ih =>
    intro s
    rw [convertNode_succ]
    have hmesh : convertNodeMesh selfLoopModel
        { name := "node", mesh := -1, children := [0] } s = some (.ret true s) := by
      simp [convertNodeMesh]
    have hidx : convertNodeIndex selfLoopModel fuel 0 s = none := by
      have : convertNodeIndex selfLoopModel fuel 0 s =
          convertNode selfLoopModel fuel { name := "node", mesh := -1, children := [0] } s := by
        simp [convertNodeIndex, selfLoopModel]
      rw [this, ih s]
    rw [hmesh]
    show allOf (convertNodeIndex selfLoopModel fuel) [0] s = none
    rw [allOf_cons_stop _ _ _ _ (by rw [hidx]; intro s1 h; cases h), hidx]

/-- A relation without an endless descending chain is well-founded. -/
theorem wellFounded_of_no_chain {α : Type} (r : α → α → Prop)
    (h : ¬ ∃ chain : Nat → α, ∀ k, r (chain (k + 1)) (chain k)) : WellFounded r := by
  by_contra hwf
  have hstep : ∀ x : { x : α // ¬ Acc r x }, ∃ y : { y : α // ¬ Acc r y }, r y.1 x.1 := by
    intro x
    by_contra hno
    apply x.2
    refine Acc.intro x.1 (fun y hy => ?_)
    by_contra hacc
    exact hno ⟨⟨y, hacc⟩, hy⟩
  have hex : ∃ x, ¬ Acc r x := by
    by_contra hall
    exact hwf ⟨fun a => by
      by_contra ha
      exact hall ⟨a, ha⟩⟩
  obtain ⟨x0, hx0⟩ := hex
  let next : { x : α // ¬ Acc r x } → { x : α // ¬ Acc r x } :=
    fun x => Classical.choose (hstep x)
  let chain : Nat → { x : α // ¬ Acc r x } := fun k => Nat.rec ⟨x0, hx0⟩ (fun _ x => next x) k
  exact h ⟨fun k => (chain k).1, fun k => Classical.choose_spec (hstep (chain k))⟩

/-! ## C20: termination of the walk -/

/-- C20: when every chain of child references of the node table is finite
(there is no endless chain of children), the walk of the model ends: some
fuel suffices, and from that fuel on every fuel gives the same outcome, a
returned `true` or `false` or an exception.  The model whose node lists
itself as a child has an endless chain and its walk never ends: no fuel gives
an outcome. -/
theorem convertModel_terminates :
    (∀ m : Model, ¬ HasEndlessChildChain m →
      ∃ F, ∀ s, ∃ o, ∀ fuel, F ≤ fuel → convertModel m fuel s = some o) ∧
    (HasEndlessChildChain selfLoopModel ∧
      ∀ fuel s, convertModel selfLoopModel fuel s = none) := by
  constructor
  · intro m hchain
    have hwf : WellFounded (childRel m) := wellFounded_of_no_chain (childRel m) hchain
    obtain ⟨F, hF⟩ := convertNode_isSome_of_wellFounded m hwf
    refine ⟨F, fun s => ?_⟩
    have hsome : ∃ o, convertModel m F s = some o := by
      unfold convertModel
      refine allOf_isSome _ _ ?_ s
      intro scene _ s1
      unfold convertScene convertNodes
      exact allOf_isSome _ _ (fun i _ s2 => convertNodeIndex_isSome m F hF i s2) s1
    obtain ⟨o, ho⟩ := hsome
    exact ⟨o, fun fuel hle => convertModel_mono m F fuel hle s o ho⟩
  · constructor
    · have hself : childRel selfLoopModel 0 0 :=
        ⟨{ name := "node", mesh := -1, children := [0] }, 0, rfl, by decide, by decide,
          rfl, by decide⟩
      exact ⟨fun _ => 0, fun _ => hself⟩
    · intro fuel s
      have hidx : convertNodeIndex selfLoopModel fuel 0 s = none := by
        have : convertNodeIndex selfLoopModel fuel 0 s =
            convertNode selfLoopModel fuel
              { name := "node", mesh := -1, children := [0] } s := by
          simp [convertNodeIndex, selfLoopModel]
        rw [this, convertNode_selfLoop fuel s]
      have hscene : convertScene selfLoopModel fuel { name := "scene", nodes := [0] } s =
          none := by
        show allOf (convertNodeIndex selfLoopModel fuel) [0] s = none
        rw [allOf_cons_stop _ _ _ _ (by rw [hidx]; intro s1 h; cases h), hidx]
      show allOf (convertScene selfLoopModel fuel) [{ name := "scene", nodes := [0] }] s = none
      rw [allOf_cons_stop _ _ _ _ (by rw [hscene]; intro s1 h; cases h), hscene]

theorem not_childRel_triangleModel (c i : Nat) : ¬ childRel triangleModel c i := by
  rintro ⟨node, childIndex, hnode, hmem, _⟩
  cases i with
  | zero =>
    have hn : node = { name := "node", mesh := 0, children := [] } := by
      have h0 : triangleModel.nodes[0]? =
          some { name := "node", mesh := 0, children := [] } := rfl
      rw [h0] at hnode
      exact (Option.some.inj hnode).symm
    rw [hn] at hmem
    cases hmem
  | succ i =>
    have h1 : triangleModel.nodes[i + 1]? = none := rfl
    rw [h1] at hnode
    cases hnode

/-- C20 (witness): the single-triangle model has no child references, so its
walk ends; with fuel `1` it returns `true`, while the self-loop model gives no
outcome with fuel `5`. -/
theorem convertModel_terminates_witness :
    (∃ F, ∀ s, ∃ o, ∀ fuel, F ≤ fuel → convertModel triangleModel fuel s = some o) ∧
    convertModel triangleModel 1 State.init = some (.ret true triangleOutput) ∧
    convertModel selfLoopModel 5 State.init = none :=
  ⟨convertModel_terminates.1 triangleModel
      (fun h => h.elim (fun _ hc => not_childRel_triangleModel _ _ (hc 0))),
   rfl, convertModel_terminates.2.2 5 State.init⟩

/-! ## Lemmas on a walk that visits a failing primitive -/

/-- A fold that returns `true` has converted every primitive its elements
visit. -/
theorem allOf_visited {α : Type} (Q : Primitive → Prop)
    (f : α → State → Option Outcome) (visited : α → List Primitive)
    (H : ∀ x s s1, f x s = some (.ret true s1) → ∀ q ∈ visited x, Q q) :
    ∀ (xs : List α) (s s1 : State), allOf f xs s = some (.ret true s1) →
      ∀ q ∈ xs.flatMap visited, Q q := by
  intro xs
  induction xs with
  | nil =>
    intro s s1 _ q hq
    simp at hq
  | cons x xs ih =>
    intro s s1 h q hq
    obtain ⟨s2, h2, hrest⟩ := (allTrue_cons_iff f x xs s s1).mp
      ((allOf_ret_true_iff f (x :: xs) s s1).mp h)
    rw [List.flatMap_cons, List.mem_append] at hq
    rcases hq with hq | hq
    · exact H x s s2 h2 q hq
    · exact ih s2 s1 ((allOf_ret_true_iff f xs s2 s1).mpr hrest) q hq

theorem convertPrimitive_visited (m : Model) (primitive : Primitive) (s s1 : State)
    (h : some (convertPrimitive m primitive s) = some (.ret true s1)) :
    ∀ q ∈ (if primitive.mode = TINYGLTF_MODE_TRIANGLES then [primitive] else []),
      ∃ s2 s3, convertTrianglesPrimitive m q s2 = .ret true s3 := by
  intro q hq
  simp only [Option.some.injEq] at h
  unfold convertPrimitive at h
  by_cases hmode : primitive.mode = TINYGLTF_MODE_TRIANGLES
  · rw [if_pos hmode] at h hq
    rw [List.mem_singleton] at hq
    subst hq
    exact ⟨s, s1, h⟩
  · rw [if_neg hmode] at hq
    cases hq

theorem convertNodeMesh_visited (m : Model) (node : Node) (s s1 : State)
    (h : convertNodeMesh m node s = some (.ret true s1)) :
    ∀ q ∈ meshTriangles m node, ∃ s2 s3, convertTrianglesPrimitive m q s2 = .ret true s3 := by
  unfold convertNodeMesh at h
  unfold meshTriangles
  by_cases hneg : node.mesh < 0
  · rw [if_pos hneg]
    intro q hq
    cases hq
  · rw [if_neg hneg] at h
    rw [if_neg hneg]
    have h0 : 0 ≤ node.mesh := by omega
    by_cases hlt : node.mesh < (m.meshes.length : Int)
    · obtain ⟨mesh, hm⟩ := getElem?_toNat_isSome m.meshes node.mesh h0 hlt
      rw [convertMeshIndex_of_getElem m node.mesh s mesh h0 hm] at h
      rw [hm]
      show ∀ q ∈ trianglesOf mesh.primitives,
        ∃ s2 s3, convertTrianglesPrimitive m q s2 = .ret true s3
      rw [trianglesOf_eq_flatMap]
      exact allOf_visited _ _ _ (convertPrimitive_visited m) mesh.primitives s s1 h
    · rw [convertMeshIndex_of_ge m node.mesh s (by omega)] at h
      cases h

theorem convertNodeIndex_visited (m : Model) (fuel : Nat)
    (IH : ∀ node s s1, convertNode m fuel node s = some (.ret true s1) →
      ∀ q ∈ visitedTriangles m fuel node,
        ∃ s2 s3, convertTrianglesPrimitive m q s2 = .ret true s3)
    (nodeIndex : Int) (s s1 : State)
    (h : convertNodeIndex m fuel nodeIndex s = some (.ret true s1)) :
    ∀ q ∈ visitedTrianglesAt m fuel nodeIndex,
      ∃ s2 s3, convertTrianglesPrimitive m q s2 = .ret true s3 := by
  unfold convertNodeIndex at h
  unfold visitedTrianglesAt
  split at h
  · cases h
  · rename_i hrange
    have hneg : ¬ nodeIndex < 0 := fun hn => hrange (Or.inl hn)
    rw [if_neg hneg]
    split at h
    · rename_i node hnode
      exact IH node s s1 h
    · cases h

/-- A node that converts has converted every `TRIANGLES` primitive its walk
visits. -/
theorem convertNode_visited (m : Model) (fuel : Nat) :
    ∀ (node : Node) (s s1 : State), convertNode m fuel node s = some (.ret true s1) →
      ∀ q ∈ visitedTriangles m fuel node,
        ∃ s2 s3, convertTrianglesPrimitive m q s2 = .ret true s3 := by
  induction fuel with
  | zero =>
    intro node s s1 h
    cases h
  | succ fuel ih =>
    intro node s s1 h q hq
    rw [convertNode_succ, andThen_ret_true_iff] at h
    obtain ⟨s2, hmesh, hchildren⟩ := h
    rw [visitedTriangles_succ, List.mem_append] at hq
    rcases hq with hq | hq
    · exact convertNodeMesh_visited m node s s2 hmesh q hq
    · exact allOf_visited _ (convertNodeIndex m fuel) (visitedTrianglesAt m fuel)
        (convertNodeIndex_visited m fuel ih) node.children s2 s1 hchildren q hq

/-- A model that converts has converted every `TRIANGLES` primitive of its
walk. -/
theorem convertModel_visited (m : Model) (fuel : Nat) (s s1 : State)
    (h : convertModel m fuel s = some (.ret true s1)) :
    ∀ q ∈ modelTriangles m fuel,
      ∃ s2 s3, convertTrianglesPrimitive m q s2 = .ret true s3 := by
  unfold convertModel at h
  unfold modelTriangles
  refine allOf_visited _ (convertScene m fuel)
    (fun scene => scene.nodes.flatMap (visitedTrianglesAt m fuel)) ?_ m.scenes s s1 h
  intro scene s2 s3 hscene
  exact allOf_visited _ (convertNodeIndex m fuel) (visitedTrianglesAt m fuel)
    (convertNodeIndex_visited m fuel (convertNode_visited m fuel)) scene.nodes s2 s3 hscene

/-- More fuel visits at least the same primitives. -/
theorem mem_visitedTriangles_mono (m : Model) (q : Primitive) (fuel : Nat) :
    ∀ (fuel1 : Nat) (node : Node), fuel ≤ fuel1 → q ∈ visitedTriangles m fuel node →
      q ∈ visitedTriangles m fuel1 node := by
  induction fuel with
  | zero =>
    intro fuel1 node _ hq
    cases hq
  | succ fuel ih =>
    intro fuel1 node hle hq
    cases fuel1 with
    | zero => omega
    | succ fuel1 =>
      rw [visitedTriangles_succ, List.mem_append] at hq ⊢
      rcases hq with hq | hq
      · exact Or.inl hq
      · refine Or.inr ?_
        rw [List.mem_flatMap] at hq ⊢
        obtain ⟨i, hi, hqi⟩ := hq
        refine ⟨i, hi, ?_⟩
        unfold visitedTrianglesAt at hqi ⊢
        split
        · rename_i hneg
          rw [if_pos hneg] at hqi
          exact hqi
        · rename_i hneg
          rw [if_neg hneg] at hqi
          split at hqi
          · rename_i child hchild
            exact ih fuel1 child (by omega) hqi
          · cases hqi

theorem mem_modelTriangles_mono (m : Model) (q : Primitive) (fuel fuel1 : Nat)
    (hle : fuel ≤ fuel1) (hq : q ∈ modelTriangles m fuel) : q ∈ modelTriangles m fuel1 := by
  unfold modelTriangles at hq ⊢
  rw [List.mem_flatMap] at hq ⊢
  obtain ⟨scene, hscene, hq1⟩ := hq
  refine ⟨scene, hscene, ?_⟩
  rw [List.mem_flatMap] at hq1 ⊢
  obtain ⟨i, hi, hqi⟩ := hq1
  refine ⟨i, hi, ?_⟩
  unfold visitedTrianglesAt at hqi ⊢
  split
  · rename_i hneg
    rw [if_pos hneg] at hqi
    exact hqi
  · rename_i hneg
    rw [if_neg hneg] at hqi
    split at hqi
    · rename_i node hnode
      exact mem_visitedTriangles_mono m q fuel fuel1 node hle hqi
    · cases hqi

/-- Without an endless chain of child references the walk of the model ends
with some fuel, and with every larger fuel in the same way. -/
theorem convertModel_isSome_of_no_chain (m : Model) (hchain : ¬ HasEndlessChildChain m) :
    ∃ F, ∀ s, ∃ o, ∀ fuel, F ≤ fuel → convertModel m fuel s = some o := by
  have hwf : WellFounded (childRel m) := wellFounded_of_no_chain (childRel m) hchain
  obtain ⟨F, hF⟩ := convertNode_isSome_of_wellFounded m hwf
  refine ⟨F, fun s => ?_⟩
  have hsome : ∃ o, convertModel m F s = some o := by
    unfold convertModel
    refine allOf_isSome _ _ ?_ s
    intro scene _ s1
    unfold convertScene convertNodes
    exact allOf_isSome _ _ (fun i _ s2 => convertNodeIndex_isSome m F hF i s2) s1
  obtain ⟨o, ho⟩ := hsome
  exact ⟨o, fun fuel hle => convertModel_mono m F fuel hle s o ho⟩

theorem write_of_not_ret_true (ivWrite : String → List OutputNode → Bool → Bool)
    (m : Model) (fuel : Nat) (filename : String) (writeBinary : Bool) (s : State)
    (o : Outcome) (h : convertModel m fuel s = some o)
    (hne : ∀ s1, o ≠ .ret true s1) :
    ∃ s1, write ivWrite m fuel filename writeBinary s =
      some { returned := false, state := s1, writerCalls := [] } := by
  cases o with
  | raised e s1 => exact ⟨s1, by simp [write, h]⟩
  | ret value s1 =>
    cases value with
    | false => exact ⟨s1, by simp [write, h]⟩
    | true => exact absurd rfl (hne s1)

/-- A primitive whose conversion throws from every state makes the overall
conversion report failure. -/
theorem walkReportsFailure_of_raised (m : Model) (primitive : Primitive)
    (hraise : ∀ s, ∃ e s1, convertTrianglesPrimitive m primitive s = .raised e s1) :
    WalkReportsFailure m primitive := by
  have hnever : ∀ fuel s s1, primitive ∈ modelTriangles m fuel →
      convertModel m fuel s ≠ some (.ret true s1) := by
    intro fuel s s1 hmem hconv
    obtain ⟨s2, s3, h23⟩ := convertModel_visited m fuel s s1 hconv primitive hmem
    obtain ⟨e, s4, h4⟩ := hraise s2
    rw [h4] at h23
    cases h23
  have hmesh : primitive.mode = TINYGLTF_MODE_TRIANGLES →
      ∀ (mesh : Mesh) (s : State), primitive ∈ mesh.primitives →
        ∃ e s1, convertMesh m mesh s = some (.raised e s1) := by
    intro hmode mesh s hmem
    have hx : ∀ s2, ∃ e s3, convertPrimitive m primitive s2 = .raised e s3 := by
      intro s2
      obtain ⟨e, s3, he⟩ := hraise s2
      exact ⟨e, s3, by simp [convertPrimitive, hmode, he]⟩
    exact allOf_raised_of_mem (convertPrimitive m) primitive hx
      (convertPrimitive_ret_true_or_raised m) mesh.primitives s hmem
  refine ⟨hmesh, ?_, ?_, ?_⟩
  · intro hmode ivWrite fuel filename writeBinary s scene scenes i rest node mesh
      hscenes hnodes hnode hm hmem
    obtain ⟨e, s1, h1⟩ := hmesh hmode mesh s hmem
    exact ⟨s1, write_of_convertModel_raised ivWrite m (fuel + 1) filename writeBinary s s1 e
      (convertModel_raised_of_first_mesh m fuel s s1 e scene scenes i rest node mesh
        hscenes hnodes hnode hm h1)⟩
  · intro ivWrite fuel filename writeBinary s hmem r hr
    cases hconv : convertModel m fuel s with
    | none => simp [write, hconv] at hr
    | some o =>
      obtain ⟨s1, h1⟩ := write_of_not_ret_true ivWrite m fuel filename writeBinary s o hconv
        (fun s1 ho => hnever fuel s s1 hmem (by rw [hconv, ho]))
      rw [h1] at hr
      cases hr
      exact ⟨rfl, rfl⟩
  · intro fuel0 hmem hchain
    obtain ⟨F, hF⟩ := convertModel_isSome_of_no_chain m hchain
    refine ⟨max F fuel0, ?_⟩
    intro fuel hle ivWrite filename writeBinary s
    obtain ⟨o, ho⟩ := hF s
    have hconv := ho fuel (le_trans (Nat.le_max_left _ _) hle)
    have hmem1 := mem_modelTriangles_mono m primitive fuel0 fuel
      (le_trans (Nat.le_max_right _ _) hle) hmem
    exact write_of_not_ret_true ivWrite m fuel filename writeBinary s o hconv
      (fun s1 h1 => hnever fuel s s1 hmem1 (by rw [hconv, h1]))

/-! ## C3: signed 32-bit indices -/

/-- C3: when the index accessor of a primitive has scalar shape and component
type `INT` (signed 32-bit), `indices` throws the unsupported-component-type
error; converting it as a triangle primitive throws with the members
untouched; and the overall conversion reports failure: every mesh that
contains it (as a `TRIANGLES` primitive) throws, and wherever the walk of the
model meets it, `write` returns `false` and the external writer is not
invoked. -/
theorem indices_int_unsupported (m : Model) (primitive : Primitive) (accessor : Accessor)
    (hacc : vectorAt m.accessors primitive.indices = .ok accessor)
    (hshape : accessor.type = TINYGLTF_TYPE_SCALAR)
    (hcomp : accessor.componentType = TINYGLTF_COMPONENT_TYPE_INT) :
    indices m primitive = .error .unsupportedComponentType ∧
    (∀ s, ∃ e, convertTrianglesPrimitive m primitive s = .raised e s) ∧
    WalkReportsFailure m primitive := by
  have hind : indices m primitive = .error .unsupportedComponentType := by
    simp [indices, hacc, ensureAccessorType, hshape, hcomp,
      TINYGLTF_COMPONENT_TYPE_INT, TINYGLTF_COMPONENT_TYPE_BYTE,
      TINYGLTF_COMPONENT_TYPE_UNSIGNED_BYTE, TINYGLTF_COMPONENT_TYPE_SHORT,
      TINYGLTF_COMPONENT_TYPE_UNSIGNED_SHORT, TINYGLTF_COMPONENT_TYPE_UNSIGNED_INT,
      TINYGLTF_COMPONENT_TYPE_FLOAT]
  have htri : ∀ s, ∃ e, convertTrianglesPrimitive m primitive s = .raised e s := by
    intro s
    exact convertTrianglesPrimitive_of_indices_error m primitive s _ hind
  refine ⟨hind, htri, walkReportsFailure_of_raised m primitive ?_⟩
  intro s
  obtain ⟨e, he⟩ := htri s
  exact ⟨e, s, he⟩

/-- C3 (witness): the model with `INT` indices whose mesh hangs on the second
root node: `indices` throws, the walk visits the primitive, and a `write` that
ends returns `false` without invoking the writer. -/
theorem indices_int_unsupported_witness :
    indices (secondRootModel (trianglePrimitive TINYGLTF_MODE_TRIANGLES 0)
        TINYGLTF_COMPONENT_TYPE_INT) (trianglePrimitive TINYGLTF_MODE_TRIANGLES 0) =
      .error .unsupportedComponentType ∧
    trianglePrimitive TINYGLTF_MODE_TRIANGLES 0 ∈
      modelTriangles (secondRootModel (trianglePrimitive TINYGLTF_MODE_TRIANGLES 0)
        TINYGLTF_COMPONENT_TYPE_INT) 1 ∧
    (∀ r, write acceptingWriter (secondRootModel (trianglePrimitive TINYGLTF_MODE_TRIANGLES 0)
        TINYGLTF_COMPONENT_TYPE_INT) 1 "out.iv" false State.init = some r →
      r.returned = false ∧ r.writerCalls = []) ∧
    write acceptingWriter (secondRootModel (trianglePrimitive TINYGLTF_MODE_TRIANGLES 0)
        TINYGLTF_COMPONENT_TYPE_INT) 1 "out.iv" false State.init =
      some { returned := false, state := State.init, writerCalls := [] } :=
  ⟨(indices_int_unsupported
      (secondRootModel (trianglePrimitive TINYGLTF_MODE_TRIANGLES 0)
        TINYGLTF_COMPONENT_TYPE_INT)
      (trianglePrimitive TINYGLTF_MODE_TRIANGLES 0)
      (triangleIndices TINYGLTF_COMPONENT_TYPE_INT) rfl rfl rfl).1,
   by decide,
   (indices_int_unsupported
      (secondRootModel (trianglePrimitive TINYGLTF_MODE_TRIANGLES 0)
        TINYGLTF_COMPONENT_TYPE_INT)
      (trianglePrimitive TINYGLTF_MODE_TRIANGLES 0)
      (triangleIndices TINYGLTF_COMPONENT_TYPE_INT) rfl rfl rfl).2.2.2.2.1
      acceptingWriter 1 "out.iv" false State.init (by decide),
   by decide⟩

/-! ## C8: primitives without a material reference -/

/-- C8 (as amended): a triangle primitive without a material reference (a
negative material index) is not converted: `convertMaterial(int)` throws the
out-of-range error of `at`, so the conversion of the primitive throws with
the children of the root and the registry untouched; when positions, normals
and indices decode, the error is that out-of-range error.  No material node
is emitted, and the overall conversion reports failure: every mesh that holds
the primitive throws, and wherever the walk of the model meets it, `write`
returns `false` and the external writer is not invoked. -/
theorem convertTrianglesPrimitive_without_material (m : Model) (primitive : Primitive)
    (s : State) (hmat : primitive.material < 0) :
    convertMaterialIndex m primitive.material = .error .outOfRange ∧
    (∃ e, convertTrianglesPrimitive m primitive s = .raised e s) ∧
    (∀ ps ns ixs, positions m primitive = .ok ps → normals m primitive = .ok ns →
      indices m primitive = .ok ixs →
      convertTrianglesPrimitive m primitive s = .raised .outOfRange s) ∧
    WalkReportsFailure m primitive := by
  have hm : convertMaterialIndex m primitive.material = .error .outOfRange := by
    simp [convertMaterialIndex, vectorAt_neg _ _ hmat]
  have hraise : ∀ s2, ∃ e, convertTrianglesPrimitive m primitive s2 = .raised e s2 := by
    intro s2
    unfold convertTrianglesPrimitive
    rw [hm]
    cases positions m primitive with
    | error e => exact ⟨_, rfl⟩
    | ok ps =>
    cases normals m primitive with
    | error e => exact ⟨_, rfl⟩
    | ok ns =>
    cases indices m primitive with
    | error e => exact ⟨_, rfl⟩
    | ok ixs => exact ⟨_, rfl⟩
  refine ⟨hm, hraise s, ?_, walkReportsFailure_of_raised m primitive ?_⟩
  · intro ps ns ixs hp hn hi
    simp [convertTrianglesPrimitive, hp, hn, hi, hm]
  · intro s2
    obtain ⟨e, he⟩ := hraise s2
    exact ⟨e, s2, he⟩

/-- C8 (witness): the single-triangle model with material index `-1`, and the
same primitive in the model whose mesh hangs on the second root node. -/
theorem convertTrianglesPrimitive_without_material_witness :
    convertTrianglesPrimitive
        (singleMeshModel (trianglePrimitive TINYGLTF_MODE_TRIANGLES (-1))
          TINYGLTF_COMPONENT_TYPE_UNSIGNED_SHORT)
        (trianglePrimitive TINYGLTF_MODE_TRIANGLES (-1)) State.init =
      .raised .outOfRange State.init ∧
    (∀ r, write acceptingWriter
        (secondRootModel (trianglePrimitive TINYGLTF_MODE_TRIANGLES (-1))
          TINYGLTF_COMPONENT_TYPE_UNSIGNED_SHORT) 1 "out.iv" false State.init = some r →
      r.returned = false ∧ r.writerCalls = []) :=
  ⟨(convertTrianglesPrimitive_without_material
      (singleMeshModel (trianglePrimitive TINYGLTF_MODE_TRIANGLES (-1))
        TINYGLTF_COMPONENT_TYPE_UNSIGNED_SHORT)
      (trianglePrimitive TINYGLTF_MODE_TRIANGLES (-1)) State.init (by decide)).2.2.1
      _ _ _ rfl rfl rfl,
   (convertTrianglesPrimitive_without_material
      (secondRootModel (trianglePrimitive TINYGLTF_MODE_TRIANGLES (-1))
        TINYGLTF_COMPONENT_TYPE_UNSIGNED_SHORT)
      (trianglePrimitive TINYGLTF_MODE_TRIANGLES (-1)) State.init (by decide)).2.2.2.2.2.1
      acceptingWriter 1 "out.iv" false State.init (by decide)⟩

/-- C8 (counterexample): in the single-triangle model the primitive with
material index `-1` has decodable positions, normals and indices, yet its
conversion does not succeed and appends no material node: it throws, and
`write` returns `false`. -/
theorem convertPrimitive_without_material_fails :
    positions (singleMeshModel (trianglePrimitive TINYGLTF_MODE_TRIANGLES (-1))
        TINYGLTF_COMPONENT_TYPE_UNSIGNED_SHORT)
        (trianglePrimitive TINYGLTF_MODE_TRIANGLES (-1)) =
      .ok [⟨0, 0, 0⟩, ⟨1, 0, 0⟩, ⟨1, 1, 0⟩] ∧
    normals (singleMeshModel (trianglePrimitive TINYGLTF_MODE_TRIANGLES (-1))
        TINYGLTF_COMPONENT_TYPE_UNSIGNED_SHORT)
        (trianglePrimitive TINYGLTF_MODE_TRIANGLES (-1)) =
      .ok [⟨0, 0, 1⟩, ⟨0, 0, 1⟩, ⟨0, 0, 1⟩] ∧
    indices (singleMeshModel (trianglePrimitive TINYGLTF_MODE_TRIANGLES (-1))
        TINYGLTF_COMPONENT_TYPE_UNSIGNED_SHORT)
        (trianglePrimitive TINYGLTF_MODE_TRIANGLES (-1)) =
      .ok { kind := .uint16, values := [0, 1, 2] } ∧
    convertPrimitive (singleMeshModel (trianglePrimitive TINYGLTF_MODE_TRIANGLES (-1))
        TINYGLTF_COMPONENT_TYPE_UNSIGNED_SHORT)
        (trianglePrimitive TINYGLTF_MODE_TRIANGLES (-1)) State.init =
      .raised .outOfRange State.init ∧
    write acceptingWriter (singleMeshModel (trianglePrimitive TINYGLTF_MODE_TRIANGLES (-1))
        TINYGLTF_COMPONENT_TYPE_UNSIGNED_SHORT) 1 "out.iv" false State.init =
      some { returned := false, state := State.init, writerCalls := [] } := by
  refine ⟨rfl, rfl, rfl, by decide, by decide⟩

/-! ## C14: index streams that are not whole triangles -/

/-- C14 (as amended): take a triangle primitive whose index stream decodes
with a length that is not a multiple of three.  When its positions and normals
decode, its material resolves and its triangle indices all address a raw
position, the conversion throws the malformed-triangle-list error, after the
material, the two bindings, the coordinates and the normals were appended.
Whatever the other parts of the primitive are, its conversion throws some
error from every state, and the overall conversion reports failure: every mesh
that holds it throws, and wherever the walk of the model meets it, `write`
returns `false` without invoking the writer. -/
theorem convertTrianglesPrimitive_malformed (m : Model) (primitive : Primitive)
    (ixs : indices_t) (hi : indices m primitive = .ok ixs)
    (hlen : ixs.values.length % 3 ≠ 0) :
    (∀ (s : State) (ps : List position_t) (ns : List normal_t) (material : Material),
      positions m primitive = .ok ps → normals m primitive = .ok ns →
      vectorAt m.materials primitive.material = .ok material →
      (∀ i ∈ ixs.values, i < ps.length) →
      convertTrianglesPrimitive m primitive s =
        .raised .malformedTriangleList
          (afterFiveChildren (convertMaterial material) ps ns s)) ∧
    (∀ s, ∃ e s1, convertTrianglesPrimitive m primitive s = .raised e s1) ∧
    WalkReportsFailure m primitive := by
  refine ⟨?_, convertTrianglesPrimitive_raised_of_malformed m primitive ixs hi hlen,
    walkReportsFailure_of_raised m primitive
      (convertTrianglesPrimitive_raised_of_malformed m primitive ixs hi hlen)⟩
  intro s ps ns material hp hn hm hrange
  obtain ⟨pim, hpim, _⟩ := positionIndexMap_ok_of_range (unique ps) ps ixs hrange
  rw [convertTrianglesPrimitive_of_decoded m primitive s ps ns ixs (convertMaterial material)
    pim hp hn hi (convertMaterialIndex_of_vectorAt m _ material hm) hpim,
    convertTriangles_of_malformed ixs ns pim _ hlen]

/-- C14 (witness): the single-triangle model with only the indices `0, 1`:
the conversion throws the malformed-triangle-list error after five children
were appended, and `write` returns `false` without invoking the writer. -/
theorem convertTrianglesPrimitive_malformed_witness :
    convertTrianglesPrimitive (twoIndexModel 0) (trianglePrimitive TINYGLTF_MODE_TRIANGLES 0)
        State.init =
      .raised .malformedTriangleList
        { children :=
            [.material (convertMaterial redMaterial), .materialBinding .overall,
             .coordinate3 [⟨0, 0, 0⟩, ⟨1, 0, 0⟩, ⟨1, 1, 0⟩], .normalBinding .perVertexIndexed,
             .normal [some ⟨0, 0, 1⟩]]
          normalMap := [(⟨0, 0, 1⟩, 0)] } ∧
    (∀ r, write acceptingWriter (twoIndexModel 0) 1 "out.iv" false State.init = some r →
      r.returned = false ∧ r.writerCalls = []) :=
  ⟨((convertTrianglesPrimitive_malformed (twoIndexModel 0)
      (trianglePrimitive TINYGLTF_MODE_TRIANGLES 0)
      { kind := .uint16, values := [0, 1] } rfl (by decide)).1 State.init
      [⟨0, 0, 0⟩, ⟨1, 0, 0⟩, ⟨1, 1, 0⟩] [⟨0, 0, 1⟩, ⟨0, 0, 1⟩, ⟨0, 0, 1⟩]
      redMaterial rfl rfl rfl (by decide)).trans rfl,
   (convertTrianglesPrimitive_malformed (twoIndexModel 0)
      (trianglePrimitive TINYGLTF_MODE_TRIANGLES 0)
      { kind := .uint16, values := [0, 1] } rfl (by decide)).2.2.2.2.1
      acceptingWriter 1 "out.iv" false State.init (by decide)⟩

/-- C14 (counterexample): the same two-index primitive without a material
reference: its index stream has length two, yet the conversion does not throw
the malformed-triangle-list error but the out-of-range error of the material
access, before any child is appended. -/
theorem convertTrianglesPrimitive_malformed_other_error :
    indices (twoIndexModel (-1)) (trianglePrimitive TINYGLTF_MODE_TRIANGLES (-1)) =
      .ok { kind := .uint16, values := [0, 1] } ∧
    ([0, 1] : List Nat).length % 3 ≠ 0 ∧
    convertTrianglesPrimitive (twoIndexModel (-1))
        (trianglePrimitive TINYGLTF_MODE_TRIANGLES (-1)) State.init =
      .raised .outOfRange State.init ∧
    (¬ ∃ s1, convertTrianglesPrimitive (twoIndexModel (-1))
        (trianglePrimitive TINYGLTF_MODE_TRIANGLES (-1)) State.init =
      .raised .malformedTriangleList s1) := by
  have h : convertTrianglesPrimitive (twoIndexModel (-1))
      (trianglePrimitive TINYGLTF_MODE_TRIANGLES (-1)) State.init =
      .raised .outOfRange State.init := by decide
  refine ⟨rfl, by decide, h, ?_⟩
  rintro ⟨s1, h1⟩
  rw [h] at h1
  cases h1

end GltfIv
